import Mathlib

/-!
Verification development for a small tick-driven operating-system simulator
(process scheduling with a multi-level feedback queue, FIFO paged memory,
a bounded producer/consumer buffer, counting resource semaphores and a tiny
in-memory file system).

The Python sources are embedded shallowly: each class becomes a structure,
each method a pure function on that structure.  Python objects that are
aliased between containers (a `Process` appears in the process pool and in
the ready/blocked/finished containers simultaneously) are de-aliased by
keeping the pool as the single store, keyed by pid, and letting every other
container hold pids; every in-place mutation of a process is written back to
the pool at the point where the source mutates the shared object.
Python dicts become insertion-ordered association lists.
-/

/-- Lookup in an insertion-ordered association list (Python `d[k]` / `d.get(k)`). -/
def alookup {α β : Type} [DecidableEq α] (k : α) : List (α × β) → Option β
  | [] => none
  | (k', v) :: rest => if k' = k then some v else alookup k rest

/-- Assignment `d[k] = v` on an insertion-ordered association list: an existing
binding keeps its position, a new key is appended at the end. -/
def ainsert {α β : Type} [DecidableEq α] (k : α) (v : β) : List (α × β) → List (α × β)
  | [] => [(k, v)]
  | (k', v') :: rest => if k' = k then (k, v) :: rest else (k', v') :: ainsert k v rest

/-- Deletion `del d[k]` on an association list (removes the binding of `k`). -/
def aerase {α β : Type} [DecidableEq α] (k : α) : List (α × β) → List (α × β)
  | [] => []
  | (k', v) :: rest => if k' = k then rest else (k', v) :: aerase k rest

/-- A single step a process can perform in the simulation
(src/simulator/models.py, `ProcessAction`), extended with the `resource`
payload that src/simulator/os_simulator.py passes to and reads from every
`res_acquire` / `res_release` action.  The dataclass as declared in
models.py itself lacks this field; `processActionFieldNames` below records
the declared field list verbatim, and claim C4 is settled against it. -/
structure ProcessAction where
  kind : String
  description : String
  page : Option Int := none
  path : Option String := none
  size : Option Int := none
  io_duration : Int := 0
  resource : Option String := none
deriving DecidableEq, Repr

/-- The field names of the `ProcessAction` dataclass exactly as declared in
src/simulator/models.py (kind, description, page, path, size, io_duration —
and no `resource` field). -/
def processActionFieldNames : List String :=
  ["kind", "description", "page", "path", "size", "io_duration"]

/-- Python dataclass calling convention: a call with keyword arguments is
accepted only when every keyword names a declared field; otherwise the
constructor raises `TypeError: unexpected keyword argument`. -/
def dataclassAcceptsKwargs (fields : List String) (kwargs : List String) : Bool :=
  kwargs.all (fun kw => fields.contains kw)

/-- Python `str.startswith`, written structurally so that it evaluates. -/
def charsPrefix : List Char → List Char → Bool
  | [], _ => true
  | _ :: _, [] => false
  | p :: ps, c :: cs => if p = c then charsPrefix ps cs else false

def strStartsWith (s p : String) : Bool := charsPrefix p.data s.data

/-- src/simulator/models.py, `Process`. -/
structure Process where
  pid : Nat
  name : String
  arrival_time : Nat
  actions : List ProcessAction
  memory_pages : Nat
  state : String := "New"
  pointer : Nat := 0
  current_quantum : Nat := 0
  io_timer : Int := 0
  queue_level : Nat := 0
  wait_reason : String := ""
  page_table : List (Int × Nat) := []
deriving DecidableEq, Repr

/-- `Process.next_action`. -/
def Process.next_action (p : Process) : Option ProcessAction :=
  if p.pointer < p.actions.length then p.actions.get? p.pointer else none

/-- `Process.advance`. -/
def Process.advance (p : Process) : Process := { p with pointer := p.pointer + 1 }

/-- `Process.remaining_actions` (`max(len(actions) - pointer, 0)`). -/
def Process.remaining_actions (p : Process) : Nat := p.actions.length - p.pointer

/-- `Process.mark_blocked`. -/
def Process.mark_blocked (p : Process) (duration : Int) : Process :=
  { p with state := "Blocked", io_timer := duration, current_quantum := 0, wait_reason := "" }

/-- `Process.mark_wait`. -/
def Process.mark_wait (p : Process) (reason : String) : Process :=
  { p with state := "Blocked", wait_reason := reason, current_quantum := 0 }

/-- `Process.tick_block`: decrement a positive `io_timer`; once it is zero and
no wait reason is set, become Ready and report the wake. -/
def Process.tick_block (p : Process) : Process × Bool :=
  let t := if p.io_timer > 0 then p.io_timer - 1 else p.io_timer
  if t = 0 ∧ p.wait_reason = "" then
    ({ p with io_timer := t, state := "Ready" }, true)
  else
    ({ p with io_timer := t }, false)

/-- `Process.ready_from_wait`. -/
def Process.ready_from_wait (p : Process) : Process :=
  { p with wait_reason := "", state := "Ready" }

/-- `Process.finish`. -/
def Process.finish (p : Process) : Process :=
  { p with state := "Finished", current_quantum := 0 }

/-- `Process.reset_runtime`. -/
def Process.reset_runtime (p : Process) : Process := { p with current_quantum := 0 }

/-- src/simulator/memory.py, `MemoryManager`: fixed frame table, FIFO
replacement queue of frame indices, reverse index `(pid, page) → frame`. -/
structure MemoryManager where
  frames : Nat
  frame_table : List (Option (Nat × Int))
  replacement_queue : List Nat
  page_locations : List ((Nat × Int) × Nat)
  last_access : Option Nat := none
deriving DecidableEq, Repr

/-- `MemoryManager.__init__(frames)`. -/
def MemoryManager.make (frames : Nat) : MemoryManager :=
  { frames := frames
    frame_table := List.replicate frames none
    replacement_queue := List.range frames
    page_locations := []
    last_access := none }

/-- `MemoryManager.access_page(process, page)`: returns
`(manager', process', page_fault, frame, evicted_page)`.  The result is
`none` exactly where the Python code would raise (popping from an empty
replacement queue, or indexing the frame table out of range) — situations
the simulator never produces. -/
def MemoryManager.access_page (m : MemoryManager) (process : Process) (page : Int) :
    Option (MemoryManager × Process × Bool × Nat × Option (Nat × Int)) :=
  let normalized := page % max (process.memory_pages : Int) 1
  let key : Nat × Int := (process.pid, normalized)
  match alookup key m.page_locations with
  | some frame => some ({ m with last_access := some frame }, process, false, frame, none)
  | none =>
    match m.replacement_queue with
    | [] => none
    | frame :: rest =>
      match m.frame_table.get? frame with
      | none => none
      | some evicted =>
        let locs :=
          match evicted with
          | some ek => aerase ek m.page_locations
          | none => m.page_locations
        let m' : MemoryManager :=
          { m with
            frame_table := m.frame_table.set frame (some key)
            page_locations := ainsert key frame locs
            replacement_queue := rest ++ [frame]
            last_access := some frame }
        let process' := { process with page_table := ainsert normalized frame process.page_table }
        some (m', process', true, frame, evicted)

/-- `MemoryManager.reset`. -/
def MemoryManager.reset (m : MemoryManager) : MemoryManager :=
  { m with
    frame_table := List.replicate m.frames none
    replacement_queue := List.range m.frames
    page_locations := []
    last_access := none }

/-- src/simulator/filesystem.py, `FileEntry`. -/
structure FileEntry where
  owner : Nat
  size : Int
  content : String
deriving DecidableEq, Repr

/-- src/simulator/filesystem.py, `FileSystem`. -/
structure FileSystem where
  files : List (String × FileEntry) := []
deriving DecidableEq, Repr

/-- `FileSystem.create`: an existing path is reported as overwritten but left
untouched; a new path gets an entry with empty content (`"" * size`). -/
def FileSystem.create (fs : FileSystem) (path : String) (owner : Nat) (size : Int) :
    FileSystem × String :=
  match alookup path fs.files with
  | some _ => (fs, "文件 " ++ path ++ " 已存在，覆盖旧数据。")
  | none =>
    ({ files := ainsert path { owner := owner, size := size, content := "" } fs.files },
      "进程 " ++ toString owner ++ " 创建文件 " ++ path ++ "，初始大小 " ++ toString size ++ "KB。")

/-- `FileSystem.write`: creates the file when missing, otherwise extends it
(`content += "#" * size`). -/
def FileSystem.write (fs : FileSystem) (path : String) (owner : Nat) (size : Int) :
    FileSystem × String :=
  match alookup path fs.files with
  | none =>
    ({ files := ainsert path { owner := owner, size := size, content := "" } fs.files },
      "进程 " ++ toString owner ++ " 向新文件 " ++ path ++ " 写入 " ++ toString size ++ "KB。")
  | some entry =>
    ({ files := ainsert path
        { entry with
          size := entry.size + size
          content := entry.content ++ String.mk (List.replicate size.toNat '#') } fs.files },
      "进程 " ++ toString owner ++ " 扩展文件 " ++ path ++ "，增加 " ++ toString size ++ "KB。")

/-- `FileSystem.read`. -/
def FileSystem.read (fs : FileSystem) (path : String) (owner : Nat) : FileSystem × String :=
  match alookup path fs.files with
  | none => (fs, "进程 " ++ toString owner ++ " 读取 " ++ path ++ " 失败：文件不存在。")
  | some entry =>
    (fs, "进程 " ++ toString owner ++ " 读取 " ++ path ++ "，大小 " ++ toString entry.size ++ "KB。")

/-- `FileSystem.delete`. -/
def FileSystem.delete (fs : FileSystem) (path : String) (owner : Nat) : FileSystem × String :=
  match alookup path fs.files with
  | none => (fs, "进程 " ++ toString owner ++ " 删除 " ++ path ++ " 失败：文件不存在。")
  | some _ => ({ files := aerase path fs.files }, "进程 " ++ toString owner ++ " 删除文件 " ++ path ++ "。")

/-- `OSSimulator._default_templates`: the six fixed scripted processes. -/
def default_templates : List Process :=
  [ { pid := 1, name := "生产者A", arrival_time := 0, memory_pages := 3
      actions := [
        { kind := "produce", description := "申请互斥并生产一件产品" },
        { kind := "mem", description := "访问代码页", page := some 0 },
        { kind := "produce", description := "继续生产填充缓冲区" },
        { kind := "produce", description := "生产更多数据" },
        { kind := "cpu", description := "计算校验码" },
        { kind := "produce", description := "尝试再放入一件" },
        { kind := "produce", description := "再次填充，可能触发满等待" }] },
    { pid := 2, name := "消费者B", arrival_time := 0, memory_pages := 3
      actions := [
        { kind := "consume", description := "申请互斥并消费一件产品" },
        { kind := "mem", description := "访问数据页", page := some 1 },
        { kind := "consume", description := "继续消费" },
        { kind := "io", description := "输出结果", io_duration := 1 },
        { kind := "consume", description := "再次消费" },
        { kind := "consume", description := "直到缓冲区空，可能阻塞" }] },
    { pid := 3, name := "生产者C", arrival_time := 1, memory_pages := 3
      actions := [
        { kind := "produce", description := "批量生产，补充库存" },
        { kind := "produce", description := "继续生产" },
        { kind := "mem", description := "更新生产统计", page := some 1 },
        { kind := "produce", description := "再放入一件" },
        { kind := "cpu", description := "计算下一批计划" },
        { kind := "produce", description := "补齐缓冲，可能等待空位" }] },
    { pid := 4, name := "备份程序", arrival_time := 3, memory_pages := 4
      actions := [
        { kind := "file_create", description := "创建日志", path := some "/backup/log", size := some 1 },
        { kind := "mem", description := "扫描页", page := some 0 },
        { kind := "cpu", description := "压缩数据" },
        { kind := "file_write", description := "写入镜像", path := some "/backup/image", size := some 8 },
        { kind := "io", description := "写入磁盘", io_duration := 2 },
        { kind := "mem", description := "校验页", page := some 2 },
        { kind := "file_delete", description := "删除旧镜像", path := some "/backup/old" },
        { kind := "res_acquire", description := "占用磁带机写出", resource := some "磁带机" },
        { kind := "cpu", description := "收尾" },
        { kind := "res_release", description := "释放磁带机", resource := some "磁带机" }] },
    { pid := 5, name := "消费者D", arrival_time := 2, memory_pages := 2
      actions := [
        { kind := "consume", description := "尝试消费产品，可能等待" },
        { kind := "mem", description := "访问缓存页", page := some 1 },
        { kind := "consume", description := "继续消费清空缓冲" },
        { kind := "consume", description := "再次消费" }] },
    { pid := 6, name := "数据库", arrival_time := 2, memory_pages := 5
      actions := [
        { kind := "cpu", description := "接收查询" },
        { kind := "mem", description := "访问索引页", page := some 2 },
        { kind := "file_read", description := "读取数据页", path := some "/data/users", size := some 2 },
        { kind := "cpu", description := "计算聚合" },
        { kind := "res_acquire", description := "申请GPU并执行加速", resource := some "GPU" },
        { kind := "io", description := "等待磁盘", io_duration := 1 },
        { kind := "mem", description := "访问缓存页", page := some 3 },
        { kind := "res_release", description := "释放GPU", resource := some "GPU" },
        { kind := "cpu", description := "返回结果" }] } ]

/-- `OSSimulator._dynamic_templates`: the rotating action scripts for
dynamically spawned jobs. -/
def dynamic_templates_def : List (List ProcessAction) :=
  [ [ { kind := "cpu", description := "短作业计算" },
      { kind := "mem", description := "访存页", page := some 0 },
      { kind := "cpu", description := "快速结束" } ],
    [ { kind := "res_acquire", description := "申请打印机生成报表", resource := some "打印机" },
      { kind := "cpu", description := "格式化报表" },
      { kind := "mem", description := "加载模板页", page := some 2 },
      { kind := "res_release", description := "释放打印机", resource := some "打印机" } ],
    [ { kind := "mem", description := "预取代码页", page := some 1 },
      { kind := "io", description := "等待网络", io_duration := 1 },
      { kind := "file_read", description := "读取配置", path := some "/etc/conf", size := some 1 },
      { kind := "cpu", description := "处理请求" } ] ]

/-- src/simulator/os_simulator.py, `OSSimulator.__init__(time_quantum=2)`.
The process pool is the single store of `Process` values, keyed by pid;
the ready queues, blocked list, finished list and running slot hold pids
(in the source they hold aliases of the pooled objects). -/
structure OSSimulator where
  time_quantum : Nat := 2
  clock : Nat := 0
  process_pool : List (Nat × Process) := []
  ready_queues : List (List Nat) := [[], [], []]
  blocked : List Nat := []
  finished : List Nat := []
  running : Option Nat := none
  memory : MemoryManager := MemoryManager.make 20
  file_system : FileSystem := {}
  event_log : List String := []
  buffer_capacity : Nat := 5
  buffer_slots : List (Option Nat) := List.replicate 5 none
  buffer_in : Nat := 0
  buffer_out : Nat := 0
  buffer_count : Int := 0
  mutex_owner : Option Nat := none
  shared_resources : List (String × Int) := [("磁带机", 1), ("GPU", 1), ("打印机", 2)]
  queue_quantums : List Nat := [1, 2, 4]
  templates : List Process := default_templates
  dynamic_templates : List (List ProcessAction) := dynamic_templates_def
  next_pid : Nat := default_templates.length + 1
deriving DecidableEq, Repr

/-- Read a process from the pool (dereference a pid alias). -/
def OSSimulator.getProc (s : OSSimulator) (pid : Nat) : Option Process :=
  alookup pid s.process_pool

/-- Write a mutated process back to the pool (the source mutates the shared
object in place). -/
def OSSimulator.setProc (s : OSSimulator) (p : Process) : OSSimulator :=
  { s with process_pool := ainsert p.pid p s.process_pool }

/-- `OSSimulator._log`. -/
def OSSimulator.log_event (s : OSSimulator) (message : String) : OSSimulator :=
  { s with event_log := s.event_log ++ ["[t=" ++ toString s.clock ++ "] " ++ message] }

/-- `OSSimulator._clone_process`: fresh pointer, runtime fields and page
table; the action list is copied from the template. -/
def OSSimulator.clone_process (template : Process) : Process :=
  { pid := template.pid
    name := template.name
    arrival_time := template.arrival_time
    actions := template.actions
    memory_pages := template.memory_pages }

/-- `OSSimulator.reset`: note that `shared_resources` is not reinitialized. -/
def OSSimulator.reset (s : OSSimulator) : OSSimulator :=
  { s with
    clock := 0
    process_pool := s.templates.map (fun proc => (proc.pid, OSSimulator.clone_process proc))
    ready_queues := s.ready_queues.map (fun _ => [])
    blocked := []
    finished := []
    running := none
    memory := s.memory.reset
    file_system := { files := [] }
    event_log := []
    buffer_slots := List.replicate s.buffer_capacity none
    buffer_in := 0
    buffer_out := 0
    buffer_count := 0
    mutex_owner := none
    next_pid := s.templates.length + 1 }

/-- `OSSimulator._spawn_dynamic_job`. -/
def OSSimulator.spawn_dynamic_job (s : OSSimulator) : OSSimulator :=
  let index := (s.clock / 3) % s.dynamic_templates.length
  let actions := (s.dynamic_templates.getD index []).map
    (fun a => ProcessAction.mk a.kind a.description a.page a.path a.size a.io_duration a.resource)
  let proc : Process :=
    { pid := s.next_pid
      name := "新作业" ++ toString s.next_pid
      arrival_time := s.clock
      memory_pages := 3
      actions := actions }
  let s := s.setProc proc
  let s := { s with next_pid := s.next_pid + 1 }
  let proc := { proc with state := "Ready", queue_level := 0 }
  let s := s.setProc proc
  let s := { s with ready_queues := s.ready_queues.set 0 ((s.ready_queues.getD 0 []) ++ [proc.pid]) }
  s.log_event ("自动生成新进程 " ++ toString proc.pid ++ " 插入就绪队列，保持持续负载。")

/-- Head of the first non-empty ready queue: its level, the popped pid and
the rest of that queue (the scan in `OSSimulator._dispatch_if_needed`). -/
def findFirstReady : List (List Nat) → Option (Nat × Nat × List Nat)
  | [] => none
  | q :: qs =>
    match q with
    | pid :: rest => some (0, pid, rest)
    | [] => (findFirstReady qs).map (fun r => (r.1 + 1, r.2.1, r.2.2))

/-- `OSSimulator._dispatch_if_needed`. -/
def OSSimulator.dispatch_if_needed (s : OSSimulator) : OSSimulator :=
  match s.running with
  | some _ => s
  | none =>
    match findFirstReady s.ready_queues with
    | none => s
    | some (level, pid, rest) =>
      let s := { s with ready_queues := s.ready_queues.set level rest, running := some pid }
      let s :=
        match s.getProc pid with
        | some proc =>
          s.setProc { (proc.reset_runtime) with state := "Running", queue_level := level }
        | none => s
      s.log_event ("调度进程 " ++ toString pid ++ " 进入CPU（队列Q" ++ toString level ++
        ", 时间片 " ++ toString (s.queue_quantums.getD level 0) ++ "）。")

/-- `OSSimulator._can_wake_from_wait`. -/
def OSSimulator.can_wake_from_wait (s : OSSimulator) (proc : Process) : Bool :=
  if proc.wait_reason = "等待空槽" then s.buffer_count < (s.buffer_capacity : Int)
  else if proc.wait_reason = "等待产品" then s.buffer_count > 0
  else if proc.wait_reason = "等待互斥锁" then s.mutex_owner = none
  else if strStartsWith proc.wait_reason "等待资源" then
    let resource := proc.wait_reason.replace "等待资源" ""
    (alookup resource s.shared_resources).getD 0 > 0
  else false

/-- `OSSimulator._handle_blocked`, first pass: walk a snapshot of the blocked
list, wake condition-blocked processes whose predicate holds and count down
timer blocks, collecting `(pid, wait_reason)` of the newly ready ones. -/
def wakeStep (acc : OSSimulator × List (Nat × String)) (pid : Nat) :
    OSSimulator × List (Nat × String) :=
  let s := acc.1
  match s.getProc pid with
  | none => acc
  | some proc =>
    if proc.wait_reason ≠ "" then
      if s.can_wake_from_wait proc then
        (s.setProc proc.ready_from_wait, acc.2 ++ [(pid, proc.wait_reason)])
      else acc
    else
      let r := proc.tick_block
      let s := s.setProc r.1
      if r.2 then (s, acc.2 ++ [(pid, "")]) else (s, acc.2)

def OSSimulator.wakePass (start : OSSimulator) (pids : List Nat) :
    OSSimulator × List (Nat × String) :=
  pids.foldl wakeStep (start, [])

/-- `OSSimulator._handle_blocked`, second half: drop the woken processes from
the blocked list and append each to ready queue 0 at queue level 0. -/
def reqStep (s : OSSimulator) (pr : Nat × String) : OSSimulator :=
  let s :=
    match s.getProc pr.1 with
    | some proc => s.setProc { proc with queue_level := 0 }
    | none => s
  let s := { s with ready_queues := s.ready_queues.set 0 ((s.ready_queues.getD 0 []) ++ [pr.1]) }
  if pr.2 ≠ "" then
    s.log_event ("进程 " ++ toString pr.1 ++ " 获得" ++ pr.2 ++ "，回到高优先级队列。")
  else
    s.log_event ("进程 " ++ toString pr.1 ++ " I/O 完成，重新进入高优先级队列。")

def OSSimulator.requeueWoken (s : OSSimulator) (newly : List (Nat × String)) : OSSimulator :=
  newly.foldl reqStep s

/-- `OSSimulator._handle_blocked`. -/
def OSSimulator.handle_blocked (s : OSSimulator) : OSSimulator :=
  let r := s.wakePass s.blocked
  let s := r.1
  let keep : Nat → Bool := fun pid =>
    match s.getProc pid with
    | some p => p.state == "Blocked"
    | none => false
  let s := { s with blocked := s.blocked.filter keep }
  s.requeueWoken r.2

/-- `OSSimulator._complete_process`. -/
def OSSimulator.complete_process (s : OSSimulator) (proc : Process) : OSSimulator :=
  let proc := proc.finish
  let s := s.setProc proc
  let s := { s with finished := s.finished ++ [proc.pid] }
  let s := s.log_event ("进程 " ++ toString proc.pid ++ " 已完成全部动作。")
  { s with running := none }

/-- `OSSimulator._preempt`. -/
def OSSimulator.preempt (s : OSSimulator) (proc : Process) : OSSimulator :=
  let proc := { proc with
    state := "Ready"
    current_quantum := 0
    queue_level := min (proc.queue_level + 1) (s.ready_queues.length - 1) }
  let s := s.setProc proc
  let s := { s with ready_queues :=
      s.ready_queues.set proc.queue_level ((s.ready_queues.getD proc.queue_level []) ++ [proc.pid]) }
  let s := s.log_event ("进程 " ++ toString proc.pid ++ " 时间片用完，降到队列 Q" ++
      toString proc.queue_level ++ "。")
  { s with running := none }

/-- `OSSimulator._block` (countdown block for `io`). -/
def OSSimulator.block (s : OSSimulator) (proc : Process) (duration : Int) : OSSimulator :=
  let proc := proc.mark_blocked duration
  let s := s.setProc proc
  let s := { s with blocked := s.blocked ++ [proc.pid] }
  let s := s.log_event ("进程 " ++ toString proc.pid ++ " 阻塞，等待 " ++ toString duration ++ " 个时间片。")
  { s with running := none }

/-- `OSSimulator._block_reason` (condition block). -/
def OSSimulator.block_reason (s : OSSimulator) (proc : Process) (reason : String) : OSSimulator :=
  let proc := proc.mark_wait reason
  let s := s.setProc proc
  let s := { s with blocked := s.blocked ++ [proc.pid] }
  let s := s.log_event ("进程 " ++ toString proc.pid ++ " 因 " ++ reason ++ " 阻塞，等待资源。")
  { s with running := none }

/-- `OSSimulator._with_mutex`. -/
def OSSimulator.with_mutex (s : OSSimulator) (proc : Process) : OSSimulator × Bool :=
  match s.mutex_owner with
  | none => ({ s with mutex_owner := some proc.pid }, true)
  | some owner =>
    if owner = proc.pid then (s, true)
    else (s.block_reason proc "等待互斥锁", false)

/-- `OSSimulator._release_mutex`. -/
def OSSimulator.release_mutex (s : OSSimulator) (proc : Process) : OSSimulator :=
  if s.mutex_owner = some proc.pid then { s with mutex_owner := none } else s

/-- `OSSimulator._execute_memory`: delegate to the memory manager and, on an
eviction, drop the evicted page from its owner's private page table.  The
`none` branch marks the access paths on which the source would raise; the
simulator never reaches them. -/
def OSSimulator.execute_memory (s : OSSimulator) (proc : Process) (action : ProcessAction) :
    OSSimulator :=
  match s.memory.access_page proc ((action.page).getD 0) with
  | none => s
  | some (m', proc', fault, frame, evicted) =>
    let s := { s with memory := m' }
    let s := s.setProc proc'
    if fault then
      let s :=
        match evicted with
        | some ek =>
          match s.getProc ek.1 with
          | some owner => s.setProc { owner with page_table := aerase ek.2 owner.page_table }
          | none => s
        | none => s
      let evicted_text :=
        match evicted with
        | some ek => "，淘汰页 (" ++ toString ek.1 ++ ", " ++ toString ek.2 ++ ")"
        | none => ""
      s.log_event ("进程 " ++ toString proc.pid ++ " 访问虚页 " ++ toString ((action.page).getD 0) ++
        " 发生缺页，装入帧 " ++ toString frame ++ evicted_text ++ "。")
    else
      s.log_event ("进程 " ++ toString proc.pid ++ " 命中物理帧 " ++ toString frame ++ "。")

/-- The body of `OSSimulator._execute_pc_action` once the mutex has been
acquired (the code after the early `if not ok: return`). -/
def OSSimulator.pc_go (s : OSSimulator) (proc : Process) (action : ProcessAction) :
    OSSimulator :=
  if action.kind = "produce" then
      if s.buffer_count ≥ (s.buffer_capacity : Int) then
        let s := s.release_mutex proc
        s.block_reason proc "等待空槽"
      else
        let slot := s.buffer_in
        let s := { s with
          buffer_slots := s.buffer_slots.set s.buffer_in (some proc.pid)
          buffer_in := (s.buffer_in + 1) % s.buffer_capacity
          buffer_count := s.buffer_count + 1 }
        let s := s.log_event ("进程 " ++ toString proc.pid ++ " 生产 1 件产品放入槽位 " ++
          toString slot ++ "，缓冲区 " ++ toString s.buffer_count ++ "/" ++ toString s.buffer_capacity ++ "。")
        s.release_mutex proc
    else if action.kind = "consume" then
      if s.buffer_count ≤ 0 then
        let s := s.release_mutex proc
        s.block_reason proc "等待产品"
      else
        let owner := s.buffer_slots.getD s.buffer_out none
        let slot := s.buffer_out
        let s := { s with
          buffer_slots := s.buffer_slots.set s.buffer_out none
          buffer_out := (s.buffer_out + 1) % s.buffer_capacity
          buffer_count := s.buffer_count - 1 }
        let who := match owner with | some o => "(来自P" ++ toString o ++ ")" | none => ""
        let s := s.log_event ("进程 " ++ toString proc.pid ++ " 消费槽位 " ++ toString slot ++
          " 的产品" ++ who ++ "，缓冲区 " ++ toString s.buffer_count ++ "/" ++ toString s.buffer_capacity ++ "。")
        s.release_mutex proc
    else s.release_mutex proc

/-- `OSSimulator._execute_pc_action` (bounded-buffer produce/consume under
the mutex). -/
def OSSimulator.execute_pc_action (s : OSSimulator) (proc : Process) (action : ProcessAction) :
    OSSimulator :=
  let r := s.with_mutex proc
  if r.2 = false then r.1
  else r.1.pc_go proc action

/-- The `action.resource or "未知资源"` idiom (`None` and the empty string are
both falsy in Python). -/
def resourceName (action : ProcessAction) : String :=
  match action.resource with
  | some r => if r = "" then "未知资源" else r
  | none => "未知资源"

/-- `OSSimulator._execute_resource_action` (counting semaphores). -/
def OSSimulator.execute_resource_action (s : OSSimulator) (proc : Process) (action : ProcessAction) :
    OSSimulator :=
  let resource := resourceName action
  if action.kind = "res_acquire" then
    if (alookup resource s.shared_resources).getD 0 ≤ 0 then
      s.block_reason proc ("等待资源" ++ resource)
    else
      let newCount := (alookup resource s.shared_resources).getD 0 - 1
      let s := { s with shared_resources := ainsert resource newCount s.shared_resources }
      s.log_event ("进程 " ++ toString proc.pid ++ " 获取资源 " ++ resource ++ "，剩余 " ++
        toString newCount ++ "。")
  else
    let newCount := (alookup resource s.shared_resources).getD 0 + 1
    let s := { s with shared_resources := ainsert resource newCount s.shared_resources }
    s.log_event ("进程 " ++ toString proc.pid ++ " 释放资源 " ++ resource ++ "，可用 " ++
      toString newCount ++ "。")

/-- `OSSimulator._execute_file_action`. -/
def OSSimulator.execute_file_action (s : OSSimulator) (proc : Process) (action : ProcessAction) :
    OSSimulator :=
  let pr :=
    if action.kind = "file_create" then
      s.file_system.create ((action.path).getD "") proc.pid ((action.size).getD 0)
    else if action.kind = "file_write" then
      s.file_system.write ((action.path).getD "") proc.pid ((action.size).getD 0)
    else if action.kind = "file_read" then
      s.file_system.read ((action.path).getD "") proc.pid
    else if action.kind = "file_delete" then
      s.file_system.delete ((action.path).getD "") proc.pid
    else (s.file_system, "未知文件操作")
  let s := { s with file_system := pr.1 }
  s.log_event pr.2

/-- The cursor/quantum tail of `OSSimulator._run_action`: advance the cursor,
finish the process when no actions remain, otherwise charge one quantum unit
and preempt (demote) once the level's quantum is used up. -/
def OSSimulator.run_action_tail (s : OSSimulator) (proc : Process) : OSSimulator :=
  let proc := proc.advance
  let s := s.setProc proc
  if proc.remaining_actions = 0 then s.complete_process proc
  else
    let proc := { proc with current_quantum := proc.current_quantum + 1 }
    let s := s.setProc proc
    if proc.current_quantum ≥ s.queue_quantums.getD proc.queue_level 0 then s.preempt proc
    else s

/-- `OSSimulator._run_action`: interpret the running process's next scripted
action; advance the cursor unless the action was an `io` block (cursor
advanced before blocking) or a failed synchronization attempt (cursor kept,
action retried on wake); then finish or apply quantum accounting. -/
def OSSimulator.run_action (s : OSSimulator) (proc : Process) : OSSimulator :=
  match proc.next_action with
  | none => s.complete_process proc
  | some action =>
    let s := s.log_event ("进程 " ++ toString proc.pid ++ "：" ++ action.description)
    if action.kind = "io" then
      let proc := proc.advance
      let s := s.setProc proc
      s.block proc (if action.io_duration = 0 then 1 else action.io_duration)
    else
      let s :=
        if action.kind = "cpu" then s
        else if action.kind = "mem" then s.execute_memory proc action
        else if action.kind = "produce" ∨ action.kind = "consume" then s.execute_pc_action proc action
        else if strStartsWith action.kind "file" then s.execute_file_action proc action
        else if strStartsWith action.kind "res_" then s.execute_resource_action proc action
        else s.log_event ("进程 " ++ toString proc.pid ++ " 执行未知操作 " ++ action.kind)
      let proc := (s.getProc proc.pid).getD proc
      if (action.kind = "produce" ∨ action.kind = "consume" ∨ strStartsWith action.kind "res_") ∧
          proc.state = "Blocked" then s
      else s.run_action_tail proc

/-- The arrivals scan at the top of `OSSimulator.step`: every `New` process
whose arrival tick has been reached moves to Ready at level 0. -/
def arriveStep (acc : OSSimulator) (entry : Nat × Process) : OSSimulator :=
  let proc := entry.2
  if proc.state = "New" ∧ proc.arrival_time ≤ acc.clock then
    let proc := { proc with state := "Ready", queue_level := 0 }
    let acc := acc.setProc proc
    let acc := { acc with ready_queues := acc.ready_queues.set 0 ((acc.ready_queues.getD 0 []) ++ [proc.pid]) }
    acc.log_event ("新进程 " ++ toString proc.pid ++ " (" ++ proc.name ++ ") 到达并进入就绪队列 Q0。")
  else acc

def OSSimulator.admitArrivals (s : OSSimulator) : OSSimulator :=
  s.process_pool.foldl arriveStep s

/-- The dispatch-and-execute segment of `OSSimulator.step`. -/
def OSSimulator.runPhase (s : OSSimulator) : OSSimulator :=
  match s.running with
  | some pid =>
    match s.getProc pid with
    | some proc => s.run_action proc
    | none => s
  | none => s.log_event ("处理器空闲。")

/-- `OSSimulator.step`: clock tick, arrivals, wake pass, dispatch, one action
of the running process, periodic dynamic spawn. -/
def OSSimulator.step (s : OSSimulator) : OSSimulator :=
  let s := { s with clock := s.clock + 1 }
  let s := s.log_event ("===== 时钟跳动 =====")
  let s := s.admitArrivals
  let s := s.handle_blocked
  let s := s.dispatch_if_needed
  let s := s.runPhase
  if s.clock % 4 = 0 then s.spawn_dynamic_job else s

/-- `OSSimulator()` as constructed by the driver (src/main.py). -/
def initSim : OSSimulator := {}

/-- The canonical start state: the driver constructs the simulator and
immediately calls `reset()`. -/
def simStart : OSSimulator := initSim.reset

/-- `n` ticks from a state. -/
def stepN (s : OSSimulator) : Nat → OSSimulator
  | 0 => s
  | n + 1 => (stepN s n).step

/-! ## Derived state and invariants -/

/-- The running slot as a list (empty or a single pid). -/
def runningList (s : OSSimulator) : List Nat :=
  match s.running with
  | some pid => [pid]
  | none => []

/-- All pids currently held by a scheduler container: the running slot, the
three ready queues, the blocked list and the finished list. -/
def bucketPids (s : OSSimulator) : List Nat :=
  runningList s ++ s.ready_queues.flatten ++ s.blocked ++ s.finished

/-- How often a pool pid must occur among the scheduler containers: once when
its process has arrived (state other than `New`), never while it is `New`. -/
def poolFlag (s : OSSimulator) (pid : Nat) : Nat :=
  match alookup pid s.process_pool with
  | some p => if p.state = "New" then 0 else 1
  | none => 0

/-- The lifecycle state recorded in the pool for a pid. -/
def stateOf (s : OSSimulator) (pid : Nat) : Option String :=
  (alookup pid s.process_pool).map Process.state

/-- The number of pool processes that have not arrived yet. -/
def newCount (s : OSSimulator) : Nat :=
  (s.process_pool.filter (fun e => e.2.state == "New")).length

/-! ## Association-list lemmas -/


theorem alookup_ainsert_self {α β : Type} [DecidableEq α] (k : α) (v : β) (l : List (α × β)) :
    alookup k (ainsert k v l) = some v := by
  induction l with
  | nil => simp [ainsert, alookup]
  | cons e rest ih =>
    obtain ⟨a, b⟩ := e
    by_cases h : a = k
    · subst h
      simp [ainsert, alookup]
    · rw [ainsert, if_neg h, alookup, if_neg h]
      exact ih

theorem alookup_ainsert_ne {α β : Type} [DecidableEq α] {k k' : α} (v : β) (l : List (α × β))
    (h : k' ≠ k) : alookup k' (ainsert k v l) = alookup k' l := by
  have hkk : k ≠ k' := fun e => h e.symm
  induction l with
  | nil => simp [ainsert, alookup, hkk]
  | cons e rest ih =>
    obtain ⟨a, b⟩ := e
    by_cases ha : a = k
    · subst ha
      rw [ainsert, if_pos rfl, alookup, if_neg hkk, alookup, if_neg hkk]
    · rw [ainsert, if_neg ha]
      by_cases ha' : a = k'
      · rw [alookup, if_pos ha', alookup, if_pos ha']
      · rw [alookup, if_neg ha', alookup, if_neg ha']
        exact ih

theorem alookup_aerase_ne {α β : Type} [DecidableEq α] {k k' : α} (l : List (α × β))
    (h : k' ≠ k) : alookup k' (aerase k l) = alookup k' l := by
  have hkk : k ≠ k' := fun e => h e.symm
  induction l with
  | nil => simp [aerase]
  | cons e rest ih =>
    obtain ⟨a, b⟩ := e
    by_cases ha : a = k
    · subst ha
      rw [aerase, if_pos rfl, alookup, if_neg hkk]
    · rw [aerase, if_neg ha]
      by_cases ha' : a = k'
      · rw [alookup, if_pos ha', alookup, if_pos ha']
      · rw [alookup, if_neg ha', alookup, if_neg ha']
        exact ih

theorem alookup_isSome_mem {α β : Type} [DecidableEq α] {k : α} {v : β} {l : List (α × β)}
    (h : alookup k l = some v) : k ∈ l.map Prod.fst := by
  induction l with
  | nil => simp [alookup] at h
  | cons e rest ih =>
    obtain ⟨a, b⟩ := e
    by_cases ha : a = k
    · simp [ha]
    · rw [alookup, if_neg ha] at h
      simp [ih h]

theorem map_fst_aerase {α β : Type} [DecidableEq α] (k : α) (l : List (α × β)) :
    (aerase k l).map Prod.fst = (l.map Prod.fst).erase k := by
  induction l with
  | nil => simp [aerase]
  | cons e rest ih =>
    obtain ⟨a, b⟩ := e
    by_cases ha : a = k
    · subst ha
      simp [aerase, List.erase_cons_head]
    · rw [aerase, if_neg ha, List.map_cons, List.map_cons, ih, List.erase_cons_tail]
      simp [ha]

theorem alookup_aerase_self {α β : Type} [DecidableEq α] (k : α) (l : List (α × β))
    (hnd : (l.map Prod.fst).Nodup) : alookup k (aerase k l) = none := by
  induction l with
  | nil => simp [aerase, alookup]
  | cons e rest ih =>
    obtain ⟨a, b⟩ := e
    simp only [List.map_cons, List.nodup_cons] at hnd
    by_cases ha : a = k
    · subst ha
      rw [aerase, if_pos rfl]
      rcases h2 : alookup a rest with _ | v
      · rfl
      · exact absurd (alookup_isSome_mem h2) hnd.1
    · rw [aerase, if_neg ha, alookup, if_neg ha]
      exact ih hnd.2

theorem mem_alookup_isSome {α β : Type} [DecidableEq α] {k : α} {l : List (α × β)}
    (h : k ∈ l.map Prod.fst) : (alookup k l).isSome := by
  induction l with
  | nil => simp at h
  | cons e rest ih =>
    obtain ⟨a, b⟩ := e
    by_cases ha : a = k
    · simp [alookup, ha]
    · rw [alookup, if_neg ha]
      simp only [List.map_cons] at h
      rcases List.mem_cons.mp h with h1 | h1
      · exact absurd h1.symm ha
      · exact ih h1

theorem map_fst_ainsert_mem {α β : Type} [DecidableEq α] {k : α} (v : β) {l : List (α × β)}
    (h : k ∈ l.map Prod.fst) : (ainsert k v l).map Prod.fst = l.map Prod.fst := by
  induction l with
  | nil => simp at h
  | cons e rest ih =>
    obtain ⟨a, b⟩ := e
    by_cases ha : a = k
    · subst ha
      simp [ainsert]
    · simp only [List.map_cons] at h
      rcases List.mem_cons.mp h with h1 | h1
      · exact absurd h1.symm ha
      · rw [ainsert, if_neg ha, List.map_cons, List.map_cons, ih h1]

theorem map_fst_ainsert_not_mem {α β : Type} [DecidableEq α] {k : α} (v : β) {l : List (α × β)}
    (h : k ∉ l.map Prod.fst) : (ainsert k v l).map Prod.fst = l.map Prod.fst ++ [k] := by
  induction l with
  | nil => simp [ainsert]
  | cons e rest ih =>
    obtain ⟨a, b⟩ := e
    simp only [List.map_cons, List.mem_cons, not_or] at h
    rw [ainsert, if_neg (fun he => h.1 he.symm), List.map_cons, ih h.2]
    simp

theorem nodup_keys_ainsert {α β : Type} [DecidableEq α] (k : α) (v : β) {l : List (α × β)}
    (h : (l.map Prod.fst).Nodup) : ((ainsert k v l).map Prod.fst).Nodup := by
  by_cases hm : k ∈ l.map Prod.fst
  · rw [map_fst_ainsert_mem v hm]; exact h
  · rw [map_fst_ainsert_not_mem v hm, List.nodup_append]
    refine ⟨h, List.nodup_singleton _, ?_⟩
    intro a ha hb
    rw [List.mem_singleton] at hb
    subst hb
    exact hm ha

theorem nodup_keys_aerase {α β : Type} [DecidableEq α] (k : α) {l : List (α × β)}
    (h : (l.map Prod.fst).Nodup) : ((aerase k l).map Prod.fst).Nodup := by
  rw [map_fst_aerase]
  exact h.erase k

theorem length_ainsert_mem {α β : Type} [DecidableEq α] {k : α} (v : β) {l : List (α × β)}
    (h : k ∈ l.map Prod.fst) : (ainsert k v l).length = l.length := by
  have h2 := congrArg List.length (map_fst_ainsert_mem v h)
  simpa using h2

theorem length_ainsert_not_mem {α β : Type} [DecidableEq α] {k : α} (v : β) {l : List (α × β)}
    (h : k ∉ l.map Prod.fst) : (ainsert k v l).length = l.length + 1 := by
  have h2 := congrArg List.length (map_fst_ainsert_not_mem v h)
  simpa using h2

theorem alookup_of_mem_nodup {α β : Type} [DecidableEq α] {k : α} {v : β} {l : List (α × β)}
    (hnd : (l.map Prod.fst).Nodup) (h : (k, v) ∈ l) : alookup k l = some v := by
  induction l with
  | nil => simp at h
  | cons e rest ih =>
    obtain ⟨a, b⟩ := e
    simp only [List.map_cons, List.nodup_cons] at hnd
    rcases List.mem_cons.mp h with h1 | h1
    · injection h1 with h1a h1b
      subst h1a
      subst h1b
      rw [alookup, if_pos rfl]
    · by_cases ha : a = k
      · exfalso
        subst ha
        exact hnd.1 (List.mem_map.mpr ⟨(a, v), h1, rfl⟩)
      · rw [alookup, if_neg ha]
        exact ih hnd.2 h1

theorem mem_of_alookup {α β : Type} [DecidableEq α] {k : α} {v : β} {l : List (α × β)}
    (h : alookup k l = some v) : (k, v) ∈ l := by
  induction l with
  | nil => simp [alookup] at h
  | cons e rest ih =>
    obtain ⟨a, b⟩ := e
    by_cases ha : a = k
    · rw [alookup, if_pos ha] at h
      subst ha
      cases h
      exact List.mem_cons_self _ _
    · rw [alookup, if_neg ha] at h
      exact List.mem_cons_of_mem _ (ih h)

/-! ## The global scheduler invariant -/

/-- Structural soundness of a simulator state: the pool is a well-formed
pid-keyed store, every arrived process sits in exactly one scheduler
container (counted by `poolFlag`), container members carry the matching
lifecycle state, the pool grows in lockstep with `next_pid`, and the memory
structures (frame table, FIFO queue, reverse index, private page tables)
agree with each other. -/
structure SimInv (s : OSSimulator) : Prop where
  rq_len : s.ready_queues.length = 3
  keys_nodup : (s.process_pool.map Prod.fst).Nodup
  key_pid : ∀ e ∈ s.process_pool, e.1 = e.2.pid
  pid_lt : ∀ e ∈ s.process_pool, e.1 < s.next_pid
  pool_size : s.next_pid = s.process_pool.length + 1
  count_eq : ∀ pid, (bucketPids s).count pid = poolFlag s pid
  run_state : ∀ pid, s.running = some pid → stateOf s pid = some "Running"
  ready_state : ∀ q ∈ s.ready_queues, ∀ pid ∈ q, stateOf s pid = some "Ready"
  blocked_state : ∀ pid ∈ s.blocked, stateOf s pid = some "Blocked"
  fin_state : ∀ pid ∈ s.finished, stateOf s pid = some "Finished"
  ft_len : s.memory.frame_table.length = s.memory.frames
  rq_perm : s.memory.replacement_queue.Perm (List.range s.memory.frames)
  loc_keys_nodup : (s.memory.page_locations.map Prod.fst).Nodup
  pt_keys_nodup : ∀ e ∈ s.process_pool, (e.2.page_table.map Prod.fst).Nodup
  loc_frame : ∀ k f, alookup k s.memory.page_locations = some f →
    s.memory.frame_table.get? f = some (some k)
  frame_loc : ∀ f k, s.memory.frame_table.get? f = some (some k) →
    alookup k s.memory.page_locations = some f
  loc_pt : ∀ pid page f, alookup (pid, page) s.memory.page_locations = some f →
    ∃ p, alookup pid s.process_pool = some p ∧ alookup page p.page_table = some f
  pt_loc : ∀ pid p page f, alookup pid s.process_pool = some p →
    alookup page p.page_table = some f →
    alookup (pid, page) s.memory.page_locations = some f

/-- The bounded-buffer safety bound (claim C5). -/
def BufferInv (s : OSSimulator) : Prop :=
  0 ≤ s.buffer_count ∧ s.buffer_count ≤ (s.buffer_capacity : Int)

/-- Between ticks the mutex is always free: every produce/consume action
releases it before returning or blocking. -/
def MutexFree (s : OSSimulator) : Prop := s.mutex_owner = none

/-- Mid-state of the `_handle_blocked` wake pass relative to the pre-pass
state `s`: containers and memory untouched, pool keys unchanged, and every
entry equal to its old value except that some formerly `Blocked` processes
have been turned `Ready` and recorded in the collected list `a`. -/
structure WakeMid (s t : OSSimulator) (a : List (Nat × String)) : Prop where
  ready : t.ready_queues = s.ready_queues
  blk : t.blocked = s.blocked
  fin : t.finished = s.finished
  run : t.running = s.running
  np : t.next_pid = s.next_pid
  mem : t.memory = s.memory
  keys : t.process_pool.map Prod.fst = s.process_pool.map Prod.fst
  entry : ∀ pid p', alookup pid t.process_pool = some p' →
    ∃ p0, alookup pid s.process_pool = some p0 ∧ p'.pid = p0.pid ∧
      p'.page_table = p0.page_table ∧
      (p'.state = p0.state ∨
        (p0.state = "Blocked" ∧ p'.state = "Ready" ∧ pid ∈ a.map Prod.fst))
  newly_ready : ∀ pr ∈ a, stateOf t pr.1 = some "Ready"
  newly_blocked : ∀ pr ∈ a, stateOf s pr.1 = some "Blocked"
  newly_nodup : (a.map Prod.fst).Nodup

/-- Mid-state of the `_handle_blocked` requeue pass: the full invariant
except that the pids in `pending` are `Ready` but not yet in any container. -/
structure ReqMid (t : OSSimulator) (pending : List Nat) : Prop where
  rq_len : t.ready_queues.length = 3
  keys_nodup : (t.process_pool.map Prod.fst).Nodup
  key_pid : ∀ e ∈ t.process_pool, e.1 = e.2.pid
  pid_lt : ∀ e ∈ t.process_pool, e.1 < t.next_pid
  pool_size : t.next_pid = t.process_pool.length + 1
  count_eq : ∀ pid, (bucketPids t).count pid + pending.count pid = poolFlag t pid
  run_state : ∀ pid, t.running = some pid → stateOf t pid = some "Running"
  ready_state : ∀ q ∈ t.ready_queues, ∀ pid ∈ q, stateOf t pid = some "Ready"
  blocked_state : ∀ pid ∈ t.blocked, stateOf t pid = some "Blocked"
  fin_state : ∀ pid ∈ t.finished, stateOf t pid = some "Finished"
  pending_state : ∀ pid ∈ pending, stateOf t pid = some "Ready"
  ft_len : t.memory.frame_table.length = t.memory.frames
  rq_perm : t.memory.replacement_queue.Perm (List.range t.memory.frames)
  loc_keys_nodup : (t.memory.page_locations.map Prod.fst).Nodup
  pt_keys_nodup : ∀ e ∈ t.process_pool, (e.2.page_table.map Prod.fst).Nodup
  loc_frame : ∀ k f, alookup k t.memory.page_locations = some f →
    t.memory.frame_table.get? f = some (some k)
  frame_loc : ∀ f k, t.memory.frame_table.get? f = some (some k) →
    alookup k t.memory.page_locations = some f
  loc_pt : ∀ pid page f, alookup (pid, page) t.memory.page_locations = some f →
    ∃ p, alookup pid t.process_pool = some p ∧ alookup page p.page_table = some f
  pt_loc : ∀ pid p page f, alookup pid t.process_pool = some p →
    alookup page p.page_table = some f →
    alookup (pid, page) t.memory.page_locations = some f

/-- `Inv` only looks at the scheduler containers, the pool, `next_pid` and
the memory manager; two states agreeing there share it. -/
theorem simInv_transport {s s' : OSSimulator}
    (h1 : s'.process_pool = s.process_pool) (h2 : s'.ready_queues = s.ready_queues)
    (h3 : s'.blocked = s.blocked) (h4 : s'.finished = s.finished)
    (h5 : s'.running = s.running) (h6 : s'.next_pid = s.next_pid)
    (h7a : s'.memory.frames = s.memory.frames)
    (h7b : s'.memory.frame_table = s.memory.frame_table)
    (h7c : s'.memory.replacement_queue = s.memory.replacement_queue)
    (h7d : s'.memory.page_locations = s.memory.page_locations)
    (hInv : SimInv s) : SimInv s' := by
  have hb : bucketPids s' = bucketPids s := by
    unfold bucketPids runningList
    rw [h2, h3, h4, h5]
  have hf : ∀ pid, poolFlag s' pid = poolFlag s pid := by
    intro pid
    unfold poolFlag
    rw [h1]
  have hst : ∀ pid, stateOf s' pid = stateOf s pid := by
    intro pid
    unfold stateOf
    rw [h1]
  refine ⟨?_, ?_, ?_, ?_, ?_, ?_, ?_, ?_, ?_, ?_, ?_, ?_, ?_, ?_, ?_, ?_, ?_, ?_⟩
  · rw [h2]; exact hInv.rq_len
  · rw [h1]; exact hInv.keys_nodup
  · rw [h1]; exact hInv.key_pid
  · rw [h1, h6]; exact hInv.pid_lt
  · rw [h1, h6]; exact hInv.pool_size
  · intro pid; rw [hb, hf]; exact hInv.count_eq pid
  · intro pid hr; rw [hst]; exact hInv.run_state pid (h5 ▸ hr)
  · intro q hq pid hp; rw [hst]; exact hInv.ready_state q (h2 ▸ hq) pid hp
  · intro pid hp; rw [hst]; exact hInv.blocked_state pid (h3 ▸ hp)
  · intro pid hp; rw [hst]; exact hInv.fin_state pid (h4 ▸ hp)
  · rw [h7b, h7a]; exact hInv.ft_len
  · rw [h7c, h7a]; exact hInv.rq_perm
  · rw [h7d]; exact hInv.loc_keys_nodup
  · rw [h1]; exact hInv.pt_keys_nodup
  · rw [h7d, h7b]; exact hInv.loc_frame
  · rw [h7b, h7d]; exact hInv.frame_loc
  · rw [h1, h7d]; exact hInv.loc_pt
  · rw [h1, h7d]; exact hInv.pt_loc

/-! ## Utilities for the preservation proofs -/

theorem mem_ainsert {α β : Type} [DecidableEq α] {k : α} {v : β} {l : List (α × β)}
    {e : α × β} (h : e ∈ ainsert k v l) : e = (k, v) ∨ e ∈ l := by
  induction l with
  | nil => simpa [ainsert] using h
  | cons hd rest ih =>
    obtain ⟨a, b⟩ := hd
    by_cases ha : a = k
    · subst ha
      rw [ainsert, if_pos rfl] at h
      rcases List.mem_cons.mp h with h1 | h1
      · exact Or.inl h1
      · exact Or.inr (List.mem_cons_of_mem _ h1)
    · rw [ainsert, if_neg ha] at h
      rcases List.mem_cons.mp h with h1 | h1
      · exact Or.inr (h1 ▸ List.mem_cons_self _ _)
      · rcases ih h1 with h2 | h2
        · exact Or.inl h2
        · exact Or.inr (List.mem_cons_of_mem _ h2)

/-- Every fact preserved by each fold step is preserved by the fold. -/
theorem foldl_preserve {σ χ : Type} {P : σ → Prop} (f : σ → χ → σ) (l : List χ)
    (h : ∀ a x, x ∈ l → P a → P (f a x)) : ∀ a, P a → P (l.foldl f a) := by
  induction l with
  | nil => intro a ha; simpa using ha
  | cons hd rest ih =>
    intro a ha
    rw [List.foldl_cons]
    exact ih (fun b x hx hb => h b x (List.mem_cons_of_mem _ hx) hb)
      (f a hd) (h a hd (List.mem_cons_self _ _) ha)

theorem exists_decomp_of_get {α : Type} {l : List α} {i : Nat} {x : α}
    (h : l.get? i = some x) : ∃ pre post, l = pre ++ x :: post ∧ pre.length = i := by
  induction l generalizing i with
  | nil => simp at h
  | cons hd rest ih =>
    cases i with
    | zero =>
      refine ⟨[], rest, ?_, rfl⟩
      simp only [List.get?] at h
      cases h
      simp
    | succ j =>
      simp only [List.get?] at h
      obtain ⟨pre, post, hl, hlen⟩ := ih h
      exact ⟨hd :: pre, post, by simp [hl], by simp [hlen]⟩

/-- The bundle of pool facts after writing an updated process back. -/
theorem pool_update_props {pool : List (Nat × Process)} {pid : Nat} {proc p' : Process}
    (hnd : (pool.map Prod.fst).Nodup) (hget : alookup pid pool = some proc)
    (hpid : p'.pid = pid) :
    ((ainsert pid p' pool).map Prod.fst).Nodup ∧
    (ainsert pid p' pool).length = pool.length ∧
    alookup pid (ainsert pid p' pool) = some p' ∧
    (∀ q, q ≠ pid → alookup q (ainsert pid p' pool) = alookup q pool) := by
  have hm : pid ∈ pool.map Prod.fst := alookup_isSome_mem hget
  exact ⟨nodup_keys_ainsert pid p' hnd, length_ainsert_mem p' hm,
    alookup_ainsert_self pid p' pool, fun q hq => alookup_ainsert_ne p' pool hq⟩

/-- Count of a pid over the four scheduler containers. -/
theorem count_bucket (s : OSSimulator) (q : Nat) :
    (bucketPids s).count q =
      (runningList s).count q + s.ready_queues.flatten.count q +
      s.blocked.count q + s.finished.count q := by
  unfold bucketPids
  simp [List.count_append]
  omega

theorem runningList_some {s : OSSimulator} {pid : Nat} (h : s.running = some pid) :
    runningList s = [pid] := by
  unfold runningList
  rw [h]

theorem runningList_none {s : OSSimulator} (h : s.running = none) :
    runningList s = [] := by
  unfold runningList
  rw [h]

theorem poolFlag_le_one (s : OSSimulator) (q : Nat) : poolFlag s q ≤ 1 := by
  unfold poolFlag
  rcases h : alookup q s.process_pool with _ | p
  · exact Nat.zero_le 1
  · by_cases hs : p.state = "New" <;> simp [hs]

/-- The running process occurs in no other container. -/
theorem running_not_elsewhere {s : OSSimulator} {pid : Nat} (hInv : SimInv s)
    (hrun : s.running = some pid) :
    pid ∉ s.ready_queues.flatten ∧ pid ∉ s.blocked ∧ pid ∉ s.finished := by
  have hcount := hInv.count_eq pid
  rw [count_bucket, runningList_some hrun] at hcount
  have hle := poolFlag_le_one s pid
  simp only [List.count_cons_self, List.count_nil] at hcount
  refine ⟨?_, ?_, ?_⟩ <;>
    · intro hmem
      have := List.count_pos_iff_mem.mpr hmem
      omega

/-- A blocked pid occurs in the blocked list once and in no other container. -/
theorem blocked_not_elsewhere {s : OSSimulator} {pid : Nat} (hInv : SimInv s)
    (hmem : pid ∈ s.blocked) :
    s.blocked.count pid = 1 ∧ (runningList s).count pid = 0 ∧
    pid ∉ s.ready_queues.flatten ∧ pid ∉ s.finished := by
  have hcount := hInv.count_eq pid
  rw [count_bucket] at hcount
  have hle := poolFlag_le_one s pid
  have hpos := List.count_pos_iff_mem.mpr hmem
  refine ⟨by omega, by omega, ?_, ?_⟩ <;>
    · intro h
      have := List.count_pos_iff_mem.mpr h
      omega

/-- Writing an updated process (same pid, same page table) back into the pool
preserves every pool-side invariant field and changes `stateOf`/`poolFlag`
only at that pid. -/
theorem poolSide_update {s s' : OSSimulator} (hInv : SimInv s) {pid : Nat} {proc p' : Process}
    (hget : alookup pid s.process_pool = some proc) (hpid : p'.pid = pid)
    (hpt : p'.page_table = proc.page_table)
    (hpool : s'.process_pool = ainsert pid p' s.process_pool)
    (hnp : s'.next_pid = s.next_pid) (hmem : s'.memory = s.memory) :
    (s'.process_pool.map Prod.fst).Nodup ∧
    (∀ e ∈ s'.process_pool, e.1 = e.2.pid) ∧
    (∀ e ∈ s'.process_pool, e.1 < s'.next_pid) ∧
    (s'.next_pid = s'.process_pool.length + 1) ∧
    (∀ e ∈ s'.process_pool, (e.2.page_table.map Prod.fst).Nodup) ∧
    (∀ pid2 page f, alookup (pid2, page) s'.memory.page_locations = some f →
      ∃ p, alookup pid2 s'.process_pool = some p ∧ alookup page p.page_table = some f) ∧
    (∀ pid2 p page f, alookup pid2 s'.process_pool = some p →
      alookup page p.page_table = some f →
      alookup (pid2, page) s'.memory.page_locations = some f) ∧
    (stateOf s' pid = some p'.state) ∧
    (∀ q, q ≠ pid → stateOf s' q = stateOf s q) ∧
    (poolFlag s' pid = (if p'.state = "New" then 0 else 1)) ∧
    (∀ q, q ≠ pid → poolFlag s' q = poolFlag s q) := by
  obtain ⟨hnd', hlen', hself', hne'⟩ := pool_update_props hInv.keys_nodup hget hpid
  have hmemk : (pid, proc) ∈ s.process_pool := mem_of_alookup hget
  refine ⟨?_, ?_, ?_, ?_, ?_, ?_, ?_, ?_, ?_, ?_, ?_⟩
  · rw [hpool]; exact hnd'
  · intro e he
    rw [hpool] at he
    rcases mem_ainsert he with h1 | h1
    · rw [h1]; exact hpid.symm
    · exact hInv.key_pid e h1
  · intro e he
    rw [hpool] at he
    rw [hnp]
    rcases mem_ainsert he with h1 | h1
    · rw [h1]
      exact hInv.pid_lt (pid, proc) hmemk
    · exact hInv.pid_lt e h1
  · rw [hnp, hpool, hlen']
    exact hInv.pool_size
  · intro e he
    rw [hpool] at he
    rcases mem_ainsert he with h1 | h1
    · rw [h1]
      show ((p'.page_table).map Prod.fst).Nodup
      rw [hpt]
      exact hInv.pt_keys_nodup (pid, proc) hmemk
    · exact hInv.pt_keys_nodup e h1
  · intro pid2 page f hloc
    rw [hmem] at hloc
    obtain ⟨p, hp1, hp2⟩ := hInv.loc_pt pid2 page f hloc
    by_cases hq : pid2 = pid
    · subst hq
      rw [hget] at hp1
      cases hp1
      refine ⟨p', ?_, ?_⟩
      · rw [hpool]; exact hself'
      · rw [hpt]; exact hp2
    · refine ⟨p, ?_, hp2⟩
      rw [hpool, hne' pid2 hq]
      exact hp1
  · intro pid2 p page f hp1 hp2
    rw [hmem]
    by_cases hq : pid2 = pid
    · subst hq
      rw [hpool, hself'] at hp1
      cases hp1
      rw [hpt] at hp2
      exact hInv.pt_loc pid2 proc page f hget hp2
    · rw [hpool, hne' pid2 hq] at hp1
      exact hInv.pt_loc pid2 p page f hp1 hp2
  · unfold stateOf
    rw [hpool, hself']
    rfl
  · intro q hq
    unfold stateOf
    rw [hpool, hne' q hq]
  · unfold poolFlag
    rw [hpool, hself']
  · intro q hq
    unfold poolFlag
    rw [hpool, hne' q hq]

theorem set_at_append_len {α : Type} (pre : List α) (x v : α) (post : List α) :
    (pre ++ x :: post).set pre.length v = pre ++ v :: post := by
  induction pre with
  | nil => simp
  | cons hd rest ih => simp [ih]

theorem poolFlag_of_state {s : OSSimulator} {pid : Nat} {st : String}
    (h : stateOf s pid = some st) (hne : st ≠ "New") : poolFlag s pid = 1 := by
  unfold stateOf at h
  unfold poolFlag
  rcases hl : alookup pid s.process_pool with _ | p
  · rw [hl] at h; simp at h
  · rw [hl] at h
    simp only [Option.map_some'] at h
    cases h
    show (if p.state = "New" then 0 else 1) = 1
    rw [if_neg hne]

/-- Moving the running process into the blocked list (with its pool entry
rewritten to a non-New state) preserves the invariant. -/
theorem simInv_move_to_blocked {s s' : OSSimulator} {pid : Nat} {proc p' : Process}
    (hInv : SimInv s) (hrun : s.running = some pid)
    (hget : alookup pid s.process_pool = some proc)
    (hpid : p'.pid = pid) (hpt : p'.page_table = proc.page_table)
    (hstate : p'.state = "Blocked")
    (hpool : s'.process_pool = ainsert pid p' s.process_pool)
    (hready : s'.ready_queues = s.ready_queues)
    (hblk : s'.blocked = s.blocked ++ [pid])
    (hfin : s'.finished = s.finished)
    (hrun' : s'.running = none)
    (hnp : s'.next_pid = s.next_pid)
    (hmem : s'.memory = s.memory) : SimInv s' := by
  obtain ⟨hnd', hkey', hlt', hsize', hptnd', hlocpt', hptloc', hstat', hstatne', hflag', hflagne'⟩ :=
    poolSide_update hInv hget hpid hpt hpool hnp hmem
  obtain ⟨hnotready, hnotblk, hnotfin⟩ := running_not_elsewhere hInv hrun
  have hflagrun : poolFlag s pid = 1 :=
    poolFlag_of_state (hInv.run_state pid hrun) (by decide)
  refine ⟨?_, hnd', hkey', hlt', hsize', ?_, ?_, ?_, ?_, ?_, ?_, ?_, ?_, hptnd', ?_, ?_, hlocpt', hptloc'⟩
  · rw [hready]; exact hInv.rq_len
  · intro q
    have hold := hInv.count_eq q
    rw [count_bucket, runningList_some hrun] at hold
    rw [count_bucket, runningList_none hrun', hready, hblk, hfin, List.count_append]
    by_cases hq : q = pid
    · subst hq
      rw [hflag']
      rw [if_neg (by rw [hstate]; decide)]
      have h1 : poolFlag s q ≤ 1 := poolFlag_le_one s q
      simp only [List.count_cons_self, List.count_nil] at hold
      simp only [List.count_cons_self, List.count_nil]
      omega
    · rw [hflagne' q hq]
      have hqp : ¬ (pid = q) := fun e => hq e.symm
      simp only [List.count_cons, List.count_nil, if_neg hqp, beq_iff_eq] at hold
      simp only [List.count_cons, List.count_nil, beq_iff_eq, if_neg hqp]
      omega
  · intro q hr
    rw [hrun'] at hr
    cases hr
  · intro qlist hql q hq
    rw [hready] at hql
    have hstq : q ≠ pid := by
      intro e
      subst e
      exact hnotready (List.mem_flatten.mpr ⟨qlist, hql, hq⟩)
    rw [hstatne' q hstq]
    exact hInv.ready_state qlist hql q hq
  · intro q hq
    rw [hblk] at hq
    rcases List.mem_append.mp hq with h1 | h1
    · have hstq : q ≠ pid := fun e => hnotblk (e ▸ h1)
      rw [hstatne' q hstq]
      exact hInv.blocked_state q h1
    · rw [List.mem_singleton] at h1
      subst h1
      rw [hstat', hstate]
  · intro q hq
    rw [hfin] at hq
    have hstq : q ≠ pid := fun e => hnotfin (e ▸ hq)
    rw [hstatne' q hstq]
    exact hInv.fin_state q hq
  · rw [hmem]; exact hInv.ft_len
  · rw [hmem]; exact hInv.rq_perm
  · rw [hmem]; exact hInv.loc_keys_nodup
  · rw [hmem]; exact hInv.loc_frame
  · rw [hmem]; exact hInv.frame_loc

/-- Moving the running process into the finished list preserves the invariant. -/
theorem simInv_move_to_finished {s s' : OSSimulator} {pid : Nat} {proc p' : Process}
    (hInv : SimInv s) (hrun : s.running = some pid)
    (hget : alookup pid s.process_pool = some proc)
    (hpid : p'.pid = pid) (hpt : p'.page_table = proc.page_table)
    (hstate : p'.state = "Finished")
    (hpool : s'.process_pool = ainsert pid p' s.process_pool)
    (hready : s'.ready_queues = s.ready_queues)
    (hblk : s'.blocked = s.blocked)
    (hfin : s'.finished = s.finished ++ [pid])
    (hrun' : s'.running = none)
    (hnp : s'.next_pid = s.next_pid)
    (hmem : s'.memory = s.memory) : SimInv s' := by
  obtain ⟨hnd', hkey', hlt', hsize', hptnd', hlocpt', hptloc', hstat', hstatne', hflag', hflagne'⟩ :=
    poolSide_update hInv hget hpid hpt hpool hnp hmem
  obtain ⟨hnotready, hnotblk, hnotfin⟩ := running_not_elsewhere hInv hrun
  refine ⟨?_, hnd', hkey', hlt', hsize', ?_, ?_, ?_, ?_, ?_, ?_, ?_, ?_, hptnd', ?_, ?_, hlocpt', hptloc'⟩
  · rw [hready]; exact hInv.rq_len
  · intro q
    have hold := hInv.count_eq q
    rw [count_bucket, runningList_some hrun] at hold
    rw [count_bucket, runningList_none hrun', hready, hblk, hfin, List.count_append]
    by_cases hq : q = pid
    · subst hq
      rw [hflag']
      rw [if_neg (by rw [hstate]; decide)]
      have h1 : poolFlag s q ≤ 1 := poolFlag_le_one s q
      simp only [List.count_cons_self, List.count_nil] at hold
      simp only [List.count_cons_self, List.count_nil]
      omega
    · rw [hflagne' q hq]
      have hqp : ¬ (pid = q) := fun e => hq e.symm
      simp only [List.count_cons, List.count_nil, if_neg hqp, beq_iff_eq] at hold
      simp only [List.count_cons, List.count_nil, beq_iff_eq, if_neg hqp]
      omega
  · intro q hr
    rw [hrun'] at hr
    cases hr
  · intro qlist hql q hq
    rw [hready] at hql
    have hstq : q ≠ pid := by
      intro e
      subst e
      exact hnotready (List.mem_flatten.mpr ⟨qlist, hql, hq⟩)
    rw [hstatne' q hstq]
    exact hInv.ready_state qlist hql q hq
  · intro q hq
    rw [hblk] at hq
    have hstq : q ≠ pid := fun e => hnotblk (e ▸ hq)
    rw [hstatne' q hstq]
    exact hInv.blocked_state q hq
  · intro q hq
    rw [hfin] at hq
    rcases List.mem_append.mp hq with h1 | h1
    · have hstq : q ≠ pid := fun e => hnotfin (e ▸ h1)
      rw [hstatne' q hstq]
      exact hInv.fin_state q h1
    · rw [List.mem_singleton] at h1
      subst h1
      rw [hstat', hstate]
  · rw [hmem]; exact hInv.ft_len
  · rw [hmem]; exact hInv.rq_perm
  · rw [hmem]; exact hInv.loc_keys_nodup
  · rw [hmem]; exact hInv.loc_frame
  · rw [hmem]; exact hInv.frame_loc

theorem getD_of_get {α : Type} {l : List α} {n : Nat} {x : α} (d : α)
    (h : l.get? n = some x) : l.getD n d = x := by
  induction l generalizing n with
  | nil => simp at h
  | cons hd rest ih =>
    cases n with
    | zero =>
      simp only [List.get?] at h
      cases h
      rfl
    | succ j =>
      simp only [List.get?] at h
      simpa [List.getD] using ih h

/-- Moving the running process to the tail of ready queue `l` (preemption)
preserves the invariant. -/
theorem simInv_move_run_to_ready {s s' : OSSimulator} {pid l : Nat} {q0 : List Nat}
    {proc p' : Process}
    (hInv : SimInv s) (hrun : s.running = some pid)
    (hget : alookup pid s.process_pool = some proc)
    (hpid : p'.pid = pid) (hpt : p'.page_table = proc.page_table)
    (hstate : p'.state = "Ready")
    (hq : s.ready_queues.get? l = some q0)
    (hpool : s'.process_pool = ainsert pid p' s.process_pool)
    (hready : s'.ready_queues = s.ready_queues.set l (q0 ++ [pid]))
    (hblk : s'.blocked = s.blocked)
    (hfin : s'.finished = s.finished)
    (hrun' : s'.running = none)
    (hnp : s'.next_pid = s.next_pid)
    (hmem : s'.memory = s.memory) : SimInv s' := by
  obtain ⟨hnd', hkey', hlt', hsize', hptnd', hlocpt', hptloc', hstat', hstatne', hflag', hflagne'⟩ :=
    poolSide_update hInv hget hpid hpt hpool hnp hmem
  obtain ⟨hnotready, hnotblk, hnotfin⟩ := running_not_elsewhere hInv hrun
  obtain ⟨pre, post, hdecomp, hlen⟩ := exists_decomp_of_get hq
  have hsetform : s.ready_queues.set l (q0 ++ [pid]) = pre ++ (q0 ++ [pid]) :: post := by
    rw [hdecomp, ← hlen, set_at_append_len]
  have hflatold : s.ready_queues.flatten = pre.flatten ++ q0 ++ post.flatten := by
    rw [hdecomp]
    simp [List.flatten_append]
  have hflatnew : (s.ready_queues.set l (q0 ++ [pid])).flatten =
      pre.flatten ++ (q0 ++ [pid]) ++ post.flatten := by
    rw [hsetform]
    simp [List.flatten_append]
  refine ⟨?_, hnd', hkey', hlt', hsize', ?_, ?_, ?_, ?_, ?_, ?_, ?_, ?_, hptnd', ?_, ?_, hlocpt', hptloc'⟩
  · rw [hready]
    rw [List.length_set]
    exact hInv.rq_len
  · intro q
    have hold := hInv.count_eq q
    rw [count_bucket, runningList_some hrun, hflatold] at hold
    rw [count_bucket, runningList_none hrun', hready, hflatnew, hblk, hfin]
    by_cases hqe : q = pid
    · subst hqe
      rw [hflag']
      rw [if_neg (by rw [hstate]; decide)]
      have h1 : poolFlag s q ≤ 1 := poolFlag_le_one s q
      simp only [List.count_cons_self, List.count_nil, List.count_append] at hold
      simp only [List.count_cons_self, List.count_nil, List.count_append]
      omega
    · rw [hflagne' q hqe]
      have hqp : ¬ (pid = q) := fun e => hqe e.symm
      simp only [List.count_cons, List.count_nil, List.count_append, beq_iff_eq,
        if_neg hqp] at hold
      simp only [List.count_cons, List.count_nil, List.count_append, beq_iff_eq, if_neg hqp]
      omega
  · intro q hr
    rw [hrun'] at hr
    cases hr
  · intro qlist hql q hq2
    rw [hready] at hql
    have hqmem : q ∈ pre.flatten ++ (q0 ++ [pid]) ++ post.flatten := by
      rw [← hflatnew]
      exact List.mem_flatten.mpr ⟨qlist, hql, hq2⟩
    by_cases hqe : q = pid
    · subst hqe
      rw [hstat', hstate]
    · rw [hstatne' q hqe]
      have : q ∈ s.ready_queues.flatten := by
        rw [hflatold]
        simp only [List.mem_append, List.mem_singleton] at hqmem
        rcases hqmem with (h1 | h1 | h1) | h1
        · simp [h1]
        · simp [h1]
        · exact absurd h1 hqe
        · simp [h1]
      obtain ⟨ql2, hql2, hq3⟩ := List.mem_flatten.mp this
      exact hInv.ready_state ql2 hql2 q hq3
  · intro q hq2
    rw [hblk] at hq2
    have hstq : q ≠ pid := fun e => hnotblk (e ▸ hq2)
    rw [hstatne' q hstq]
    exact hInv.blocked_state q hq2
  · intro q hq2
    rw [hfin] at hq2
    have hstq : q ≠ pid := fun e => hnotfin (e ▸ hq2)
    rw [hstatne' q hstq]
    exact hInv.fin_state q hq2
  · rw [hmem]; exact hInv.ft_len
  · rw [hmem]; exact hInv.rq_perm
  · rw [hmem]; exact hInv.loc_keys_nodup
  · rw [hmem]; exact hInv.loc_frame
  · rw [hmem]; exact hInv.frame_loc

theorem findFirstReady_spec : ∀ {qs : List (List Nat)} {l pid : Nat} {rest : List Nat},
    findFirstReady qs = some (l, pid, rest) → qs.get? l = some (pid :: rest) := by
  intro qs
  induction qs with
  | nil => intro l pid rest h; simp [findFirstReady] at h
  | cons q qs' ih =>
    intro l pid rest h
    match hq : q with
    | p0 :: r0 =>
      rw [findFirstReady] at h
      cases h
      rfl
    | [] =>
      rw [findFirstReady] at h
      rcases hf : findFirstReady qs' with _ | ⟨l2, p2, r2⟩
      · rw [hf] at h; simp at h
      · rw [hf] at h
        simp only [Option.map_some'] at h
        cases h
        simpa using ih hf

/-- Dispatching the head of ready queue `l` into the running slot preserves
the invariant. -/
theorem simInv_move_to_running {s s' : OSSimulator} {pid l : Nat} {rest : List Nat}
    {proc p' : Process}
    (hInv : SimInv s) (hrun : s.running = none)
    (hq : s.ready_queues.get? l = some (pid :: rest))
    (hget : alookup pid s.process_pool = some proc)
    (hpid : p'.pid = pid) (hpt : p'.page_table = proc.page_table)
    (hstate : p'.state = "Running")
    (hpool : s'.process_pool = ainsert pid p' s.process_pool)
    (hready : s'.ready_queues = s.ready_queues.set l rest)
    (hblk : s'.blocked = s.blocked)
    (hfin : s'.finished = s.finished)
    (hrun' : s'.running = some pid)
    (hnp : s'.next_pid = s.next_pid)
    (hmem : s'.memory = s.memory) : SimInv s' := by
  obtain ⟨hnd', hkey', hlt', hsize', hptnd', hlocpt', hptloc', hstat', hstatne', hflag', hflagne'⟩ :=
    poolSide_update hInv hget hpid hpt hpool hnp hmem
  obtain ⟨pre, post, hdecomp, hlen⟩ := exists_decomp_of_get hq
  have hsetform : s.ready_queues.set l rest = pre ++ rest :: post := by
    rw [hdecomp, ← hlen, set_at_append_len]
  have hflatold : s.ready_queues.flatten = pre.flatten ++ (pid :: rest) ++ post.flatten := by
    rw [hdecomp]
    simp [List.flatten_append]
  have hflatnew : (s.ready_queues.set l rest).flatten = pre.flatten ++ rest ++ post.flatten := by
    rw [hsetform]
    simp [List.flatten_append]
  -- the dispatched pid occurs exactly once, in its queue head position
  have hcountpid := hInv.count_eq pid
  rw [count_bucket, runningList_none hrun, hflatold] at hcountpid
  have hflagpid : poolFlag s pid = 1 := by
    have hmemq : pid ∈ s.ready_queues.flatten := by
      rw [hflatold]; simp
    exact poolFlag_of_state
      (hInv.ready_state _
        (by rw [hdecomp]; exact List.mem_append.mpr (Or.inr (List.mem_cons_self _ _)))
        pid (List.mem_cons_self _ _)) (by decide)
  have hnotelse : pre.flatten.count pid = 0 ∧ rest.count pid = 0 ∧
      post.flatten.count pid = 0 ∧ s.blocked.count pid = 0 ∧ s.finished.count pid = 0 := by
    rw [hflagpid] at hcountpid
    simp only [List.count_append, List.count_cons_self, List.count_nil] at hcountpid
    omega
  refine ⟨?_, hnd', hkey', hlt', hsize', ?_, ?_, ?_, ?_, ?_, ?_, ?_, ?_, hptnd', ?_, ?_, hlocpt', hptloc'⟩
  · rw [hready, List.length_set]
    exact hInv.rq_len
  · intro q
    have hold := hInv.count_eq q
    rw [count_bucket, runningList_none hrun, hflatold] at hold
    rw [count_bucket, runningList_some hrun', hready, hflatnew, hblk, hfin]
    by_cases hqe : q = pid
    · subst hqe
      rw [hflag']
      rw [if_neg (by rw [hstate]; decide), hflagpid] at *
      simp only [List.count_append, List.count_cons_self, List.count_nil] at hold
      simp only [List.count_append, List.count_cons_self, List.count_nil]
      omega
    · rw [hflagne' q hqe]
      have hqp : ¬ (pid = q) := fun e => hqe e.symm
      simp only [List.count_append, List.count_cons, List.count_nil, beq_iff_eq,
        if_neg hqp] at hold
      simp only [List.count_append, List.count_cons, List.count_nil, beq_iff_eq, if_neg hqp]
      omega
  · intro q hr
    rw [hrun'] at hr
    cases hr
    rw [hstat', hstate]
  · intro qlist hql q hq2
    rw [hready] at hql
    have hqmem : q ∈ pre.flatten ++ rest ++ post.flatten := by
      rw [← hflatnew]
      exact List.mem_flatten.mpr ⟨qlist, hql, hq2⟩
    have hqe : q ≠ pid := by
      intro e
      subst e
      simp only [List.mem_append] at hqmem
      rcases hqmem with (h1 | h1) | h1
      · exact absurd (List.count_pos_iff.mpr h1) (by rw [hnotelse.1]; omega)
      · exact absurd (List.count_pos_iff.mpr h1) (by rw [hnotelse.2.1]; omega)
      · exact absurd (List.count_pos_iff.mpr h1) (by rw [hnotelse.2.2.1]; omega)
    rw [hstatne' q hqe]
    have : q ∈ s.ready_queues.flatten := by
      rw [hflatold]
      simp only [List.mem_append] at hqmem ⊢
      rcases hqmem with (h1 | h1) | h1
      · exact Or.inl (Or.inl h1)
      · exact Or.inl (Or.inr (List.mem_cons_of_mem _ h1))
      · exact Or.inr h1
    obtain ⟨ql2, hql2, hq3⟩ := List.mem_flatten.mp this
    exact hInv.ready_state ql2 hql2 q hq3
  · intro q hq2
    rw [hblk] at hq2
    have hqe : q ≠ pid := by
      intro e
      subst e
      exact absurd (List.count_pos_iff.mpr hq2) (by rw [hnotelse.2.2.2.1]; omega)
    rw [hstatne' q hqe]
    exact hInv.blocked_state q hq2
  · intro q hq2
    rw [hfin] at hq2
    have hqe : q ≠ pid := by
      intro e
      subst e
      exact absurd (List.count_pos_iff.mpr hq2) (by rw [hnotelse.2.2.2.2]; omega)
    rw [hstatne' q hqe]
    exact hInv.fin_state q hq2
  · rw [hmem]; exact hInv.ft_len
  · rw [hmem]; exact hInv.rq_perm
  · rw [hmem]; exact hInv.loc_keys_nodup
  · rw [hmem]; exact hInv.loc_frame
  · rw [hmem]; exact hInv.frame_loc

/-- A pid whose pool entry is `New` occurs in no scheduler container. -/
theorem new_not_anywhere {s : OSSimulator} {pid : Nat} {proc : Process} (hInv : SimInv s)
    (hget : alookup pid s.process_pool = some proc) (hnew : proc.state = "New") :
    (runningList s).count pid = 0 ∧ s.ready_queues.flatten.count pid = 0 ∧
    s.blocked.count pid = 0 ∧ s.finished.count pid = 0 := by
  have hcount := hInv.count_eq pid
  rw [count_bucket] at hcount
  have hflag : poolFlag s pid = 0 := by
    unfold poolFlag
    rw [hget]
    show (if proc.state = "New" then 0 else 1) = 0
    rw [if_pos hnew]
  rw [hflag] at hcount
  omega

/-- Admitting one newly arrived process into ready queue 0 preserves the
invariant. -/
theorem simInv_new_to_ready {s s' : OSSimulator} {pid : Nat} {q0 : List Nat} {proc p' : Process}
    (hInv : SimInv s)
    (hget : alookup pid s.process_pool = some proc) (hnew : proc.state = "New")
    (hpid : p'.pid = pid) (hpt : p'.page_table = proc.page_table)
    (hstate : p'.state = "Ready")
    (hq : s.ready_queues.get? 0 = some q0)
    (hpool : s'.process_pool = ainsert pid p' s.process_pool)
    (hready : s'.ready_queues = s.ready_queues.set 0 (q0 ++ [pid]))
    (hblk : s'.blocked = s.blocked)
    (hfin : s'.finished = s.finished)
    (hrun' : s'.running = s.running)
    (hnp : s'.next_pid = s.next_pid)
    (hmem : s'.memory = s.memory) : SimInv s' := by
  obtain ⟨hnd', hkey', hlt', hsize', hptnd', hlocpt', hptloc', hstat', hstatne', hflag', hflagne'⟩ :=
    poolSide_update hInv hget hpid hpt hpool hnp hmem
  obtain ⟨hc1, hc2, hc3, hc4⟩ := new_not_anywhere hInv hget hnew
  obtain ⟨pre, post, hdecomp, hlen⟩ := exists_decomp_of_get hq
  have hsetform : s.ready_queues.set 0 (q0 ++ [pid]) = pre ++ (q0 ++ [pid]) :: post := by
    rw [hdecomp, ← hlen, set_at_append_len]
  have hflatold : s.ready_queues.flatten = pre.flatten ++ q0 ++ post.flatten := by
    rw [hdecomp]
    simp [List.flatten_append]
  have hflatnew : (s.ready_queues.set 0 (q0 ++ [pid])).flatten =
      pre.flatten ++ (q0 ++ [pid]) ++ post.flatten := by
    rw [hsetform]
    simp [List.flatten_append]
  have hrl : runningList s' = runningList s := by
    unfold runningList
    rw [hrun']
  refine ⟨?_, hnd', hkey', hlt', hsize', ?_, ?_, ?_, ?_, ?_, ?_, ?_, ?_, hptnd', ?_, ?_, hlocpt', hptloc'⟩
  · rw [hready, List.length_set]
    exact hInv.rq_len
  · intro q
    have hold := hInv.count_eq q
    rw [count_bucket, hflatold] at hold
    rw [count_bucket, hrl, hready, hflatnew, hblk, hfin]
    by_cases hqe : q = pid
    · subst hqe
      rw [hflag']
      rw [if_neg (by rw [hstate]; decide)]
      have hflag0 : poolFlag s q = 0 := by
        unfold poolFlag
        rw [hget]
        show (if proc.state = "New" then 0 else 1) = 0
        rw [if_pos hnew]
      rw [hflag0] at hold
      rw [hflatold] at hc2
      simp only [List.count_append, List.count_cons_self, List.count_nil] at hold hc2 ⊢
      omega
    · rw [hflagne' q hqe]
      have hqp : ¬ (pid = q) := fun e => hqe e.symm
      simp only [List.count_append, List.count_cons, List.count_nil, beq_iff_eq,
        if_neg hqp] at hold
      simp only [List.count_append, List.count_cons, List.count_nil, beq_iff_eq, if_neg hqp]
      omega
  · intro q hr
    rw [hrun'] at hr
    have hqe : q ≠ pid := by
      intro e
      subst e
      rw [runningList_some hr] at hc1
      simp at hc1
    rw [hstatne' q hqe]
    exact hInv.run_state q hr
  · intro qlist hql q hq2
    rw [hready] at hql
    by_cases hqe : q = pid
    · subst hqe
      rw [hstat', hstate]
    · rw [hstatne' q hqe]
      have hqmem : q ∈ pre.flatten ++ (q0 ++ [pid]) ++ post.flatten := by
        rw [← hflatnew]
        exact List.mem_flatten.mpr ⟨qlist, hql, hq2⟩
      have : q ∈ s.ready_queues.flatten := by
        rw [hflatold]
        simp only [List.mem_append, List.mem_singleton] at hqmem ⊢
        rcases hqmem with (h1 | h1 | h1) | h1
        · exact Or.inl (Or.inl h1)
        · exact Or.inl (Or.inr h1)
        · exact absurd h1 hqe
        · exact Or.inr h1
      obtain ⟨ql2, hql2, hq3⟩ := List.mem_flatten.mp this
      exact hInv.ready_state ql2 hql2 q hq3
  · intro q hq2
    rw [hblk] at hq2
    have hqe : q ≠ pid := by
      intro e
      subst e
      exact absurd (List.count_pos_iff.mpr hq2) (by rw [hc3]; omega)
    rw [hstatne' q hqe]
    exact hInv.blocked_state q hq2
  · intro q hq2
    rw [hfin] at hq2
    have hqe : q ≠ pid := by
      intro e
      subst e
      exact absurd (List.count_pos_iff.mpr hq2) (by rw [hc4]; omega)
    rw [hstatne' q hqe]
    exact hInv.fin_state q hq2
  · rw [hmem]; exact hInv.ft_len
  · rw [hmem]; exact hInv.rq_perm
  · rw [hmem]; exact hInv.loc_keys_nodup
  · rw [hmem]; exact hInv.loc_frame
  · rw [hmem]; exact hInv.frame_loc

theorem alookup_eq_none_of_not_mem {α β : Type} [DecidableEq α] {k : α} {l : List (α × β)}
    (h : k ∉ l.map Prod.fst) : alookup k l = none := by
  rcases hl : alookup k l with _ | v
  · rfl
  · exact absurd (alookup_isSome_mem hl) h

/-- Spawning a fresh process (pid = `next_pid`) straight into ready queue 0
preserves the invariant. -/
theorem simInv_spawn_to_ready {s s' : OSSimulator} {q0 : List Nat} {p' : Process}
    (hInv : SimInv s)
    (hpid : p'.pid = s.next_pid) (hpt : p'.page_table = [])
    (hstate : p'.state = "Ready")
    (hq : s.ready_queues.get? 0 = some q0)
    (hpool : s'.process_pool = ainsert s.next_pid p' s.process_pool)
    (hready : s'.ready_queues = s.ready_queues.set 0 (q0 ++ [s.next_pid]))
    (hblk : s'.blocked = s.blocked)
    (hfin : s'.finished = s.finished)
    (hrun' : s'.running = s.running)
    (hnp : s'.next_pid = s.next_pid + 1)
    (hmem : s'.memory = s.memory) : SimInv s' := by
  set pid := s.next_pid with hpiddef
  have hnotkey : pid ∉ s.process_pool.map Prod.fst := by
    intro hmemk
    obtain ⟨e, he, hfst⟩ := List.mem_map.mp hmemk
    have := hInv.pid_lt e he
    omega
  have hnone : alookup pid s.process_pool = none := alookup_eq_none_of_not_mem hnotkey
  have hself' : alookup pid s'.process_pool = some p' := by
    rw [hpool]; exact alookup_ainsert_self pid p' s.process_pool
  have hne' : ∀ q, q ≠ pid → alookup q s'.process_pool = alookup q s.process_pool := by
    intro q hq2
    rw [hpool]
    exact alookup_ainsert_ne p' s.process_pool hq2
  have hstatne' : ∀ q, q ≠ pid → stateOf s' q = stateOf s q := by
    intro q hq2
    unfold stateOf
    rw [hne' q hq2]
  have hflagne' : ∀ q, q ≠ pid → poolFlag s' q = poolFlag s q := by
    intro q hq2
    unfold poolFlag
    rw [hne' q hq2]
  have hflag0 : poolFlag s pid = 0 := by
    unfold poolFlag
    rw [hnone]
  have hcount0 := hInv.count_eq pid
  rw [count_bucket, hflag0] at hcount0
  obtain ⟨pre, post, hdecomp, hlen⟩ := exists_decomp_of_get hq
  have hsetform : s.ready_queues.set 0 (q0 ++ [pid]) = pre ++ (q0 ++ [pid]) :: post := by
    rw [hdecomp, ← hlen, set_at_append_len]
  have hflatold : s.ready_queues.flatten = pre.flatten ++ q0 ++ post.flatten := by
    rw [hdecomp]
    simp [List.flatten_append]
  have hflatnew : (s.ready_queues.set 0 (q0 ++ [pid])).flatten =
      pre.flatten ++ (q0 ++ [pid]) ++ post.flatten := by
    rw [hsetform]
    simp [List.flatten_append]
  have hrl : runningList s' = runningList s := by
    unfold runningList
    rw [hrun']
  refine ⟨?_, ?_, ?_, ?_, ?_, ?_, ?_, ?_, ?_, ?_, ?_, ?_, ?_, ?_, ?_, ?_, ?_, ?_⟩
  · rw [hready, List.length_set]
    exact hInv.rq_len
  · rw [hpool, map_fst_ainsert_not_mem p' hnotkey, List.nodup_append]
    refine ⟨hInv.keys_nodup, List.nodup_singleton _, ?_⟩
    intro a ha hb
    rw [List.mem_singleton] at hb
    subst hb
    exact hnotkey ha
  · intro e he
    rw [hpool] at he
    rcases mem_ainsert he with h1 | h1
    · rw [h1]; exact hpid.symm
    · exact hInv.key_pid e h1
  · intro e he
    rw [hpool] at he
    rw [hnp]
    rcases mem_ainsert he with h1 | h1
    · rw [h1]; omega
    · have := hInv.pid_lt e h1
      omega
  · rw [hnp, hpool, length_ainsert_not_mem p' hnotkey]
    have := hInv.pool_size
    omega
  · intro q
    have hold := hInv.count_eq q
    rw [count_bucket, hflatold] at hold
    rw [count_bucket, hrl, hready, hflatnew, hblk, hfin]
    by_cases hqe : q = pid
    · subst hqe
      have hflagn : poolFlag s' pid = 1 := by
        unfold poolFlag
        rw [hself']
        show (if p'.state = "New" then 0 else 1) = 1
        rw [if_neg (by rw [hstate]; decide)]
      rw [hflagn]
      rw [hflag0] at hold
      rw [hflatold] at hcount0
      simp only [List.count_append, List.count_cons_self, List.count_nil] at hold hcount0 ⊢
      omega
    · rw [hflagne' q hqe]
      have hqp : ¬ (pid = q) := fun e => hqe e.symm
      simp only [List.count_append, List.count_cons, List.count_nil, beq_iff_eq,
        if_neg hqp] at hold
      simp only [List.count_append, List.count_cons, List.count_nil, beq_iff_eq, if_neg hqp]
      omega
  · intro q hr
    rw [hrun'] at hr
    have hqe : q ≠ pid := by
      intro e
      subst e
      rw [runningList_some hr] at hcount0
      simp at hcount0
    rw [hstatne' q hqe]
    exact hInv.run_state q hr
  · intro qlist hql q hq2
    rw [hready] at hql
    by_cases hqe : q = pid
    · subst hqe
      unfold stateOf
      rw [hself', Option.map_some', hstate]
    · rw [hstatne' q hqe]
      have hqmem : q ∈ pre.flatten ++ (q0 ++ [pid]) ++ post.flatten := by
        rw [← hflatnew]
        exact List.mem_flatten.mpr ⟨qlist, hql, hq2⟩
      have : q ∈ s.ready_queues.flatten := by
        rw [hflatold]
        simp only [List.mem_append, List.mem_singleton] at hqmem ⊢
        rcases hqmem with (h1 | h1 | h1) | h1
        · exact Or.inl (Or.inl h1)
        · exact Or.inl (Or.inr h1)
        · exact absurd h1 hqe
        · exact Or.inr h1
      obtain ⟨ql2, hql2, hq3⟩ := List.mem_flatten.mp this
      exact hInv.ready_state ql2 hql2 q hq3
  · intro q hq2
    rw [hblk] at hq2
    have hqe : q ≠ pid := by
      intro e
      subst e
      have := List.count_pos_iff.mpr hq2
      omega
    rw [hstatne' q hqe]
    exact hInv.blocked_state q hq2
  · intro q hq2
    rw [hfin] at hq2
    have hqe : q ≠ pid := by
      intro e
      subst e
      have := List.count_pos_iff.mpr hq2
      omega
    rw [hstatne' q hqe]
    exact hInv.fin_state q hq2
  · rw [hmem]; exact hInv.ft_len
  · rw [hmem]; exact hInv.rq_perm
  · rw [hmem]; exact hInv.loc_keys_nodup
  · intro e he
    rw [hpool] at he
    rcases mem_ainsert he with h1 | h1
    · rw [h1]
      show ((p'.page_table).map Prod.fst).Nodup
      rw [hpt]
      exact List.nodup_nil
    · exact hInv.pt_keys_nodup e h1
  · rw [hmem]; exact hInv.loc_frame
  · rw [hmem]; exact hInv.frame_loc
  · intro pid2 page f hloc
    rw [hmem] at hloc
    obtain ⟨p, hp1, hp2⟩ := hInv.loc_pt pid2 page f hloc
    have hqe : pid2 ≠ pid := by
      intro e
      subst e
      rw [hnone] at hp1
      cases hp1
    refine ⟨p, ?_, hp2⟩
    rw [hne' pid2 hqe]
    exact hp1
  · intro pid2 p page f hp1 hp2
    rw [hmem]
    by_cases hqe : pid2 = pid
    · subst hqe
      rw [hself'] at hp1
      cases hp1
      rw [hpt] at hp2
      simp [alookup] at hp2
    · rw [hne' pid2 hqe] at hp1
      exact hInv.pt_loc pid2 p page f hp1 hp2

theorem ainsert_self_eq {α β : Type} [DecidableEq α] {k : α} {v : β} {l : List (α × β)}
    (h : alookup k l = some v) : ainsert k v l = l := by
  induction l with
  | nil => simp [alookup] at h
  | cons e rest ih =>
    obtain ⟨a, b⟩ := e
    by_cases ha : a = k
    · subst ha
      rw [alookup, if_pos rfl] at h
      cases h
      rw [ainsert, if_pos rfl]
    · rw [alookup, if_neg ha] at h
      rw [ainsert, if_neg ha, ih h]

theorem ainsert_ainsert {α β : Type} [DecidableEq α] (k : α) (v1 v2 : β) (l : List (α × β)) :
    ainsert k v2 (ainsert k v1 l) = ainsert k v2 l := by
  induction l with
  | nil => simp [ainsert]
  | cons e rest ih =>
    obtain ⟨a, b⟩ := e
    by_cases ha : a = k
    · subst ha
      rw [ainsert, if_pos rfl, ainsert, if_pos rfl, ainsert, if_pos rfl]
    · rw [ainsert, if_neg ha, ainsert, if_neg ha, ainsert, if_neg ha, ih]

theorem poolFlag_eq_of_stateOf {s s' : OSSimulator} {q : Nat}
    (h : stateOf s' q = stateOf s q) : poolFlag s' q = poolFlag s q := by
  unfold stateOf at h
  unfold poolFlag
  rcases h1 : alookup q s'.process_pool with _ | p1 <;>
    rcases h2 : alookup q s.process_pool with _ | p2 <;>
      rw [h1, h2] at h <;> simp_all

/-- The scheduler-container fields of the invariant transfer to any state with
the same containers and the same recorded lifecycle states. -/
theorem bucket_fields_transfer {s s' : OSSimulator}
    (hready : s'.ready_queues = s.ready_queues) (hblk : s'.blocked = s.blocked)
    (hfin : s'.finished = s.finished) (hrun : s'.running = s.running)
    (hstat : ∀ q, stateOf s' q = stateOf s q) (hInv : SimInv s) :
    s'.ready_queues.length = 3 ∧
    (∀ pid, (bucketPids s').count pid = poolFlag s' pid) ∧
    (∀ pid, s'.running = some pid → stateOf s' pid = some "Running") ∧
    (∀ q ∈ s'.ready_queues, ∀ pid ∈ q, stateOf s' pid = some "Ready") ∧
    (∀ pid ∈ s'.blocked, stateOf s' pid = some "Blocked") ∧
    (∀ pid ∈ s'.finished, stateOf s' pid = some "Finished") := by
  have hbp : bucketPids s' = bucketPids s := by
    unfold bucketPids runningList
    rw [hready, hblk, hfin, hrun]
  refine ⟨?_, ?_, ?_, ?_, ?_, ?_⟩
  · rw [hready]; exact hInv.rq_len
  · intro pid
    rw [hbp, poolFlag_eq_of_stateOf (hstat pid)]
    exact hInv.count_eq pid
  · intro pid hr
    rw [hstat]
    exact hInv.run_state pid (hrun ▸ hr)
  · intro q hq pid hp
    rw [hstat]
    exact hInv.ready_state q (hready ▸ hq) pid hp
  · intro pid hp
    rw [hstat]
    exact hInv.blocked_state pid (hblk ▸ hp)
  · intro pid hp
    rw [hstat]
    exact hInv.fin_state pid (hfin ▸ hp)

theorem lt_length_of_get {α : Type} {l : List α} {n : Nat} {x : α}
    (h : l.get? n = some x) : n < l.length := by
  by_contra hn
  rw [List.get?_eq_none.mpr (Nat.le_of_not_lt hn)] at h
  cases h

/-- A page fault that installs into an empty frame preserves the invariant. -/
theorem simInv_mem_miss_free {s s' : OSSimulator} {proc : Process} {norm : Int}
    {frame : Nat} {rest : List Nat}
    (hInv : SimInv s) (hget : alookup proc.pid s.process_pool = some proc)
    (hmiss : alookup (proc.pid, norm) s.memory.page_locations = none)
    (hqueue : s.memory.replacement_queue = frame :: rest)
    (hft : s.memory.frame_table.get? frame = some none)
    (hpool : s'.process_pool =
      ainsert proc.pid { proc with page_table := ainsert norm frame proc.page_table }
        s.process_pool)
    (hready : s'.ready_queues = s.ready_queues) (hblk : s'.blocked = s.blocked)
    (hfin : s'.finished = s.finished) (hrun : s'.running = s.running)
    (hnp : s'.next_pid = s.next_pid)
    (hfr : s'.memory.frames = s.memory.frames)
    (hftn : s'.memory.frame_table = s.memory.frame_table.set frame (some (proc.pid, norm)))
    (hrq : s'.memory.replacement_queue = rest ++ [frame])
    (hlocs : s'.memory.page_locations =
      ainsert (proc.pid, norm) frame s.memory.page_locations) : SimInv s' := by
  set key : Nat × Int := (proc.pid, norm) with hkey
  set proc' : Process := { proc with page_table := ainsert norm frame proc.page_table }
    with hproc'
  have hframe_lt : frame < s.memory.frame_table.length := lt_length_of_get hft
  have hkeymem : proc.pid ∈ s.process_pool.map Prod.fst := alookup_isSome_mem hget
  have hkeynot : key ∉ s.memory.page_locations.map Prod.fst := by
    intro hm
    have := mem_alookup_isSome hm
    rw [hmiss] at this
    cases this
  have hself' : alookup proc.pid s'.process_pool = some proc' := by
    rw [hpool]; exact alookup_ainsert_self _ _ _
  have hne' : ∀ q, q ≠ proc.pid → alookup q s'.process_pool = alookup q s.process_pool := by
    intro q hq
    rw [hpool]; exact alookup_ainsert_ne _ _ hq
  have hstat : ∀ q, stateOf s' q = stateOf s q := by
    intro q
    by_cases hq : q = proc.pid
    · subst hq
      unfold stateOf
      rw [hself', hget]
      rfl
    · unfold stateOf
      rw [hne' q hq]
  obtain ⟨hB1, hB2, hB3, hB4, hB5, hB6⟩ :=
    bucket_fields_transfer hready hblk hfin hrun hstat hInv
  refine ⟨hB1, ?_, ?_, ?_, ?_, hB2, hB3, hB4, hB5, hB6, ?_, ?_, ?_, ?_, ?_, ?_, ?_, ?_⟩
  · rw [hpool]
    exact nodup_keys_ainsert _ _ hInv.keys_nodup
  · intro e he
    rw [hpool] at he
    rcases mem_ainsert he with h1 | h1
    · rw [h1]
    · exact hInv.key_pid e h1
  · intro e he
    rw [hpool] at he
    rw [hnp]
    rcases mem_ainsert he with h1 | h1
    · rw [h1]
      exact hInv.pid_lt (proc.pid, proc) (mem_of_alookup hget)
    · exact hInv.pid_lt e h1
  · rw [hnp, hpool, length_ainsert_mem _ hkeymem]
    exact hInv.pool_size
  · rw [hftn, List.length_set, hfr]
    exact hInv.ft_len
  · rw [hrq, hfr]
    exact ((List.perm_append_singleton _ _).trans (hqueue ▸ hInv.rq_perm))
  · rw [hlocs, map_fst_ainsert_not_mem _ hkeynot, List.nodup_append]
    refine ⟨hInv.loc_keys_nodup, List.nodup_singleton _, ?_⟩
    intro a ha hb
    rw [List.mem_singleton] at hb
    subst hb
    exact hkeynot ha
  · intro e he
    rw [hpool] at he
    rcases mem_ainsert he with h1 | h1
    · rw [h1]
      show ((proc'.page_table).map Prod.fst).Nodup
      rw [hproc']
      exact nodup_keys_ainsert _ _ (hInv.pt_keys_nodup _ (mem_of_alookup hget))
    · exact hInv.pt_keys_nodup e h1
  · intro k f hkf
    rw [hlocs] at hkf
    rw [hftn]
    by_cases hk : k = key
    · subst hk
      rw [alookup_ainsert_self] at hkf
      cases hkf
      rw [List.get?_set_eq_of_lt _ hframe_lt]
    · rw [alookup_ainsert_ne _ _ hk] at hkf
      have hold := hInv.loc_frame k f hkf
      have hfne : f ≠ frame := by
        intro e
        subst e
        rw [hft] at hold
        cases hold
      rw [List.get?_set_ne _ _ (fun e => hfne e.symm)]
      exact hold
  · intro f k hfk
    rw [hftn] at hfk
    rw [hlocs]
    by_cases hf : f = frame
    · subst hf
      rw [List.get?_set_eq_of_lt _ hframe_lt] at hfk
      cases hfk
      exact alookup_ainsert_self _ _ _
    · rw [List.get?_set_ne _ _ (fun e => hf e.symm)] at hfk
      have hold := hInv.frame_loc f k hfk
      have hkne : k ≠ key := by
        intro e
        subst e
        rw [hmiss] at hold
        cases hold
      rw [alookup_ainsert_ne _ _ hkne]
      exact hold
  · intro pid2 page f hloc
    rw [hlocs] at hloc
    by_cases hk : (pid2, page) = key
    · rw [hk, alookup_ainsert_self] at hloc
      cases hloc
      have hk3 : pid2 = proc.pid := congrArg Prod.fst (hkey ▸ hk)
      have hk4 : page = norm := congrArg Prod.snd (hkey ▸ hk)
      refine ⟨proc', ?_, ?_⟩
      · rw [hk3]; exact hself'
      · show alookup page (ainsert norm frame proc.page_table) = some frame
        rw [hk4]
        exact alookup_ainsert_self _ _ _
    · rw [alookup_ainsert_ne _ _ hk] at hloc
      obtain ⟨p, hp1, hp2⟩ := hInv.loc_pt pid2 page f hloc
      by_cases hq : pid2 = proc.pid
      · subst hq
        rw [hget] at hp1
        cases hp1
        refine ⟨proc', hself', ?_⟩
        show alookup page (ainsert norm frame proc.page_table) = some f
        have hpn : page ≠ norm := by
          intro e
          apply hk
          rw [hkey, e]
        rw [alookup_ainsert_ne _ _ hpn]
        exact hp2
      · exact ⟨p, by rw [hne' pid2 hq]; exact hp1, hp2⟩
  · intro pid2 p page f hp1 hp2
    rw [hlocs]
    by_cases hq : pid2 = proc.pid
    · subst hq
      rw [hself'] at hp1
      cases hp1
      by_cases hpn : page = norm
      · have hp2' : alookup page (ainsert norm frame proc.page_table) = some f := hp2
        rw [hpn, alookup_ainsert_self] at hp2'
        cases hp2'
        have hpair : (proc.pid, page) = key := by rw [hkey, hpn]
        rw [hpair]
        exact alookup_ainsert_self _ _ _
      · have hp2' : alookup page (ainsert norm frame proc.page_table) = some f := hp2
        rw [alookup_ainsert_ne _ _ hpn] at hp2'
        have hold := hInv.pt_loc proc.pid proc page f hget hp2'
        have hkne : (proc.pid, page) ≠ key := by
          intro hcontra
          exact hpn (congrArg Prod.snd (hcontra.trans hkey))
        rw [alookup_ainsert_ne _ _ hkne]
        exact hold
    · rw [hne' pid2 hq] at hp1
      have hold := hInv.pt_loc pid2 p page f hp1 hp2
      have hkne : (pid2, page) ≠ key := by
        intro hcontra
        exact hq (congrArg Prod.fst (hcontra.trans hkey))
      rw [alookup_ainsert_ne _ _ hkne]
      exact hold

theorem mem_keys_aerase_sub {α β : Type} [DecidableEq α] {k k' : α} {l : List (α × β)}
    (h : k' ∈ (aerase k l).map Prod.fst) : k' ∈ l.map Prod.fst := by
  induction l with
  | nil => simpa [aerase] using h
  | cons e rest ih =>
    obtain ⟨a, b⟩ := e
    by_cases ha : a = k
    · subst ha
      rw [aerase, if_pos rfl] at h
      simp only [List.map_cons, List.mem_cons]
      exact Or.inr h
    · rw [aerase, if_neg ha] at h
      simp only [List.map_cons, List.mem_cons] at h ⊢
      rcases h with h1 | h1
      · exact Or.inl h1
      · exact Or.inr (ih h1)

/-- A page fault that evicts an occupied frame (and cleans the evicted page
out of its owner's page table) preserves the invariant. -/
theorem simInv_mem_miss_evict {s s' : OSSimulator} {proc owner : Process} {norm : Int}
    {frame : Nat} {rest : List Nat} {ek : Nat × Int}
    (hInv : SimInv s) (hget : alookup proc.pid s.process_pool = some proc)
    (hmiss : alookup (proc.pid, norm) s.memory.page_locations = none)
    (hqueue : s.memory.replacement_queue = frame :: rest)
    (hft : s.memory.frame_table.get? frame = some (some ek))
    (howner : alookup ek.1
      (ainsert proc.pid { proc with page_table := ainsert norm frame proc.page_table }
        s.process_pool) = some owner)
    (hpool : s'.process_pool =
      ainsert ek.1 { owner with page_table := aerase ek.2 owner.page_table }
        (ainsert proc.pid { proc with page_table := ainsert norm frame proc.page_table }
          s.process_pool))
    (hready : s'.ready_queues = s.ready_queues) (hblk : s'.blocked = s.blocked)
    (hfin : s'.finished = s.finished) (hrun : s'.running = s.running)
    (hnp : s'.next_pid = s.next_pid)
    (hfr : s'.memory.frames = s.memory.frames)
    (hftn : s'.memory.frame_table = s.memory.frame_table.set frame (some (proc.pid, norm)))
    (hrq : s'.memory.replacement_queue = rest ++ [frame])
    (hlocs : s'.memory.page_locations =
      ainsert (proc.pid, norm) frame (aerase ek s.memory.page_locations)) : SimInv s' := by
  set key : Nat × Int := (proc.pid, norm) with hkey
  set proc' : Process := { proc with page_table := ainsert norm frame proc.page_table }
    with hproc'
  set ownerE : Process := { owner with page_table := aerase ek.2 owner.page_table }
    with hownerE
  set pool1 := ainsert proc.pid proc' s.process_pool with hpool1
  have hframe_lt : frame < s.memory.frame_table.length := lt_length_of_get hft
  have hek_loc : alookup ek s.memory.page_locations = some frame := hInv.frame_loc frame ek hft
  have hekne : ek ≠ key := by
    intro e
    rw [e, hmiss] at hek_loc
    cases hek_loc
  have hkeymem : proc.pid ∈ s.process_pool.map Prod.fst := alookup_isSome_mem hget
  have hkeynot : key ∉ s.memory.page_locations.map Prod.fst := by
    intro hm
    have := mem_alookup_isSome hm
    rw [hmiss] at this
    cases this
  have hself1 : alookup proc.pid pool1 = some proc' := alookup_ainsert_self _ _ _
  have hne1 : ∀ q, q ≠ proc.pid → alookup q pool1 = alookup q s.process_pool := by
    intro q hq
    exact alookup_ainsert_ne _ _ hq
  have hself2 : alookup ek.1 s'.process_pool = some ownerE := by
    rw [hpool]; exact alookup_ainsert_self _ _ _
  have hne2 : ∀ q, q ≠ ek.1 → alookup q s'.process_pool = alookup q pool1 := by
    intro q hq
    rw [hpool]; exact alookup_ainsert_ne _ _ hq
  have hkeys1 : pool1.map Prod.fst = s.process_pool.map Prod.fst :=
    map_fst_ainsert_mem _ hkeymem
  have hekmem : ek.1 ∈ s.process_pool.map Prod.fst := by
    have := alookup_isSome_mem howner
    rw [hkeys1] at this
    exact this
  have hnd1 : (pool1.map Prod.fst).Nodup := by
    rw [hkeys1]; exact hInv.keys_nodup
  have hownerform : (ek.1 = proc.pid ∧ owner = proc') ∨
      (ek.1 ≠ proc.pid ∧ alookup ek.1 s.process_pool = some owner) := by
    by_cases he1 : ek.1 = proc.pid
    · left
      refine ⟨he1, ?_⟩
      rw [he1, hself1] at howner
      exact (Option.some.inj howner).symm
    · right
      refine ⟨he1, ?_⟩
      rw [hne1 ek.1 he1] at howner
      exact howner
  have hownerpid : owner.pid = ek.1 := by
    rcases hownerform with ⟨he1, he2⟩ | ⟨he1, he2⟩
    · rw [he2, hproc', he1]
    · exact (hInv.key_pid _ (mem_of_alookup he2)).symm
  have hownerptnd : (owner.page_table.map Prod.fst).Nodup := by
    rcases hownerform with ⟨he1, he2⟩ | ⟨he1, he2⟩
    · rw [he2, hproc']
      exact nodup_keys_ainsert _ _ (hInv.pt_keys_nodup _ (mem_of_alookup hget))
    · exact hInv.pt_keys_nodup _ (mem_of_alookup he2)
  have hstat : ∀ q, stateOf s' q = stateOf s q := by
    intro q
    by_cases hq2 : q = ek.1
    · subst hq2
      unfold stateOf
      rw [hself2]
      rcases hownerform with ⟨he1, he2⟩ | ⟨he1, he2⟩
      · rw [he1, hget]
        have : ownerE.state = proc.state := by rw [hownerE, he2, hproc']
        rw [Option.map_some', Option.map_some', this]
      · rw [he2]
        have : ownerE.state = owner.state := by rw [hownerE]
        rw [Option.map_some', Option.map_some', this]
    · by_cases hq3 : q = proc.pid
      · unfold stateOf
        rw [hne2 q hq2, hq3, hself1, hget]
        have : proc'.state = proc.state := by rw [hproc']
        rw [Option.map_some', Option.map_some', this]
      · unfold stateOf
        rw [hne2 q hq2, hne1 q hq3]
  obtain ⟨hB1, hB2, hB3, hB4, hB5, hB6⟩ :=
    bucket_fields_transfer hready hblk hfin hrun hstat hInv
  -- final page-table contents at each pid
  have hmemkey : ∀ q, q ∈ s'.process_pool.map Prod.fst ↔ q ∈ s.process_pool.map Prod.fst := by
    intro q
    rw [hpool]
    rw [show (ainsert ek.1 ownerE pool1).map Prod.fst = pool1.map Prod.fst from
      map_fst_ainsert_mem _ (by rw [hkeys1]; exact hekmem), hkeys1]
  refine ⟨hB1, ?_, ?_, ?_, ?_, hB2, hB3, hB4, hB5, hB6, ?_, ?_, ?_, ?_, ?_, ?_, ?_, ?_⟩
  · rw [hpool]
    exact nodup_keys_ainsert _ _ hnd1
  · intro e he
    rw [hpool] at he
    rcases mem_ainsert he with h1 | h1
    · rw [h1]
      exact hownerpid.symm
    · rcases mem_ainsert h1 with h2 | h2
      · rw [h2]
      · exact hInv.key_pid e h2
  · intro e he
    rw [hpool] at he
    rw [hnp]
    rcases mem_ainsert he with h1 | h1
    · rw [h1]
      obtain ⟨e2, he2, hfst⟩ := List.mem_map.mp hekmem
      have := hInv.pid_lt e2 he2
      show ek.1 < s.next_pid
      omega
    · rcases mem_ainsert h1 with h2 | h2
      · rw [h2]
        exact hInv.pid_lt (proc.pid, proc) (mem_of_alookup hget)
      · exact hInv.pid_lt e h2
  · rw [hnp, hpool,
      length_ainsert_mem _ (by rw [hkeys1]; exact hekmem),
      length_ainsert_mem _ hkeymem]
    exact hInv.pool_size
  · rw [hftn, List.length_set, hfr]
    exact hInv.ft_len
  · rw [hrq, hfr]
    exact ((List.perm_append_singleton _ _).trans (hqueue ▸ hInv.rq_perm))
  · rw [hlocs]
    have hsub : key ∉ (aerase ek s.memory.page_locations).map Prod.fst := by
      intro hm
      exact hkeynot (mem_keys_aerase_sub hm)
    rw [map_fst_ainsert_not_mem _ hsub, List.nodup_append]
    refine ⟨nodup_keys_aerase _ hInv.loc_keys_nodup, List.nodup_singleton _, ?_⟩
    intro a ha hb
    rw [List.mem_singleton] at hb
    subst hb
    exact hsub ha
  · intro e he
    rw [hpool] at he
    rcases mem_ainsert he with h1 | h1
    · rw [h1]
      show ((ownerE.page_table).map Prod.fst).Nodup
      rw [hownerE]
      exact nodup_keys_aerase _ hownerptnd
    · rcases mem_ainsert h1 with h2 | h2
      · rw [h2]
        show ((proc'.page_table).map Prod.fst).Nodup
        rw [hproc']
        exact nodup_keys_ainsert _ _ (hInv.pt_keys_nodup _ (mem_of_alookup hget))
      · exact hInv.pt_keys_nodup e h2
  · intro k f hkf
    rw [hlocs] at hkf
    rw [hftn]
    by_cases hk : k = key
    · subst hk
      rw [alookup_ainsert_self] at hkf
      cases hkf
      rw [List.get?_set_eq_of_lt _ hframe_lt]
    · rw [alookup_ainsert_ne _ _ hk] at hkf
      have hkek : k ≠ ek := by
        intro e
        subst e
        rw [alookup_aerase_self _ _ hInv.loc_keys_nodup] at hkf
        cases hkf
      rw [alookup_aerase_ne _ hkek] at hkf
      have hold := hInv.loc_frame k f hkf
      have hfne : f ≠ frame := by
        intro e
        subst e
        rw [hft] at hold
        cases hold
        exact hkek rfl
      rw [List.get?_set_ne _ _ (fun e => hfne e.symm)]
      exact hold
  · intro f k hfk
    rw [hftn] at hfk
    rw [hlocs]
    by_cases hf : f = frame
    · subst hf
      rw [List.get?_set_eq_of_lt _ hframe_lt] at hfk
      cases hfk
      exact alookup_ainsert_self _ _ _
    · rw [List.get?_set_ne _ _ (fun e => hf e.symm)] at hfk
      have hold := hInv.frame_loc f k hfk
      have hkek : k ≠ ek := by
        intro e
        subst e
        rw [hek_loc] at hold
        cases hold
        exact hf rfl
      have hkne : k ≠ key := by
        intro e
        subst e
        rw [hmiss] at hold
        cases hold
      rw [alookup_ainsert_ne _ _ hkne, alookup_aerase_ne _ hkek]
      exact hold
  · intro pid2 page f hloc
    rw [hlocs] at hloc
    by_cases hk : (pid2, page) = key
    · rw [hk, alookup_ainsert_self] at hloc
      cases hloc
      have hk3 : pid2 = proc.pid := congrArg Prod.fst (hkey ▸ hk)
      have hk4 : page = norm := congrArg Prod.snd (hkey ▸ hk)
      by_cases he1 : ek.1 = proc.pid
      · refine ⟨ownerE, ?_, ?_⟩
        · rw [hk3, ← he1]
          exact hself2
        · show alookup page (aerase ek.2 owner.page_table) = some frame
          have howeq : owner = proc' := by
            rcases hownerform with ⟨_, he2⟩ | ⟨hne, _⟩
            · exact he2
            · exact absurd he1 hne
          rw [howeq, hproc']
          have hpagene : page ≠ ek.2 := by
            intro e
            apply hekne
            have : ek = (ek.1, ek.2) := rfl
            rw [this, he1, ← e, hkey, ← hk4]
          rw [show aerase ek.2 (ainsert norm frame proc.page_table) =
              aerase ek.2 (ainsert norm frame proc.page_table) from rfl]
          rw [alookup_aerase_ne _ hpagene]
          rw [hk4]
          exact alookup_ainsert_self _ _ _
      · refine ⟨proc', ?_, ?_⟩
        · rw [hk3, hne2 proc.pid (fun e => he1 e.symm)]
          exact hself1
        · show alookup page (ainsert norm frame proc.page_table) = some frame
          rw [hk4]
          exact alookup_ainsert_self _ _ _
    · rw [alookup_ainsert_ne _ _ hk] at hloc
      have hkek : (pid2, page) ≠ ek := by
        intro e
        subst e
        rw [alookup_aerase_self _ _ hInv.loc_keys_nodup] at hloc
        cases hloc
      rw [alookup_aerase_ne _ hkek] at hloc
      obtain ⟨p, hp1, hp2⟩ := hInv.loc_pt pid2 page f hloc
      by_cases hq2 : pid2 = ek.1
      · refine ⟨ownerE, by rw [hq2]; exact hself2, ?_⟩
        show alookup page (aerase ek.2 owner.page_table) = some f
        have hpagene : page ≠ ek.2 := by
          intro e
          apply hkek
          have : ek = (ek.1, ek.2) := rfl
          rw [this, ← hq2, ← e]
        rw [alookup_aerase_ne _ hpagene]
        rcases hownerform with ⟨he1, he2⟩ | ⟨he1, he2⟩
        · rw [he1] at hq2
          rw [hq2, hget] at hp1
          cases hp1
          rw [he2, hproc']
          have hpn : page ≠ norm := by
            intro e
            apply hk
            rw [hkey, hq2, e]
          rw [show alookup page (ainsert norm frame proc.page_table) =
              alookup page proc.page_table from alookup_ainsert_ne _ _ hpn]
          exact hp2
        · rw [hq2, he2] at hp1
          cases hp1
          exact hp2
      · by_cases hq3 : pid2 = proc.pid
        · rw [hq3, hget] at hp1
          cases hp1
          refine ⟨proc', ?_, ?_⟩
          · rw [hq3, hne2 proc.pid (by rw [← hq3]; exact hq2)]
            exact hself1
          · show alookup page (ainsert norm frame proc.page_table) = some f
            have hpn : page ≠ norm := by
              intro e
              apply hk
              rw [hkey, hq3, e]
            rw [alookup_ainsert_ne _ _ hpn]
            exact hp2
        · refine ⟨p, ?_, hp2⟩
          rw [hne2 pid2 hq2, hne1 pid2 hq3]
          exact hp1
  · intro pid2 p page f hp1 hp2
    rw [hlocs]
    by_cases hq2 : pid2 = ek.1
    · subst hq2
      rw [hself2] at hp1
      cases hp1
      have hp2' : alookup page (aerase ek.2 owner.page_table) = some f := hp2
      have hpagene : page ≠ ek.2 := by
        intro e
        subst e
        rw [alookup_aerase_self _ _ hownerptnd] at hp2'
        cases hp2'
      rw [alookup_aerase_ne _ hpagene] at hp2'
      rcases hownerform with ⟨he1, he2⟩ | ⟨he1, he2⟩
      · have hp2'' : alookup page (ainsert norm frame proc.page_table) = some f := by
          rw [he2, hproc'] at hp2'
          exact hp2'
        by_cases hpn : page = norm
        · rw [hpn, alookup_ainsert_self] at hp2''
          cases hp2''
          have hpair : (ek.1, page) = key := by rw [hkey, hpn, he1]
          rw [hpair]
          exact alookup_ainsert_self _ _ _
        · rw [alookup_ainsert_ne _ _ hpn] at hp2''
          have hold := hInv.pt_loc proc.pid proc page f hget hp2''
          have hkne : (ek.1, page) ≠ key := by
            intro hcontra
            exact hpn (congrArg Prod.snd (hcontra.trans hkey))
          have hkek : (ek.1, page) ≠ ek := by
            intro hcontra
            exact hpagene (congrArg Prod.snd hcontra)
          rw [alookup_ainsert_ne _ _ hkne, alookup_aerase_ne _ hkek]
          rw [he1]
          exact hold
      · have hold := hInv.pt_loc ek.1 owner page f he2 hp2'
        have hkne : (ek.1, page) ≠ key := by
          intro hcontra
          exact he1 (congrArg Prod.fst (hcontra.trans hkey))
        have hkek : (ek.1, page) ≠ ek := by
          intro hcontra
          exact hpagene (congrArg Prod.snd hcontra)
        rw [alookup_ainsert_ne _ _ hkne, alookup_aerase_ne _ hkek]
        exact hold
    · rw [hne2 pid2 hq2] at hp1
      by_cases hq3 : pid2 = proc.pid
      · subst hq3
        rw [hself1] at hp1
        cases hp1
        have hp2' : alookup page (ainsert norm frame proc.page_table) = some f := hp2
        by_cases hpn : page = norm
        · rw [hpn, alookup_ainsert_self] at hp2'
          cases hp2'
          have hpair : (proc.pid, page) = key := by rw [hkey, hpn]
          rw [hpair]
          exact alookup_ainsert_self _ _ _
        · rw [alookup_ainsert_ne _ _ hpn] at hp2'
          have hold := hInv.pt_loc proc.pid proc page f hget hp2'
          have hkne : (proc.pid, page) ≠ key := by
            intro hcontra
            exact hpn (congrArg Prod.snd (hcontra.trans hkey))
          have hkek : (proc.pid, page) ≠ ek := by
            intro hcontra
            exact hq2 (congrArg Prod.fst hcontra)
          rw [alookup_ainsert_ne _ _ hkne, alookup_aerase_ne _ hkek]
          exact hold
      · rw [hne1 pid2 hq3] at hp1
        have hold := hInv.pt_loc pid2 p page f hp1 hp2
        have hkne : (pid2, page) ≠ key := by
          intro hcontra
          exact hq3 (congrArg Prod.fst (hcontra.trans hkey))
        have hkek : (pid2, page) ≠ ek := by
          intro hcontra
          exact hq2 (congrArg Prod.fst hcontra)
        rw [alookup_ainsert_ne _ _ hkne, alookup_aerase_ne _ hkek]
        exact hold

/-- Rewriting a pool entry without changing its lifecycle state or page table
(cursor/quantum bookkeeping) preserves the invariant when the containers and
memory are untouched. -/
theorem simInv_update_proc {s s' : OSSimulator} {pid : Nat} {proc p' : Process}
    (hInv : SimInv s) (hget : alookup pid s.process_pool = some proc)
    (hpid : p'.pid = pid) (hpt : p'.page_table = proc.page_table)
    (hstate : p'.state = proc.state)
    (hpool : s'.process_pool = ainsert pid p' s.process_pool)
    (hready : s'.ready_queues = s.ready_queues) (hblk : s'.blocked = s.blocked)
    (hfin : s'.finished = s.finished) (hrun : s'.running = s.running)
    (hnp : s'.next_pid = s.next_pid) (hmem : s'.memory = s.memory) : SimInv s' := by
  obtain ⟨hnd', hkey', hlt', hsize', hptnd', hlocpt', hptloc', hstat', hstatne', hflag', hflagne'⟩ :=
    poolSide_update hInv hget hpid hpt hpool hnp hmem
  have hstat : ∀ q, stateOf s' q = stateOf s q := by
    intro q
    by_cases hq : q = pid
    · subst hq
      rw [hstat', hstate]
      unfold stateOf
      rw [hget]
      rfl
    · exact hstatne' q hq
  obtain ⟨hB1, hB2, hB3, hB4, hB5, hB6⟩ :=
    bucket_fields_transfer hready hblk hfin hrun hstat hInv
  refine ⟨hB1, hnd', hkey', hlt', hsize', hB2, hB3, hB4, hB5, hB6, ?_, ?_, ?_, hptnd', ?_, ?_,
    hlocpt', hptloc'⟩
  · rw [hmem]; exact hInv.ft_len
  · rw [hmem]; exact hInv.rq_perm
  · rw [hmem]; exact hInv.loc_keys_nodup
  · rw [hmem]; exact hInv.loc_frame
  · rw [hmem]; exact hInv.frame_loc

/-- `execute_memory` leaves every scheduler container, `next_pid` and the
frame count unchanged. -/
theorem execute_memory_frame (s : OSSimulator) (proc : Process) (action : ProcessAction) :
    (s.execute_memory proc action).ready_queues = s.ready_queues ∧
    (s.execute_memory proc action).blocked = s.blocked ∧
    (s.execute_memory proc action).finished = s.finished ∧
    (s.execute_memory proc action).running = s.running ∧
    (s.execute_memory proc action).next_pid = s.next_pid ∧
    (s.execute_memory proc action).buffer_count = s.buffer_count ∧
    (s.execute_memory proc action).buffer_capacity = s.buffer_capacity ∧
    (s.execute_memory proc action).buffer_slots = s.buffer_slots ∧
    (s.execute_memory proc action).buffer_in = s.buffer_in ∧
    (s.execute_memory proc action).buffer_out = s.buffer_out ∧
    (s.execute_memory proc action).mutex_owner = s.mutex_owner ∧
    (s.execute_memory proc action).shared_resources = s.shared_resources := by
  unfold OSSimulator.execute_memory
  rcases s.memory.access_page proc ((action.page).getD 0) with _ | ⟨m', proc', fault, frame, ev⟩
  · simp
  · rcases fault with _ | _
    · simp [OSSimulator.setProc, OSSimulator.log_event]
    · rcases ev with _ | ek
      · simp [OSSimulator.setProc, OSSimulator.log_event]
      · rcases hlook : alookup ek.1 (ainsert proc'.pid proc' s.process_pool) with _ | ow <;>
          simp [OSSimulator.getProc, OSSimulator.setProc, OSSimulator.log_event, hlook]

/-- Inversion of a successful `access_page` call: either a hit (reverse index
knows the normalized key) or a miss that pops the FIFO head and installs. -/
theorem access_page_inv {m : MemoryManager} {proc : Process} {page : Int}
    {out : MemoryManager × Process × Bool × Nat × Option (Nat × Int)}
    (h : m.access_page proc page = some out) :
    (∃ frame, alookup (proc.pid, page % max ((proc.memory_pages : Int)) 1) m.page_locations =
        some frame ∧
      out = ({ m with last_access := some frame }, proc, false, frame, none)) ∨
    (∃ frame rest evicted,
      alookup (proc.pid, page % max ((proc.memory_pages : Int)) 1) m.page_locations = none ∧
      m.replacement_queue = frame :: rest ∧
      m.frame_table.get? frame = some evicted ∧
      out = ({ m with
          frame_table :=
            m.frame_table.set frame (some (proc.pid, page % max ((proc.memory_pages : Int)) 1))
          page_locations :=
            ainsert (proc.pid, page % max ((proc.memory_pages : Int)) 1) frame
              (match evicted with
                | some ek => aerase ek m.page_locations
                | none => m.page_locations)
          replacement_queue := rest ++ [frame]
          last_access := some frame },
        { proc with
          page_table :=
            ainsert (page % max ((proc.memory_pages : Int)) 1) frame proc.page_table },
        true, frame, evicted)) := by
  unfold MemoryManager.access_page at h
  simp only [] at h
  rcases hl : alookup (proc.pid, page % max ((proc.memory_pages : Int)) 1) m.page_locations
    with _ | fr
  · rw [hl] at h
    simp only [] at h
    rcases hq : m.replacement_queue with _ | ⟨frame, rest⟩
    · rw [hq] at h
      simp only [] at h
      cases h
    · rw [hq] at h
      simp only [] at h
      rcases hf : m.frame_table.get? frame with _ | evicted
      · rw [hf] at h
        simp only [] at h
        cases h
      · rw [hf] at h
        simp only [] at h
        right
        refine ⟨frame, rest, evicted, rfl, rfl, hf, ?_⟩
        cases h
        rfl
  · rw [hl] at h
    simp only [] at h
    left
    refine ⟨fr, rfl, ?_⟩
    cases h
    rfl

/-- `execute_memory` preserves the invariant. -/
theorem simInv_execute_memory {s : OSSimulator} {proc : Process} {action : ProcessAction}
    (hInv : SimInv s) (hget : alookup proc.pid s.process_pool = some proc) :
    SimInv (s.execute_memory proc action) := by
  unfold OSSimulator.execute_memory
  cases hacc : s.memory.access_page proc ((action.page).getD 0) with
  | none => exact hInv
  | some out =>
    obtain ⟨m', proc', fault, frame, ev⟩ := out
    simp only []
    rcases access_page_inv hacc with ⟨fr2, hhit, hout⟩ | ⟨fr2, rest, evicted, hmiss, hq, hf, hout⟩
    · -- hit: only last_access changes and the pool write is the identity
      rw [Prod.mk.injEq] at hout
      obtain ⟨hm', hout⟩ := hout
      rw [Prod.mk.injEq] at hout
      obtain ⟨hproc', hout⟩ := hout
      rw [Prod.mk.injEq] at hout
      obtain ⟨hfault, hout⟩ := hout
      subst hm'
      subst hproc'
      subst hfault
      rw [if_neg (by decide : ¬(false = true))]
      refine @simInv_transport s _ ?_ rfl rfl rfl rfl rfl rfl rfl rfl rfl hInv
      show ainsert proc'.pid proc' s.process_pool = s.process_pool
      exact ainsert_self_eq hget
    · rw [Prod.mk.injEq] at hout
      obtain ⟨hm', hout⟩ := hout
      rw [Prod.mk.injEq] at hout
      obtain ⟨hproc', hout⟩ := hout
      rw [Prod.mk.injEq] at hout
      obtain ⟨hfault, hout⟩ := hout
      rw [Prod.mk.injEq] at hout
      obtain ⟨hframe, hev⟩ := hout
      subst hm'
      subst hproc'
      subst hfault
      subst hframe
      subst hev
      rw [if_pos (rfl : true = true)]
      cases ev with
      | none =>
        exact simInv_mem_miss_free hInv hget hmiss hq hf rfl rfl rfl rfl rfl rfl rfl rfl rfl rfl
      | some ek =>
        simp only []
        split
        · rename_i owner heq
          have howpid : owner.pid = ek.1 := by
            rcases mem_ainsert (mem_of_alookup heq) with h1 | h1
            · have h2 := congrArg Prod.fst h1
              have h3 := congrArg Prod.snd h1
              simp only at h2 h3
              rw [h3]
              exact h2.symm
            · exact (hInv.key_pid _ h1).symm
          refine simInv_mem_miss_evict hInv hget hmiss hq hf heq ?_ rfl rfl rfl rfl rfl rfl rfl
            rfl rfl
          show ainsert owner.pid ({ owner with page_table := aerase ek.2 owner.page_table }) (ainsert proc.pid ({ proc with page_table := ainsert (((action.page).getD 0) % max ((proc.memory_pages : Int)) 1) frame proc.page_table }) s.process_pool) = ainsert ek.1 ({ owner with page_table := aerase ek.2 owner.page_table }) (ainsert proc.pid ({ proc with page_table := ainsert (((action.page).getD 0) % max ((proc.memory_pages : Int)) 1) frame proc.page_table }) s.process_pool)
          rw [howpid]
        · rename_i heq
          exfalso
          have hek_loc : alookup ek s.memory.page_locations = some frame :=
            hInv.frame_loc frame ek hf
          obtain ⟨pown, hpown, _⟩ := hInv.loc_pt ek.1 ek.2 frame hek_loc
          by_cases he1 : ek.1 = proc.pid
          · have h2 : alookup ek.1 (ainsert proc.pid ({ proc with page_table := ainsert (((action.page).getD 0) % max ((proc.memory_pages : Int)) 1) frame proc.page_table }) s.process_pool) = none := heq
            rw [he1, alookup_ainsert_self] at h2
            cases h2
          · have h2 : alookup ek.1 (ainsert proc.pid ({ proc with page_table := ainsert (((action.page).getD 0) % max ((proc.memory_pages : Int)) 1) frame proc.page_table }) s.process_pool) = none := heq
            rw [alookup_ainsert_ne _ _ he1, hpown] at h2
            cases h2

theorem simInv_log_event {s : OSSimulator} (m : String) (hInv : SimInv s) :
    SimInv (s.log_event m) :=
  @simInv_transport s _ rfl rfl rfl rfl rfl rfl rfl rfl rfl rfl hInv

theorem simInv_block_reason {s : OSSimulator} {proc : Process} (reason : String)
    (hInv : SimInv s) (hrun : s.running = some proc.pid)
    (hget : alookup proc.pid s.process_pool = some proc) :
    SimInv (s.block_reason proc reason) := by
  refine simInv_move_to_blocked hInv hrun hget ?_ ?_ ?_ rfl rfl rfl rfl rfl rfl rfl <;> rfl

theorem simInv_block {s : OSSimulator} {proc : Process} (duration : Int)
    (hInv : SimInv s) (hrun : s.running = some proc.pid)
    (hget : alookup proc.pid s.process_pool = some proc) :
    SimInv (s.block proc duration) := by
  refine simInv_move_to_blocked hInv hrun hget ?_ ?_ ?_ rfl rfl rfl rfl rfl rfl rfl <;> rfl

theorem simInv_complete_process {s : OSSimulator} {proc : Process}
    (hInv : SimInv s) (hrun : s.running = some proc.pid)
    (hget : alookup proc.pid s.process_pool = some proc) :
    SimInv (s.complete_process proc) := by
  refine simInv_move_to_finished hInv hrun hget ?_ ?_ ?_ rfl rfl rfl rfl rfl rfl rfl <;> rfl

theorem simInv_preempt {s : OSSimulator} {proc : Process}
    (hInv : SimInv s) (hrun : s.running = some proc.pid)
    (hget : alookup proc.pid s.process_pool = some proc) :
    SimInv (s.preempt proc) := by
  have hlen := hInv.rq_len
  have hle : min (proc.queue_level + 1) (s.ready_queues.length - 1) ≤
      s.ready_queues.length - 1 := min_le_right _ _
  have hlt : min (proc.queue_level + 1) (s.ready_queues.length - 1) <
      s.ready_queues.length := by omega
  rcases hq : s.ready_queues.get? (min (proc.queue_level + 1) (s.ready_queues.length - 1))
    with _ | q0
  · exfalso
    rw [List.get?_eq_none] at hq
    omega
  · refine simInv_move_run_to_ready hInv hrun hget ?_ ?_ ?_ hq rfl ?_ rfl rfl rfl rfl rfl
    case _ => rfl
    case _ => rfl
    case _ => rfl
    show s.ready_queues.set (min (proc.queue_level + 1) (s.ready_queues.length - 1))
        ((s.ready_queues.getD (min (proc.queue_level + 1) (s.ready_queues.length - 1)) []) ++
          [proc.pid]) =
      s.ready_queues.set (min (proc.queue_level + 1) (s.ready_queues.length - 1)) (q0 ++ [proc.pid])
    rw [getD_of_get [] hq]

theorem simInv_dispatch {s : OSSimulator} (hInv : SimInv s) :
    SimInv (s.dispatch_if_needed) := by
  unfold OSSimulator.dispatch_if_needed
  cases hrun : s.running with
  | some pid => exact hInv
  | none =>
    cases hfind : findFirstReady s.ready_queues with
    | none => exact hInv
    | some tri =>
      obtain ⟨lvl, pid, rest⟩ := tri
      simp only []
      have hq := findFirstReady_spec hfind
      obtain ⟨pre, post, hdecomp, hlen⟩ := exists_decomp_of_get hq
      have hqmem : (pid :: rest) ∈ s.ready_queues := by
        rw [hdecomp]
        exact List.mem_append.mpr (Or.inr (List.mem_cons_self _ _))
      have hstate := hInv.ready_state _ hqmem pid (List.mem_cons_self _ _)
      split
      · rename_i proc2 heq2
        have heq2' : alookup pid s.process_pool = some proc2 := heq2
        have hpid2 : proc2.pid = pid := (hInv.key_pid _ (mem_of_alookup heq2')).symm
        subst hpid2
        apply simInv_move_to_running hInv hrun hq heq2'
        rotate_left 3
        · rfl
        all_goals rfl
      · rename_i heq2
        exfalso
        have h2 : alookup pid s.process_pool = none := heq2
        unfold stateOf at hstate
        rw [h2] at hstate
        cases hstate
theorem release_mutex_running (s : OSSimulator) (proc : Process) :
    (s.release_mutex proc).running = s.running := by
  unfold OSSimulator.release_mutex
  split <;> rfl

theorem release_mutex_pool (s : OSSimulator) (proc : Process) :
    (s.release_mutex proc).process_pool = s.process_pool := by
  unfold OSSimulator.release_mutex
  split <;> rfl

theorem simInv_release_mutex {s : OSSimulator} (proc : Process) (hInv : SimInv s) :
    SimInv (s.release_mutex proc) := by
  unfold OSSimulator.release_mutex
  split
  · exact @simInv_transport s _ rfl rfl rfl rfl rfl rfl rfl rfl rfl rfl hInv
  · exact hInv

theorem block_reason_getProc (s : OSSimulator) (proc : Process) (reason : String) :
    (s.block_reason proc reason).getProc proc.pid = some (proc.mark_wait reason) := by
  show alookup proc.pid (ainsert proc.pid (proc.mark_wait reason) s.process_pool) =
    some (proc.mark_wait reason)
  exact alookup_ainsert_self _ _ _

theorem simInv_execute_file {s : OSSimulator} {proc : Process} {action : ProcessAction}
    (hInv : SimInv s) : SimInv (s.execute_file_action proc action) :=
  @simInv_transport s _ rfl rfl rfl rfl rfl rfl rfl rfl rfl rfl hInv

/-- `_execute_resource_action` preserves the invariant and either leaves the
running slot alone or has parked the acting process as `Blocked`. -/
theorem execute_resource_spec {s : OSSimulator} {proc : Process} {action : ProcessAction}
    (hInv : SimInv s) (hrun : s.running = some proc.pid)
    (hget : alookup proc.pid s.process_pool = some proc) :
    SimInv (s.execute_resource_action proc action) ∧
    ((s.execute_resource_action proc action).running = s.running ∨
      ∃ p2, (s.execute_resource_action proc action).getProc proc.pid = some p2 ∧
        p2.state = "Blocked") := by
  unfold OSSimulator.execute_resource_action
  simp only []
  split
  · split
    · exact ⟨simInv_block_reason _ hInv hrun hget,
        Or.inr ⟨proc.mark_wait ("等待资源" ++ resourceName action), block_reason_getProc _ _ _, rfl⟩⟩
    · exact ⟨@simInv_transport s _ rfl rfl rfl rfl rfl rfl rfl rfl rfl rfl hInv, Or.inl rfl⟩
  · exact ⟨@simInv_transport s _ rfl rfl rfl rfl rfl rfl rfl rfl rfl rfl hInv, Or.inl rfl⟩

/-- The post-mutex produce/consume body preserves the invariant and either
leaves the running slot alone or has parked the acting process as `Blocked`. -/
theorem pc_go_spec {s : OSSimulator} {proc : Process} {action : ProcessAction}
    (hInv : SimInv s) (hrun : s.running = some proc.pid)
    (hget : alookup proc.pid s.process_pool = some proc) :
    SimInv (s.pc_go proc action) ∧
    ((s.pc_go proc action).running = s.running ∨
      ∃ p2, (s.pc_go proc action).getProc proc.pid = some p2 ∧ p2.state = "Blocked") := by
  unfold OSSimulator.pc_go
  split
  · split
    · refine ⟨simInv_block_reason _ (simInv_release_mutex proc hInv) ?_ ?_,
        Or.inr ⟨proc.mark_wait "等待空槽", block_reason_getProc _ _ _, rfl⟩⟩
      · rw [release_mutex_running]; exact hrun
      · rw [release_mutex_pool]; exact hget
    · constructor
      · apply simInv_release_mutex
        exact @simInv_transport s _ rfl rfl rfl rfl rfl rfl rfl rfl rfl rfl hInv
      · exact Or.inl (release_mutex_running _ _)
  · split
    · split
      · refine ⟨simInv_block_reason _ (simInv_release_mutex proc hInv) ?_ ?_,
          Or.inr ⟨proc.mark_wait "等待产品", block_reason_getProc _ _ _, rfl⟩⟩
        · rw [release_mutex_running]; exact hrun
        · rw [release_mutex_pool]; exact hget
      · constructor
        · apply simInv_release_mutex
          exact @simInv_transport s _ rfl rfl rfl rfl rfl rfl rfl rfl rfl rfl hInv
        · exact Or.inl (release_mutex_running _ _)
    · exact ⟨simInv_release_mutex proc hInv, Or.inl (release_mutex_running _ _)⟩

/-- `_execute_pc_action` preserves the invariant and either leaves the running
slot alone or has parked the acting process as `Blocked`. -/
theorem execute_pc_spec {s : OSSimulator} {proc : Process} {action : ProcessAction}
    (hInv : SimInv s) (hrun : s.running = some proc.pid)
    (hget : alookup proc.pid s.process_pool = some proc) :
    SimInv (s.execute_pc_action proc action) ∧
    ((s.execute_pc_action proc action).running = s.running ∨
      ∃ p2, (s.execute_pc_action proc action).getProc proc.pid = some p2 ∧
        p2.state = "Blocked") := by
  unfold OSSimulator.execute_pc_action OSSimulator.with_mutex
  cases hmo : s.mutex_owner with
  | none =>
    simp only []
    split
    · rename_i h
      exact Bool.noConfusion h
    · have hs := @pc_go_spec { s with mutex_owner := some proc.pid } proc action
        (@simInv_transport s { s with mutex_owner := some proc.pid } rfl rfl rfl rfl rfl rfl rfl
          rfl rfl rfl hInv) hrun hget
      exact hs
  | some owner =>
    simp only []
    split
    · split
      · rename_i h
        exact Bool.noConfusion h
      · exact pc_go_spec hInv hrun hget
    · split
      · exact ⟨simInv_block_reason _ hInv hrun hget,
          Or.inr ⟨proc.mark_wait "等待互斥锁", block_reason_getProc _ _ _, rfl⟩⟩
      · rename_i h
        exact absurd rfl h
/-- The cursor/quantum tail of `_run_action` preserves the invariant. -/
theorem simInv_run_tail {s : OSSimulator} {proc : Process}
    (hInv : SimInv s) (hrun : s.running = some proc.pid)
    (hget : alookup proc.pid s.process_pool = some proc) :
    SimInv (s.run_action_tail proc) := by
  unfold OSSimulator.run_action_tail
  simp only []
  have hInv1 : SimInv (s.setProc proc.advance) := by
    apply simInv_update_proc hInv hget
    rotate_left 3
    · rfl
    all_goals rfl
  have hget1 : alookup proc.pid (s.setProc proc.advance).process_pool = some proc.advance :=
    alookup_ainsert_self _ _ _
  split
  · exact simInv_complete_process hInv1 hrun hget1
  · have hInv2 : SimInv ((s.setProc proc.advance).setProc
        { proc.advance with current_quantum := proc.advance.current_quantum + 1 }) := by
      apply simInv_update_proc hInv1 hget1
      rotate_left 3
      · rfl
      all_goals rfl
    have hget2 : alookup proc.pid ((s.setProc proc.advance).setProc
        { proc.advance with current_quantum := proc.advance.current_quantum + 1 }).process_pool =
        some { proc.advance with current_quantum := proc.advance.current_quantum + 1 } :=
      alookup_ainsert_self _ _ _
    split
    · exact simInv_preempt hInv2 hrun hget2
    · exact hInv2

/-- The common ending of `_run_action`: re-read the acting process, return as
is when a synchronization action has just blocked it, otherwise run the
cursor/quantum tail. -/
theorem simInv_run_finish {c : Prop} [Decidable c] {s s2 : OSSimulator} {proc : Process}
    (hrun : s.running = some proc.pid) (hInv2 : SimInv s2)
    (hdich : s2.running = s.running ∨
      (c ∧ ∃ p2, s2.getProc proc.pid = some p2 ∧ p2.state = "Blocked")) :
    SimInv (if c ∧ ((s2.getProc proc.pid).getD proc).state = "Blocked" then s2
      else s2.run_action_tail ((s2.getProc proc.pid).getD proc)) := by
  rcases hdich with hleft | ⟨hc, p2, hp2, hblk⟩
  · have hrun2 : s2.running = some proc.pid := hleft.trans hrun
    have hst := hInv2.run_state _ hrun2
    unfold stateOf at hst
    cases hq : alookup proc.pid s2.process_pool with
    | none => rw [hq] at hst; cases hst
    | some q2 =>
      rw [hq] at hst
      have hq2state : q2.state = "Running" := by
        rw [Option.map_some'] at hst
        exact Option.some.inj hst
      have hq2pid : q2.pid = proc.pid := (hInv2.key_pid _ (mem_of_alookup hq)).symm
      have hgetD : (s2.getProc proc.pid).getD proc = q2 := by
        unfold OSSimulator.getProc
        rw [hq]
        rfl
      rw [hgetD]
      rw [if_neg]
      · refine simInv_run_tail hInv2 ?_ ?_
        · rw [hq2pid]; exact hrun2
        · rw [hq2pid]; exact hq
      · intro hcontra
        exact absurd (hq2state.symm.trans hcontra.2) (by decide)
  · have hgetD : (s2.getProc proc.pid).getD proc = p2 := by
      rw [hp2]
      rfl
    rw [hgetD, if_pos ⟨hc, hblk⟩]
    exact hInv2

/-- `_run_action` preserves the invariant when called on the pooled running
process. -/
theorem simInv_run_action {s : OSSimulator} {proc : Process}
    (hInv : SimInv s) (hrun : s.running = some proc.pid)
    (hget : alookup proc.pid s.process_pool = some proc) :
    SimInv (s.run_action proc) := by
  unfold OSSimulator.run_action
  cases hna : proc.next_action with
  | none => exact simInv_complete_process hInv hrun hget
  | some action =>
    simp only []
    split
    · -- io action
      apply simInv_block
      · apply simInv_update_proc hInv hget
        rotate_left 3
        · rfl
        all_goals rfl
      · exact hrun
      · exact alookup_ainsert_self _ _ _
    · -- non-io: effect, then the common finish
      rename_i hio
      split
      · -- cpu
        exact simInv_run_finish hrun (simInv_log_event _ hInv) (Or.inl rfl)
      · split
        · -- mem
          refine simInv_run_finish hrun
            (simInv_execute_memory (simInv_log_event _ hInv) hget) (Or.inl ?_)
          exact (execute_memory_frame _ _ _).2.2.2.1
        · split
          · -- produce/consume
            rename_i hpc
            have hs := @execute_pc_spec
              (s.log_event ("进程 " ++ toString proc.pid ++ "：" ++ action.description)) proc action
              (simInv_log_event _ hInv) hrun hget
            refine simInv_run_finish hrun hs.1 ?_
            rcases hs.2 with h | h
            · exact Or.inl h
            · exact Or.inr ⟨hpc.elim Or.inl (fun hh => Or.inr (Or.inl hh)), h⟩
          · split
            · -- file
              exact simInv_run_finish hrun (simInv_execute_file (simInv_log_event _ hInv))
                (Or.inl rfl)
            · split
              · -- resource
                rename_i hres
                have hs := @execute_resource_spec
                  (s.log_event ("进程 " ++ toString proc.pid ++ "：" ++ action.description)) proc
                  action (simInv_log_event _ hInv) hrun hget
                refine simInv_run_finish hrun hs.1 ?_
                rcases hs.2 with h | h
                · exact Or.inl h
                · exact Or.inr ⟨Or.inr (Or.inr hres), h⟩
              · -- unknown kind
                exact simInv_run_finish hrun (simInv_log_event _ (simInv_log_event _ hInv))
                  (Or.inl rfl)
theorem tick_block_pid (p : Process) : (p.tick_block).1.pid = p.pid := by
  unfold Process.tick_block
  simp only []
  split <;> (split <;> rfl)

theorem tick_block_pt (p : Process) : (p.tick_block).1.page_table = p.page_table := by
  unfold Process.tick_block
  simp only []
  split <;> (split <;> rfl)

theorem tick_block_state (p : Process) :
    ((p.tick_block).2 = true ∧ (p.tick_block).1.state = "Ready") ∨
    ((p.tick_block).2 = false ∧ (p.tick_block).1.state = p.state) := by
  unfold Process.tick_block
  simp only []
  split <;>
  · split
    · exact Or.inl ⟨rfl, rfl⟩
    · exact Or.inr ⟨rfl, rfl⟩

theorem stateOf_some {s : OSSimulator} {pid : Nat} {proc : Process} {st : String}
    (hget : alookup pid s.process_pool = some proc) (h : stateOf s pid = some st) :
    proc.state = st := by
  unfold stateOf at h
  rw [hget, Option.map_some'] at h
  exact Option.some.inj h

theorem stateOf_of_lookup {s : OSSimulator} {pid : Nat} {proc : Process}
    (hget : alookup pid s.process_pool = some proc) : stateOf s pid = some proc.state := by
  unfold stateOf
  rw [hget, Option.map_some']

/-- One wake-pass update that records a newly woken process. -/
theorem wakeMid_step_new {s t : OSSimulator} {a : List (Nat × String)} {pid : Nat}
    {proc p' : Process} {reason : String}
    (hInv : SimInv s) (hW : WakeMid s t a)
    (hgs : alookup pid s.process_pool = some proc)
    (hgt : alookup pid t.process_pool = some proc)
    (hblk : proc.state = "Blocked")
    (hpid : p'.pid = proc.pid) (hpt : p'.page_table = proc.page_table)
    (hready : p'.state = "Ready") :
    WakeMid s (t.setProc p') (a ++ [(pid, reason)]) := by
  have hpidp : proc.pid = pid := (hInv.key_pid _ (mem_of_alookup hgs)).symm
  have hpid' : p'.pid = pid := hpid.trans hpidp
  have hmm : pid ∈ t.process_pool.map Prod.fst := alookup_isSome_mem hgt
  have hpools : (t.setProc p').process_pool = ainsert pid p' t.process_pool := by
    show ainsert p'.pid p' t.process_pool = ainsert pid p' t.process_pool
    rw [hpid']
  have hnotin : pid ∉ a.map Prod.fst := by
    intro hmem
    obtain ⟨pr, hpr, hfst⟩ := List.mem_map.mp hmem
    have h1 := hW.newly_ready pr hpr
    have h2 := hW.newly_blocked pr hpr
    rw [hfst] at h1 h2
    have e1 := stateOf_some hgt h1
    have e2 := stateOf_some hgs h2
    exact absurd (e1.symm.trans e2) (by decide)
  refine ⟨hW.ready, hW.blk, hW.fin, hW.run, hW.np, hW.mem, ?_, ?_, ?_, ?_, ?_⟩
  · rw [hpools, map_fst_ainsert_mem p' hmm]
    exact hW.keys
  · intro q p'' hq
    rw [hpools] at hq
    by_cases hqp : q = pid
    · subst hqp
      rw [alookup_ainsert_self] at hq
      cases hq
      exact ⟨proc, hgs, hpid, hpt,
        Or.inr ⟨hblk, hready, by rw [List.map_append]; exact List.mem_append_right _ (by simp)⟩⟩
    · rw [alookup_ainsert_ne _ _ hqp] at hq
      rcases hW.entry q p'' hq with ⟨p0, h1, h2, h3, h4⟩
      refine ⟨p0, h1, h2, h3, ?_⟩
      rcases h4 with h | ⟨x, y, z⟩
      · exact Or.inl h
      · exact Or.inr ⟨x, y, by rw [List.map_append]; exact List.mem_append_left _ z⟩
  · intro pr hpr
    rcases List.mem_append.mp hpr with hpr | hpr
    · by_cases hq : pr.1 = pid
      · exfalso
        have h1 := hW.newly_ready pr hpr
        have h2 := hW.newly_blocked pr hpr
        rw [hq] at h1 h2
        have e1 := stateOf_some hgt h1
        have e2 := stateOf_some hgs h2
        exact absurd (e1.symm.trans e2) (by decide)
      · unfold stateOf
        rw [hpools, alookup_ainsert_ne _ _ hq]
        exact hW.newly_ready pr hpr
    · have hpr' : pr = (pid, reason) := by simpa using hpr
      subst hpr'
      unfold stateOf
      rw [hpools, alookup_ainsert_self, Option.map_some', hready]
  · intro pr hpr
    rcases List.mem_append.mp hpr with hpr | hpr
    · exact hW.newly_blocked pr hpr
    · have hpr' : pr = (pid, reason) := by simpa using hpr
      subst hpr'
      exact (stateOf_of_lookup hgs).trans (by rw [hblk])
  · rw [List.map_append]
    simp only [List.map_cons, List.map_nil]
    rw [List.nodup_append]
    exact ⟨hW.newly_nodup, List.nodup_singleton _, by
      intro x hx hx2
      simp at hx2
      subst hx2
      exact hnotin hx⟩

/-- One wake-pass update that leaves the lifecycle state unchanged. -/
theorem wakeMid_step_keep {s t : OSSimulator} {a : List (Nat × String)} {pid : Nat}
    {proc p' : Process}
    (hInv : SimInv s) (hW : WakeMid s t a)
    (hgs : alookup pid s.process_pool = some proc)
    (hgt : alookup pid t.process_pool = some proc)
    (hpid : p'.pid = proc.pid) (hpt : p'.page_table = proc.page_table)
    (hstate : p'.state = proc.state) :
    WakeMid s (t.setProc p') a := by
  have hpidp : proc.pid = pid := (hInv.key_pid _ (mem_of_alookup hgs)).symm
  have hpid' : p'.pid = pid := hpid.trans hpidp
  have hmm : pid ∈ t.process_pool.map Prod.fst := alookup_isSome_mem hgt
  have hpools : (t.setProc p').process_pool = ainsert pid p' t.process_pool := by
    show ainsert p'.pid p' t.process_pool = ainsert pid p' t.process_pool
    rw [hpid']
  refine ⟨hW.ready, hW.blk, hW.fin, hW.run, hW.np, hW.mem, ?_, ?_, ?_, hW.newly_blocked,
    hW.newly_nodup⟩
  · rw [hpools, map_fst_ainsert_mem p' hmm]
    exact hW.keys
  · intro q p'' hq
    rw [hpools] at hq
    by_cases hqp : q = pid
    · subst hqp
      rw [alookup_ainsert_self] at hq
      cases hq
      exact ⟨proc, hgs, hpid, hpt, Or.inl hstate⟩
    · rw [alookup_ainsert_ne _ _ hqp] at hq
      exact hW.entry q p'' hq
  · intro pr hpr
    by_cases hq : pr.1 = pid
    · exfalso
      have h1 := hW.newly_ready pr hpr
      have h2 := hW.newly_blocked pr hpr
      rw [hq] at h1 h2
      have e1 := stateOf_some hgt h1
      have e2 := stateOf_some hgs h2
      exact absurd (e1.symm.trans e2) (by decide)
    · unfold stateOf
      rw [hpools, alookup_ainsert_ne _ _ hq]
      exact hW.newly_ready pr hpr
/-- One step of the wake pass preserves `WakeMid` and only touches the pool
entry of the processed pid. -/
theorem wakeStep_mid {s : OSSimulator} (hInv : SimInv s) {t : OSSimulator}
    {a : List (Nat × String)} {pid : Nat}
    (hW : WakeMid s t a)
    (hun : alookup pid t.process_pool = alookup pid s.process_pool)
    (hbl : stateOf s pid = some "Blocked") :
    WakeMid s (wakeStep (t, a) pid).1 (wakeStep (t, a) pid).2 ∧
    (∀ q, q ≠ pid →
      alookup q (wakeStep (t, a) pid).1.process_pool = alookup q t.process_pool) := by
  unfold wakeStep
  simp only []
  cases hg : OSSimulator.getProc t pid with
  | none => exact ⟨hW, fun _ _ => rfl⟩
  | some proc =>
    have hg' : alookup pid t.process_pool = some proc := hg
    have hgs : alookup pid s.process_pool = some proc := hun.symm.trans hg'
    have hpidp : proc.pid = pid := (hInv.key_pid _ (mem_of_alookup hgs)).symm
    have hsblk : proc.state = "Blocked" := stateOf_some hgs hbl
    simp only []
    split
    · split
      · refine ⟨wakeMid_step_new hInv hW hgs hg' hsblk rfl rfl rfl, ?_⟩
        intro q hq
        exact alookup_ainsert_ne _ _ (fun e => hq (e.trans hpidp))
      · exact ⟨hW, fun _ _ => rfl⟩
    · split
      · rename_i htrue
        rcases tick_block_state proc with ⟨_, hstate⟩ | ⟨hfalse, _⟩
        · refine ⟨wakeMid_step_new hInv hW hgs hg' hsblk (tick_block_pid proc)
            (tick_block_pt proc) hstate, ?_⟩
          intro q hq
          exact alookup_ainsert_ne _ _
            (fun e => hq ((e.trans (tick_block_pid proc)).trans hpidp))
        · rw [htrue] at hfalse
          cases hfalse
      · rename_i hfalse2
        rcases tick_block_state proc with ⟨htrue, _⟩ | ⟨_, hstate⟩
        · exact absurd htrue hfalse2
        · refine ⟨wakeMid_step_keep hInv hW hgs hg' (tick_block_pid proc)
            (tick_block_pt proc) hstate, ?_⟩
          intro q hq
          exact alookup_ainsert_ne _ _
            (fun e => hq ((e.trans (tick_block_pid proc)).trans hpidp))

/-- The wake pass as a whole preserves `WakeMid` when walking distinct pids
whose recorded state is `Blocked`. -/
theorem wakePass_mid {s : OSSimulator} (hInv : SimInv s) :
    ∀ (pids : List Nat) (t : OSSimulator) (a : List (Nat × String)),
      WakeMid s t a → pids.Nodup →
      (∀ q ∈ pids, alookup q t.process_pool = alookup q s.process_pool) →
      (∀ q ∈ pids, stateOf s q = some "Blocked") →
      WakeMid s (pids.foldl wakeStep (t, a)).1 (pids.foldl wakeStep (t, a)).2 := by
  intro pids
  induction pids with
  | nil => intro t a hW _ _ _; exact hW
  | cons hd tl ih =>
    intro t a hW hnd hun hst
    rw [List.foldl_cons]
    have hstep := wakeStep_mid hInv hW (hun hd (List.mem_cons_self _ _))
      (hst hd (List.mem_cons_self _ _))
    have hnd' := List.nodup_cons.mp hnd
    apply ih _ _ hstep.1 hnd'.2
    · intro q hq
      have hqne : q ≠ hd := fun e => hnd'.1 (e ▸ hq)
      rw [hstep.2 q hqne]
      exact hun q (List.mem_cons_of_mem _ hq)
    · intro q hq
      exact hst q (List.mem_cons_of_mem _ hq)
/-- A pid whose recorded state is `Blocked` sits exactly once in the blocked
list and nowhere else. -/
theorem blocked_site {s : OSSimulator} (hInv : SimInv s) {pid : Nat}
    (hst : stateOf s pid = some "Blocked") :
    (runningList s).count pid = 0 ∧ s.ready_queues.flatten.count pid = 0 ∧
    s.blocked.count pid = 1 ∧ s.finished.count pid = 0 := by
  have hflag : poolFlag s pid = 1 := poolFlag_of_state hst (by decide)
  have hcount := hInv.count_eq pid
  rw [count_bucket, hflag] at hcount
  have hr : (runningList s).count pid = 0 := by
    rcases hrun : s.running with _ | q
    · rw [runningList_none hrun]
      rfl
    · rw [runningList_some hrun]
      by_cases hq : q = pid
      · subst hq
        exact absurd ((hInv.run_state _ hrun).symm.trans hst) (by decide)
      · refine List.count_eq_zero.mpr ?_
        intro hmem
        exact hq (List.mem_singleton.mp hmem).symm
  have hq0 : s.ready_queues.flatten.count pid = 0 := by
    refine List.count_eq_zero.mpr ?_
    intro hmem
    obtain ⟨ql, hql, hmemq⟩ := List.mem_flatten.mp hmem
    exact absurd ((hInv.ready_state ql hql pid hmemq).symm.trans hst) (by decide)
  have hf : s.finished.count pid = 0 := by
    refine List.count_eq_zero.mpr ?_
    intro hmem
    exact absurd ((hInv.fin_state pid hmem).symm.trans hst) (by decide)
  refine ⟨hr, hq0, by omega, hf⟩

/-- Off the collected list, the wake pass does not change recorded states. -/
theorem wakeMid_state_eq {s t : OSSimulator} {a : List (Nat × String)}
    (hW : WakeMid s t a) {pid : Nat} (hnot : pid ∉ a.map Prod.fst) :
    stateOf t pid = stateOf s pid := by
  cases h1 : alookup pid t.process_pool with
  | none =>
    cases h0 : alookup pid s.process_pool with
    | none =>
      unfold stateOf
      rw [h1, h0]
    | some p0 =>
      exfalso
      have hk : pid ∈ s.process_pool.map Prod.fst := alookup_isSome_mem h0
      rw [← hW.keys] at hk
      have hs := mem_alookup_isSome hk
      rw [h1] at hs
      cases hs
  | some p' =>
    rcases hW.entry pid p' h1 with ⟨p0, h0, _, _, hstate⟩
    rcases hstate with he | ⟨_, _, hmem⟩
    · unfold stateOf
      rw [h1, h0, Option.map_some', Option.map_some', he]
    · exact absurd hmem hnot

theorem count_filter_fn {α : Type} [DecidableEq α] (f : α → Bool) (l : List α) (a : α) :
    (l.filter f).count a = if f a = true then l.count a else 0 := by
  induction l with
  | nil => simp
  | cons hd tl ih =>
    rw [List.filter_cons]
    by_cases hhd : hd = a
    · subst hhd
      by_cases hf : f hd = true
      · rw [if_pos hf, if_pos hf, List.count_cons_self, ih, if_pos hf, List.count_cons_self]
      · rw [if_neg hf, if_neg hf, ih, if_neg hf]
    · have hne : a ≠ hd := fun e => hhd e.symm
      by_cases hf : f hd = true
      · rw [if_pos hf, List.count_cons_of_ne hne, ih]
        by_cases hfa : f a = true
        · rw [if_pos hfa, if_pos hfa, List.count_cons_of_ne hne]
        · rw [if_neg hfa, if_neg hfa]
      · rw [if_neg hf, ih]
        by_cases hfa : f a = true
        · rw [if_pos hfa, if_pos hfa, List.count_cons_of_ne hne]
        · rw [if_neg hfa, if_neg hfa]
/-- After the wake pass and the blocked-list filter, the requeue mid-invariant
holds with the woken pids pending. -/
theorem reqMid_after_filter {s s₁ t : OSSimulator} {newly : List (Nat × String)}
    (hInv : SimInv s) (hW : WakeMid s s₁ newly)
    (hpool : t.process_pool = s₁.process_pool)
    (hready : t.ready_queues = s₁.ready_queues)
    (hblkf : t.blocked = s₁.blocked.filter (fun pid =>
      match OSSimulator.getProc s₁ pid with
      | some p => p.state == "Blocked"
      | none => false))
    (hfin : t.finished = s₁.finished)
    (hrun : t.running = s₁.running)
    (hnp : t.next_pid = s₁.next_pid)
    (hmem : t.memory = s₁.memory) :
    ReqMid t (newly.map Prod.fst) := by
  have hst1 : ∀ q, stateOf t q = stateOf s₁ q := by
    intro q
    unfold stateOf
    rw [hpool]
  have hnd₁ : (s₁.process_pool.map Prod.fst).Nodup := by
    rw [hW.keys]
    exact hInv.keys_nodup
  have hs1lookup : ∀ {q : Nat} {p0 : Process}, alookup q s.process_pool = some p0 →
      ∃ p', alookup q s₁.process_pool = some p' ∧ p'.pid = p0.pid ∧
        p'.page_table = p0.page_table := by
    intro q p0 h0
    have hk : q ∈ s₁.process_pool.map Prod.fst := by
      rw [hW.keys]
      exact alookup_isSome_mem h0
    have hs := mem_alookup_isSome hk
    rcases h1 : alookup q s₁.process_pool with _ | p'
    · rw [h1] at hs
      cases hs
    · rcases hW.entry q p' h1 with ⟨p0', h0', hpid', hpt', _⟩
      have he : p0' = p0 := Option.some.inj (h0'.symm.trans h0)
      subst he
      exact ⟨p', rfl, hpid', hpt'⟩
  have hoff : ∀ q, q ∉ newly.map Prod.fst → stateOf s₁ q = stateOf s q :=
    fun q hq => wakeMid_state_eq hW hq
  have hwoke₁ : ∀ q ∈ newly.map Prod.fst, stateOf s₁ q = some "Ready" := by
    intro q hq
    obtain ⟨pr, hpr, hfst⟩ := List.mem_map.mp hq
    exact hfst ▸ hW.newly_ready pr hpr
  have hwokes : ∀ q ∈ newly.map Prod.fst, stateOf s q = some "Blocked" := by
    intro q hq
    obtain ⟨pr, hpr, hfst⟩ := List.mem_map.mp hq
    exact hfst ▸ hW.newly_blocked pr hpr
  refine ⟨?_, ?_, ?_, ?_, ?_, ?_, ?_, ?_, ?_, ?_, ?_, ?_, ?_, ?_, ?_, ?_, ?_, ?_, ?_⟩
  · rw [hready, hW.ready]
    exact hInv.rq_len
  · rw [hpool]
    exact hnd₁
  · intro e he
    rw [hpool] at he
    have hl := alookup_of_mem_nodup hnd₁ he
    rcases hW.entry e.1 e.2 hl with ⟨p0, h0, hpid', _, _⟩
    rw [hpid']
    exact hInv.key_pid _ (mem_of_alookup h0)
  · intro e he
    rw [hpool] at he
    rw [hnp, hW.np]
    have hk : e.1 ∈ s.process_pool.map Prod.fst := by
      rw [← hW.keys]
      exact List.mem_map_of_mem _ he
    obtain ⟨e0, he0, hfst⟩ := List.mem_map.mp hk
    rw [← hfst]
    exact hInv.pid_lt e0 he0
  · rw [hnp, hW.np, hpool]
    have hlen : s₁.process_pool.length = s.process_pool.length := by
      have h2 := congrArg List.length hW.keys
      simpa using h2
    rw [hlen]
    exact hInv.pool_size
  · intro pid
    have hrl : runningList t = runningList s := by
      unfold runningList
      rw [hrun, hW.run]
    have hflag : poolFlag t pid = poolFlag s₁ pid := poolFlag_eq_of_stateOf (hst1 pid)
    rw [count_bucket, hrl, hready, hW.ready, hfin, hW.fin, hblkf, hflag]
    by_cases hmemq : pid ∈ newly.map Prod.fst
    · have hbl_s := hwokes pid hmemq
      have hrd₁ := hwoke₁ pid hmemq
      obtain ⟨hc1, hc2, hc3, hc4⟩ := blocked_site hInv hbl_s
      have hfl₁ : poolFlag s₁ pid = 1 := poolFlag_of_state hrd₁ (by decide)
      have hkval : (match OSSimulator.getProc s₁ pid with
          | some p => p.state == "Blocked" | none => false) = false := by
        rcases hg : OSSimulator.getProc s₁ pid with _ | p
        · rfl
        · simp only []
          rw [stateOf_some (show alookup pid s₁.process_pool = some p from hg) hrd₁]
          decide
      have hkeep : (s₁.blocked.filter (fun pid => match OSSimulator.getProc s₁ pid with
          | some p => p.state == "Blocked" | none => false)).count pid = 0 := by
        rw [count_filter_fn, hkval, if_neg (by decide : ¬(false = true))]
      have hpend : (newly.map Prod.fst).count pid = 1 :=
        List.count_eq_one_of_mem hW.newly_nodup hmemq
      omega
    · have hstoff := hoff pid hmemq
      have hfl_eq : poolFlag s₁ pid = poolFlag s pid := poolFlag_eq_of_stateOf hstoff
      have hpend : (newly.map Prod.fst).count pid = 0 := List.count_eq_zero.mpr hmemq
      have hbc : (s₁.blocked.filter (fun pid => match OSSimulator.getProc s₁ pid with
          | some p => p.state == "Blocked" | none => false)).count pid =
          s.blocked.count pid := by
        by_cases hmb : pid ∈ s.blocked
        · have hbls := hInv.blocked_state pid hmb
          have hbl₁ : stateOf s₁ pid = some "Blocked" := hstoff.trans hbls
          have hkval : (match OSSimulator.getProc s₁ pid with
              | some p => p.state == "Blocked" | none => false) = true := by
            rcases hg : OSSimulator.getProc s₁ pid with _ | p
            · exfalso
              have hg' : alookup pid s₁.process_pool = none := hg
              unfold stateOf at hbl₁
              rw [hg'] at hbl₁
              cases hbl₁
            · simp only []
              rw [stateOf_some (show alookup pid s₁.process_pool = some p from hg) hbl₁]
              decide
          rw [count_filter_fn, hkval, if_pos rfl, hW.blk]
        · have h0 : s.blocked.count pid = 0 := List.count_eq_zero.mpr hmb
          have h1 : s₁.blocked.count pid = 0 := by
            rw [hW.blk]
            exact h0
          rw [count_filter_fn, h1, h0]
          split <;> rfl
      have hcnt := hInv.count_eq pid
      rw [count_bucket] at hcnt
      omega
  · intro pid hr
    rw [hrun, hW.run] at hr
    have hs := hInv.run_state pid hr
    rw [hst1]
    by_cases hmemq : pid ∈ newly.map Prod.fst
    · exact absurd ((hwokes pid hmemq).symm.trans hs) (by decide)
    · rw [hoff pid hmemq]
      exact hs
  · intro q hq pid hpid2
    rw [hready, hW.ready] at hq
    have hs := hInv.ready_state q hq pid hpid2
    rw [hst1]
    by_cases hmemq : pid ∈ newly.map Prod.fst
    · exact absurd ((hwokes pid hmemq).symm.trans hs) (by decide)
    · rw [hoff pid hmemq]
      exact hs
  · intro pid hpid2
    rw [hblkf] at hpid2
    have hmf := List.mem_filter.mp hpid2
    have h2 := hmf.2
    rw [hst1]
    simp only [] at h2
    rcases hg : OSSimulator.getProc s₁ pid with _ | p
    · rw [hg] at h2
      cases h2
    · rw [hg] at h2
      have hps : p.state = "Blocked" := eq_of_beq h2
      rw [stateOf_of_lookup (show alookup pid s₁.process_pool = some p from hg), hps]
  · intro pid hpid2
    rw [hfin, hW.fin] at hpid2
    have hs := hInv.fin_state pid hpid2
    rw [hst1]
    by_cases hmemq : pid ∈ newly.map Prod.fst
    · exact absurd ((hwokes pid hmemq).symm.trans hs) (by decide)
    · rw [hoff pid hmemq]
      exact hs
  · intro pid hpid2
    rw [hst1]
    exact hwoke₁ pid hpid2
  · rw [hmem, hW.mem]
    exact hInv.ft_len
  · rw [hmem, hW.mem]
    exact hInv.rq_perm
  · rw [hmem, hW.mem]
    exact hInv.loc_keys_nodup
  · intro e he
    rw [hpool] at he
    have hl := alookup_of_mem_nodup hnd₁ he
    rcases hW.entry e.1 e.2 hl with ⟨p0, h0, _, hpt', _⟩
    rw [hpt']
    exact hInv.pt_keys_nodup _ (mem_of_alookup h0)
  · intro k f hk
    rw [hmem, hW.mem] at hk ⊢
    exact hInv.loc_frame k f hk
  · intro f k hk
    rw [hmem, hW.mem] at hk ⊢
    exact hInv.frame_loc f k hk
  · intro pid page f hk
    rw [hmem, hW.mem] at hk
    obtain ⟨p0, h0, hpt0⟩ := hInv.loc_pt pid page f hk
    obtain ⟨p', h1, _, hpt'⟩ := hs1lookup h0
    refine ⟨p', by rw [hpool]; exact h1, ?_⟩
    rw [hpt']
    exact hpt0
  · intro pid p page f h1 h2
    rw [hpool] at h1
    rcases hW.entry pid p h1 with ⟨p0, h0, _, hpt', _⟩
    rw [hmem, hW.mem]
    refine hInv.pt_loc pid p0 page f h0 ?_
    rw [← hpt']
    exact h2
theorem reqMid_log {t : OSSimulator} {pending : List Nat} (m : String) (h : ReqMid t pending) :
    ReqMid (t.log_event m) pending :=
  ⟨h.rq_len, h.keys_nodup, h.key_pid, h.pid_lt, h.pool_size, h.count_eq, h.run_state,
   h.ready_state, h.blocked_state, h.fin_state, h.pending_state, h.ft_len, h.rq_perm,
   h.loc_keys_nodup, h.pt_keys_nodup, h.loc_frame, h.frame_loc, h.loc_pt, h.pt_loc⟩

/-- Requeueing one pending pid into ready queue 0 (with its pool entry's
queue level rewritten) keeps the requeue mid-invariant. -/
theorem reqMid_requeue_one {t u : OSSimulator} {pid : Nat} {rest : List Nat}
    {proc p' : Process} {q0 : List Nat}
    (hM : ReqMid t (pid :: rest))
    (hg : alookup pid t.process_pool = some proc)
    (hpid : p'.pid = pid) (hpt : p'.page_table = proc.page_table)
    (hstate : p'.state = proc.state)
    (hq : t.ready_queues.get? 0 = some q0)
    (hpool : u.process_pool = ainsert pid p' t.process_pool)
    (hready : u.ready_queues = t.ready_queues.set 0 (q0 ++ [pid]))
    (hblk : u.blocked = t.blocked) (hfin : u.finished = t.finished)
    (hrun : u.running = t.running) (hnp : u.next_pid = t.next_pid)
    (hmem : u.memory = t.memory) :
    ReqMid u rest := by
  obtain ⟨hnd', hlen', hself', hne'⟩ := pool_update_props hM.keys_nodup hg hpid
  have hstat_pid : stateOf u pid = some p'.state := by
    unfold stateOf
    rw [hpool, hself', Option.map_some']
  have hstat_all : ∀ q, stateOf u q = stateOf t q := by
    intro q
    by_cases hqp : q = pid
    · subst hqp
      rw [hstat_pid, hstate]
      exact (stateOf_of_lookup hg).symm
    · unfold stateOf
      rw [hpool, hne' q hqp]
  obtain ⟨pre, post, hdecomp, hlenpre⟩ := exists_decomp_of_get hq
  have hpre : pre = [] := List.eq_nil_of_length_eq_zero hlenpre
  subst hpre
  rw [List.nil_append] at hdecomp
  have hset : t.ready_queues.set 0 (q0 ++ [pid]) = (q0 ++ [pid]) :: post := by
    rw [hdecomp]
    rfl
  refine ⟨?_, ?_, ?_, ?_, ?_, ?_, ?_, ?_, ?_, ?_, ?_, ?_, ?_, ?_, ?_, ?_, ?_, ?_, ?_⟩
  · rw [hready, List.length_set]
    exact hM.rq_len
  · rw [hpool]
    exact hnd'
  · intro e he
    rw [hpool] at he
    rcases mem_ainsert he with h1 | h1
    · have h2 := congrArg Prod.fst h1
      have h3 := congrArg Prod.snd h1
      simp only at h2 h3
      rw [h2, h3, hpid]
    · exact hM.key_pid _ h1
  · intro e he
    rw [hnp]
    rw [hpool] at he
    rcases mem_ainsert he with h1 | h1
    · have h2 := congrArg Prod.fst h1
      simp only at h2
      rw [h2]
      exact hM.pid_lt _ (mem_of_alookup hg)
    · exact hM.pid_lt _ h1
  · rw [hnp, hpool, hlen']
    exact hM.pool_size
  · intro q
    have hrl : runningList u = runningList t := by
      unfold runningList
      rw [hrun]
    have hflagq : poolFlag u q = poolFlag t q := poolFlag_eq_of_stateOf (hstat_all q)
    rw [count_bucket, hrl, hready, hset, hblk, hfin, hflagq]
    have hM6 := hM.count_eq q
    rw [count_bucket, hdecomp] at hM6
    simp only [List.flatten_cons, List.count_append] at hM6 ⊢
    by_cases hqp : q = pid
    · subst hqp
      have e1 : List.count q [q] = 1 := by simp
      rw [List.count_cons_self] at hM6
      omega
    · have e1 : List.count q [pid] = 0 :=
        List.count_eq_zero.mpr (fun h => hqp (List.mem_singleton.mp h))
      have e2 : List.count q (pid :: rest) = List.count q rest := List.count_cons_of_ne hqp _
      rw [e2] at hM6
      omega
  · intro q hq2
    rw [hrun] at hq2
    rw [hstat_all]
    exact hM.run_state q hq2
  · intro ql hql q hq2
    rw [hready, hset] at hql
    rw [hstat_all]
    rcases List.mem_cons.mp hql with h1 | h1
    · subst h1
      rcases List.mem_append.mp hq2 with h2 | h2
      · refine hM.ready_state q0 ?_ q h2
        rw [hdecomp]
        exact List.mem_cons_self _ _
      · have h3 : q = pid := List.mem_singleton.mp h2
        subst h3
        exact hM.pending_state q (List.mem_cons_self _ _)
    · refine hM.ready_state ql ?_ q hq2
      rw [hdecomp]
      exact List.mem_cons_of_mem _ h1
  · intro q hq2
    rw [hblk] at hq2
    rw [hstat_all]
    exact hM.blocked_state q hq2
  · intro q hq2
    rw [hfin] at hq2
    rw [hstat_all]
    exact hM.fin_state q hq2
  · intro q hq2
    rw [hstat_all]
    exact hM.pending_state q (List.mem_cons_of_mem _ hq2)
  · rw [hmem]
    exact hM.ft_len
  · rw [hmem]
    exact hM.rq_perm
  · rw [hmem]
    exact hM.loc_keys_nodup
  · intro e he
    rw [hpool] at he
    rcases mem_ainsert he with h1 | h1
    · have h3 := congrArg Prod.snd h1
      simp only at h3
      rw [h3, hpt]
      exact hM.pt_keys_nodup _ (mem_of_alookup hg)
    · exact hM.pt_keys_nodup _ h1
  · intro k f hk
    rw [hmem] at hk ⊢
    exact hM.loc_frame k f hk
  · intro f k hk
    rw [hmem] at hk ⊢
    exact hM.frame_loc f k hk
  · intro q page f hk
    rw [hmem] at hk
    obtain ⟨pp, hpp, hppt⟩ := hM.loc_pt q page f hk
    by_cases hqp : q = pid
    · subst hqp
      have he : pp = proc := Option.some.inj (hpp.symm.trans hg)
      subst he
      refine ⟨p', by rw [hpool]; exact hself', ?_⟩
      rw [hpt]
      exact hppt
    · exact ⟨pp, by rw [hpool, hne' q hqp]; exact hpp, hppt⟩
  · intro q pp page f h1 h2
    rw [hpool] at h1
    rw [hmem]
    by_cases hqp : q = pid
    · subst hqp
      rw [hself'] at h1
      have he : p' = pp := Option.some.inj h1
      rw [← he] at h2
      rw [hpt] at h2
      exact hM.pt_loc _ proc page f hg h2
    · rw [hne' q hqp] at h1
      exact hM.pt_loc q pp page f h1 h2

/-- One step of the requeue pass consumes the pending head. -/
theorem reqMid_step {t : OSSimulator} {pid : Nat} {rest : List Nat} {reason : String}
    (hM : ReqMid t (pid :: rest)) :
    ReqMid (reqStep t (pid, reason)) rest := by
  have hstp := hM.pending_state pid (List.mem_cons_self _ _)
  rcases hg : alookup pid t.process_pool with _ | proc
  · exfalso
    unfold stateOf at hstp
    rw [hg] at hstp
    cases hstp
  · have hpidp : proc.pid = pid := (hM.key_pid _ (mem_of_alookup hg)).symm
    rcases hq0 : t.ready_queues.get? 0 with _ | q0
    · exfalso
      rw [List.get?_eq_none] at hq0
      have := hM.rq_len
      omega
    · subst hpidp
      unfold reqStep
      rw [show OSSimulator.getProc t (proc.pid, reason).1 = some proc from hg]
      simp only []
      split
      · apply reqMid_log
        refine @reqMid_requeue_one t _ proc.pid rest proc { proc with queue_level := 0 } q0
          hM hg rfl rfl rfl hq0 rfl ?_ rfl rfl rfl rfl rfl
        show t.ready_queues.set 0 ((t.ready_queues.getD 0 []) ++ [proc.pid]) =
          t.ready_queues.set 0 (q0 ++ [proc.pid])
        rw [getD_of_get [] hq0]
      · apply reqMid_log
        refine @reqMid_requeue_one t _ proc.pid rest proc { proc with queue_level := 0 } q0
          hM hg rfl rfl rfl hq0 rfl ?_ rfl rfl rfl rfl rfl
        show t.ready_queues.set 0 ((t.ready_queues.getD 0 []) ++ [proc.pid]) =
          t.ready_queues.set 0 (q0 ++ [proc.pid])
        rw [getD_of_get [] hq0]

theorem reqMid_fold : ∀ (newly : List (Nat × String)) (t : OSSimulator),
    ReqMid t (newly.map Prod.fst) → ReqMid (newly.foldl reqStep t) [] := by
  intro newly
  induction newly with
  | nil => intro t h; exact h
  | cons hd tl ih =>
    intro t h
    rw [List.foldl_cons]
    exact ih _ (reqMid_step h)

theorem simInv_of_reqMid {t : OSSimulator} (h : ReqMid t []) : SimInv t :=
  ⟨h.rq_len, h.keys_nodup, h.key_pid, h.pid_lt, h.pool_size,
   fun pid => by have h6 := h.count_eq pid; simpa using h6,
   h.run_state, h.ready_state, h.blocked_state, h.fin_state, h.ft_len, h.rq_perm,
   h.loc_keys_nodup, h.pt_keys_nodup, h.loc_frame, h.frame_loc, h.loc_pt, h.pt_loc⟩

/-- `_handle_blocked` preserves the invariant. -/
theorem simInv_handle_blocked {s : OSSimulator} (hInv : SimInv s) :
    SimInv (s.handle_blocked) := by
  unfold OSSimulator.handle_blocked
  simp only []
  have hnodup : s.blocked.Nodup := by
    rw [List.nodup_iff_count_le_one]
    intro a
    by_cases hm : a ∈ s.blocked
    · have h1 := (blocked_not_elsewhere hInv hm).1
      omega
    · have h1 := List.count_eq_zero.mpr hm
      omega
  have hW0 : WakeMid s s [] :=
    ⟨rfl, rfl, rfl, rfl, rfl, rfl, rfl,
     fun pid p' h => ⟨p', h, rfl, rfl, Or.inl rfl⟩,
     fun pr h => absurd h (List.not_mem_nil pr), fun pr h => absurd h (List.not_mem_nil pr),
     List.nodup_nil⟩
  have hW := wakePass_mid hInv s.blocked s [] hW0 hnodup (fun _ _ => rfl)
    (fun q hq => hInv.blocked_state q hq)
  unfold OSSimulator.requeueWoken
  apply simInv_of_reqMid
  apply reqMid_fold
  exact reqMid_after_filter hInv hW rfl rfl rfl rfl rfl rfl rfl
/-- One arrivals-scan step preserves the invariant and touches only the
scanned entry's pool slot. -/
theorem arrive_step_spec {s t : OSSimulator} (hsnd : (s.process_pool.map Prod.fst).Nodup)
    {e : Nat × Process} (hes : e ∈ s.process_pool)
    (hInv : SimInv t)
    (hun : alookup e.1 t.process_pool = alookup e.1 s.process_pool) :
    SimInv (arriveStep t e) ∧
    (∀ q, q ≠ e.1 → alookup q (arriveStep t e).process_pool = alookup q t.process_pool) := by
  obtain ⟨k, pr⟩ := e
  have hgs : alookup k s.process_pool = some pr := alookup_of_mem_nodup hsnd hes
  have hgt : alookup k t.process_pool = some pr := hun.trans hgs
  have hke : pr.pid = k := (hInv.key_pid _ (mem_of_alookup hgt)).symm
  subst hke
  unfold arriveStep
  simp only []
  split
  · rename_i hcond
    rcases hq0 : t.ready_queues.get? 0 with _ | q0
    · exfalso
      rw [List.get?_eq_none] at hq0
      have h3 := hInv.rq_len
      omega
    · constructor
      · refine @simInv_new_to_ready t _ pr.pid q0 pr
          ({ pr with state := "Ready", queue_level := 0 }) hInv hgt hcond.1 rfl rfl rfl hq0 rfl
          ?_ rfl rfl rfl rfl rfl
        show t.ready_queues.set 0 ((t.ready_queues.getD 0 []) ++ [pr.pid]) =
          t.ready_queues.set 0 (q0 ++ [pr.pid])
        rw [getD_of_get [] hq0]
      · intro q hq
        exact alookup_ainsert_ne _ _ hq
  · exact ⟨hInv, fun _ _ => rfl⟩

/-- The arrivals fold preserves the invariant. -/
theorem admit_go {s : OSSimulator} (hsnd : (s.process_pool.map Prod.fst).Nodup) :
    ∀ (l : List (Nat × Process)) (t : OSSimulator),
      SimInv t →
      (∀ e ∈ l, e ∈ s.process_pool) →
      (∀ e ∈ l, alookup e.1 t.process_pool = alookup e.1 s.process_pool) →
      (l.map Prod.fst).Nodup →
      SimInv (l.foldl arriveStep t) := by
  intro l
  induction l with
  | nil => intro t hInv _ _ _; exact hInv
  | cons hd tl ih =>
    intro t hInv hmem hun hnd
    rw [List.foldl_cons]
    have hstep := arrive_step_spec hsnd (hmem hd (List.mem_cons_self _ _)) hInv
      (hun hd (List.mem_cons_self _ _))
    have hnd' : (hd.1 ∉ tl.map Prod.fst) ∧ (tl.map Prod.fst).Nodup := by
      rw [List.map_cons, List.nodup_cons] at hnd
      exact hnd
    refine ih _ hstep.1 (fun e he => hmem e (List.mem_cons_of_mem _ he)) ?_ hnd'.2
    intro e he
    have hne : e.1 ≠ hd.1 := by
      intro hcontra
      exact hnd'.1 (hcontra ▸ List.mem_map_of_mem Prod.fst he)
    rw [hstep.2 e.1 hne]
    exact hun e (List.mem_cons_of_mem _ he)

/-- The arrivals scan at the top of `step` preserves the invariant. -/
theorem simInv_admitArrivals {s : OSSimulator} (hInv : SimInv s) :
    SimInv (s.admitArrivals) := by
  unfold OSSimulator.admitArrivals
  exact admit_go hInv.keys_nodup s.process_pool s hInv (fun _ he => he)
    (fun _ _ => rfl) hInv.keys_nodup

/-- `_spawn_dynamic_job` preserves the invariant. -/
theorem simInv_spawn {s : OSSimulator} (hInv : SimInv s) : SimInv (s.spawn_dynamic_job) := by
  unfold OSSimulator.spawn_dynamic_job
  simp only []
  rcases hq0 : s.ready_queues.get? 0 with _ | q0
  · exfalso
    rw [List.get?_eq_none] at hq0
    have h3 := hInv.rq_len
    omega
  · apply simInv_spawn_to_ready hInv
    rotate_left 3
    · exact hq0
    · exact ainsert_ainsert _ _ _ _
    · show s.ready_queues.set 0 ((s.ready_queues.getD 0 []) ++ [s.next_pid]) =
        s.ready_queues.set 0 (q0 ++ [s.next_pid])
      rw [getD_of_get [] hq0]
    all_goals rfl

/-- The dispatch-and-execute segment of `step` preserves the invariant. -/
theorem simInv_runPhase {s : OSSimulator} (hInv : SimInv s) : SimInv (s.runPhase) := by
  unfold OSSimulator.runPhase
  cases hrun : s.running with
  | none => exact simInv_log_event _ hInv
  | some pid =>
    simp only []
    cases hg : OSSimulator.getProc s pid with
    | none => exact hInv
    | some proc =>
      have hg' : alookup pid s.process_pool = some proc := hg
      have hpidp : proc.pid = pid := (hInv.key_pid _ (mem_of_alookup hg')).symm
      subst hpidp
      exact simInv_run_action hInv hrun hg'

/-- One clock tick preserves the invariant. -/
theorem simInv_step {s : OSSimulator} (hInv : SimInv s) : SimInv (s.step) := by
  unfold OSSimulator.step
  simp only []
  have h1 : SimInv ({ s with clock := s.clock + 1 } : OSSimulator) :=
    @simInv_transport s _ rfl rfl rfl rfl rfl rfl rfl rfl rfl rfl hInv
  have hD := simInv_runPhase (simInv_dispatch (simInv_handle_blocked
    (simInv_admitArrivals (simInv_log_event "===== 时钟跳动 =====" h1))))
  split
  · exact simInv_spawn hD
  · exact hD

/-- The invariant holds along every run of the simulator. -/
theorem simInv_stepN {s : OSSimulator} (hInv : SimInv s) : ∀ n, SimInv (stepN s n) := by
  intro n
  induction n with
  | zero => exact hInv
  | succ m ih => exact simInv_step ih
/-- The driver's start state (constructor plus `reset`) satisfies the
invariant. -/
theorem simInv_simStart : SimInv simStart := by
  refine ⟨rfl, by decide, by decide, by decide, rfl, ?_, ?_, ?_, ?_, ?_, rfl, ?_, ?_,
    by decide, ?_, ?_, ?_, ?_⟩
  · intro pid
    show ([] : List Nat).count pid = poolFlag simStart pid
    unfold poolFlag
    rcases hl : alookup pid simStart.process_pool with _ | p
    · rfl
    · have hall : ∀ e ∈ simStart.process_pool, e.2.state = "New" := by decide
      have hnew := hall _ (mem_of_alookup hl)
      simp only []
      rw [if_pos hnew]
      rfl
  · intro pid h
    exact Option.noConfusion h
  · intro q hq pid hpid
    have h3 : simStart.ready_queues = [[], [], []] := rfl
    rw [h3] at hq
    simp at hq
    subst hq
    exact absurd hpid (List.not_mem_nil _)
  · intro pid h
    exact absurd h (List.not_mem_nil _)
  · intro pid h
    exact absurd h (List.not_mem_nil _)
  · exact List.Perm.refl _
  · exact List.nodup_nil
  · intro k f h
    exact Option.noConfusion h
  · intro f k h
    have hmem := List.get?_mem h
    have h2 := List.eq_of_mem_replicate hmem
    exact Option.noConfusion h2
  · intro pid page f h
    exact Option.noConfusion h
  · intro pid p page f h1 h2
    have hall : ∀ e ∈ simStart.process_pool, e.2.page_table = [] := by decide
    have hpt := hall _ (mem_of_alookup h1)
    rw [hpt] at h2
    exact Option.noConfusion h2
/-- Agreement of the clock, the pid counter and the whole synchronization
engine (buffer, mutex, semaphores) between two states. -/
def EngineEq (s t : OSSimulator) : Prop :=
  t.clock = s.clock ∧ t.next_pid = s.next_pid ∧ t.buffer_capacity = s.buffer_capacity ∧
  t.buffer_count = s.buffer_count ∧ t.buffer_slots = s.buffer_slots ∧
  t.buffer_in = s.buffer_in ∧ t.buffer_out = s.buffer_out ∧
  t.mutex_owner = s.mutex_owner ∧ t.shared_resources = s.shared_resources

theorem engineEq_refl (s : OSSimulator) : EngineEq s s :=
  ⟨rfl, rfl, rfl, rfl, rfl, rfl, rfl, rfl, rfl⟩

theorem engineEq_trans {s t u : OSSimulator} (h1 : EngineEq s t) (h2 : EngineEq t u) :
    EngineEq s u := by
  obtain ⟨a1, a2, a3, a4, a5, a6, a7, a8, a9⟩ := h1
  obtain ⟨b1, b2, b3, b4, b5, b6, b7, b8, b9⟩ := h2
  exact ⟨b1.trans a1, b2.trans a2, b3.trans a3, b4.trans a4, b5.trans a5, b6.trans a6,
    b7.trans a7, b8.trans a8, b9.trans a9⟩

theorem engineEq_arriveStep (t : OSSimulator) (e : Nat × Process) :
    EngineEq t (arriveStep t e) := by
  unfold arriveStep
  simp only []
  split
  · exact ⟨rfl, rfl, rfl, rfl, rfl, rfl, rfl, rfl, rfl⟩
  · exact engineEq_refl t

theorem engineEq_admitArrivals (s : OSSimulator) : EngineEq s (s.admitArrivals) := by
  unfold OSSimulator.admitArrivals
  refine @foldl_preserve OSSimulator (Nat × Process) (fun u => EngineEq s u) arriveStep
    s.process_pool ?_ s (engineEq_refl s)
  intro a x _ ha
  exact engineEq_trans ha (engineEq_arriveStep a x)

theorem engineEq_wakeStep (acc : OSSimulator × List (Nat × String)) (pid : Nat) :
    EngineEq acc.1 (wakeStep acc pid).1 := by
  unfold wakeStep
  simp only []
  cases hg : OSSimulator.getProc acc.1 pid with
  | none => exact engineEq_refl _
  | some proc =>
    simp only []
    split
    · split
      · exact ⟨rfl, rfl, rfl, rfl, rfl, rfl, rfl, rfl, rfl⟩
      · exact engineEq_refl _
    · split
      · exact ⟨rfl, rfl, rfl, rfl, rfl, rfl, rfl, rfl, rfl⟩
      · exact ⟨rfl, rfl, rfl, rfl, rfl, rfl, rfl, rfl, rfl⟩

theorem engineEq_reqStep (t : OSSimulator) (pr : Nat × String) :
    EngineEq t (reqStep t pr) := by
  unfold reqStep
  simp only []
  cases hg : OSSimulator.getProc t pr.1 with
  | none =>
    split
    · exact ⟨rfl, rfl, rfl, rfl, rfl, rfl, rfl, rfl, rfl⟩
    · exact ⟨rfl, rfl, rfl, rfl, rfl, rfl, rfl, rfl, rfl⟩
  | some proc =>
    split
    · exact ⟨rfl, rfl, rfl, rfl, rfl, rfl, rfl, rfl, rfl⟩
    · exact ⟨rfl, rfl, rfl, rfl, rfl, rfl, rfl, rfl, rfl⟩

theorem engineEq_handle_blocked (s : OSSimulator) : EngineEq s (s.handle_blocked) := by
  unfold OSSimulator.handle_blocked OSSimulator.wakePass OSSimulator.requeueWoken
  simp only []
  have h1 : EngineEq s (List.foldl wakeStep (s, []) s.blocked).1 := by
    refine @foldl_preserve (OSSimulator × List (Nat × String)) Nat (fun acc => EngineEq s acc.1)
      wakeStep s.blocked ?_ (s, []) (engineEq_refl s)
    intro a x _ ha
    exact engineEq_trans ha (engineEq_wakeStep a x)
  have h2 : EngineEq s ({ (List.foldl wakeStep (s, []) s.blocked).1 with
      blocked := ((List.foldl wakeStep (s, []) s.blocked).1.blocked.filter (fun pid =>
        match OSSimulator.getProc (List.foldl wakeStep (s, []) s.blocked).1 pid with
        | some p => p.state == "Blocked"
        | none => false)) } : OSSimulator) := h1
  refine @foldl_preserve OSSimulator (Nat × String) (fun u => EngineEq s u) reqStep _ ?_ _ h2
  intro a x _ ha
  exact engineEq_trans ha (engineEq_reqStep a x)

theorem engineEq_dispatch (s : OSSimulator) : EngineEq s (s.dispatch_if_needed) := by
  unfold OSSimulator.dispatch_if_needed
  cases s.running with
  | some pid => exact engineEq_refl s
  | none =>
    cases findFirstReady s.ready_queues with
    | none => exact engineEq_refl s
    | some tri =>
      obtain ⟨lvl, pid, rest⟩ := tri
      simp only []
      split
      · exact ⟨rfl, rfl, rfl, rfl, rfl, rfl, rfl, rfl, rfl⟩
      · exact ⟨rfl, rfl, rfl, rfl, rfl, rfl, rfl, rfl, rfl⟩
/-- Agreement of clock, pid counter and buffer capacity. -/
def CoreEq (s t : OSSimulator) : Prop :=
  t.clock = s.clock ∧ t.next_pid = s.next_pid ∧ t.buffer_capacity = s.buffer_capacity

theorem coreEq_refl (s : OSSimulator) : CoreEq s s := ⟨rfl, rfl, rfl⟩

theorem coreEq_trans {s t u : OSSimulator} (h1 : CoreEq s t) (h2 : CoreEq t u) : CoreEq s u :=
  ⟨h2.1.trans h1.1, h2.2.1.trans h1.2.1, h2.2.2.trans h1.2.2⟩

theorem coreEq_of_engineEq {s t : OSSimulator} (h : EngineEq s t) : CoreEq s t :=
  ⟨h.1, h.2.1, h.2.2.1⟩

theorem coreEq_release_mutex (s : OSSimulator) (proc : Process) :
    CoreEq s (s.release_mutex proc) := by
  unfold OSSimulator.release_mutex
  split
  · exact ⟨rfl, rfl, rfl⟩
  · exact coreEq_refl s

theorem execute_memory_clock (s : OSSimulator) (proc : Process) (action : ProcessAction) :
    (s.execute_memory proc action).clock = s.clock := by
  unfold OSSimulator.execute_memory
  rcases s.memory.access_page proc ((action.page).getD 0) with _ | ⟨m', proc', fault, frame, ev⟩
  · rfl
  · rcases fault with _ | _
    · simp [OSSimulator.setProc, OSSimulator.log_event]
    · rcases ev with _ | ek
      · simp [OSSimulator.setProc, OSSimulator.log_event]
      · rcases hlook : alookup ek.1 (ainsert proc'.pid proc' s.process_pool) with _ | ow <;>
          simp [OSSimulator.getProc, OSSimulator.setProc, OSSimulator.log_event, hlook]

theorem coreEq_pc_go (s : OSSimulator) (proc : Process) (action : ProcessAction) :
    CoreEq s (s.pc_go proc action) := by
  unfold OSSimulator.pc_go
  split
  · split
    · exact coreEq_trans (coreEq_release_mutex s proc) ⟨rfl, rfl, rfl⟩
    · exact coreEq_trans (⟨rfl, rfl, rfl⟩ : CoreEq s _) (coreEq_release_mutex _ proc)
  · split
    · split
      · exact coreEq_trans (coreEq_release_mutex s proc) ⟨rfl, rfl, rfl⟩
      · exact coreEq_trans (⟨rfl, rfl, rfl⟩ : CoreEq s _) (coreEq_release_mutex _ proc)
    · exact coreEq_release_mutex s proc

theorem coreEq_execute_pc (s : OSSimulator) (proc : Process) (action : ProcessAction) :
    CoreEq s (s.execute_pc_action proc action) := by
  unfold OSSimulator.execute_pc_action OSSimulator.with_mutex
  cases hmo : s.mutex_owner with
  | none =>
    simp only []
    split
    · rename_i h
      exact Bool.noConfusion h
    · exact coreEq_trans (⟨rfl, rfl, rfl⟩ : CoreEq s _) (coreEq_pc_go _ proc action)
  | some owner =>
    simp only []
    split
    · split
      · rename_i h
        exact Bool.noConfusion h
      · exact coreEq_pc_go s proc action
    · split
      · exact ⟨rfl, rfl, rfl⟩
      · rename_i h
        exact absurd rfl h

theorem coreEq_execute_resource (s : OSSimulator) (proc : Process) (action : ProcessAction) :
    CoreEq s (s.execute_resource_action proc action) := by
  unfold OSSimulator.execute_resource_action
  simp only []
  split
  · split
    · exact ⟨rfl, rfl, rfl⟩
    · exact ⟨rfl, rfl, rfl⟩
  · exact ⟨rfl, rfl, rfl⟩

theorem coreEq_run_tail (s : OSSimulator) (proc : Process) :
    CoreEq s (s.run_action_tail proc) := by
  unfold OSSimulator.run_action_tail
  simp only []
  split
  · exact ⟨rfl, rfl, rfl⟩
  · split
    · exact ⟨rfl, rfl, rfl⟩
    · exact ⟨rfl, rfl, rfl⟩

theorem coreEq_run_action (s : OSSimulator) (proc : Process) :
    CoreEq s (s.run_action proc) := by
  unfold OSSimulator.run_action
  cases proc.next_action with
  | none => exact ⟨rfl, rfl, rfl⟩
  | some action =>
    simp only []
    split
    · exact ⟨rfl, rfl, rfl⟩
    · split
      · split
        · exact coreEq_refl _
        · exact coreEq_trans (⟨rfl, rfl, rfl⟩ : CoreEq s _) (coreEq_run_tail _ _)
      · split
        · have hc2 : CoreEq s ((s.log_event ("进程 " ++ toString proc.pid ++ "：" ++ action.description)).execute_memory proc action) := by
            refine coreEq_trans (⟨rfl, rfl, rfl⟩ : CoreEq s _) ⟨?_, ?_, ?_⟩
            · exact execute_memory_clock _ proc action
            · exact (execute_memory_frame _ proc action).2.2.2.2.1
            · exact (execute_memory_frame _ proc action).2.2.2.2.2.2.1
          split
          · exact hc2
          · exact coreEq_trans hc2 (coreEq_run_tail _ _)
        · split
          · have hc2 : CoreEq s ((s.log_event ("进程 " ++ toString proc.pid ++ "：" ++ action.description)).execute_pc_action proc action) :=
              coreEq_trans (⟨rfl, rfl, rfl⟩ : CoreEq s _) (coreEq_execute_pc _ proc action)
            split
            · exact hc2
            · exact coreEq_trans hc2 (coreEq_run_tail _ _)
          · split
            · have hc2 : CoreEq s ((s.log_event ("进程 " ++ toString proc.pid ++ "：" ++ action.description)).execute_file_action proc action) :=
                coreEq_trans (⟨rfl, rfl, rfl⟩ : CoreEq s _) ⟨rfl, rfl, rfl⟩
              split
              · exact hc2
              · exact coreEq_trans hc2 (coreEq_run_tail _ _)
            · split
              · have hc2 : CoreEq s ((s.log_event ("进程 " ++ toString proc.pid ++ "：" ++ action.description)).execute_resource_action proc action) :=
                  coreEq_trans (⟨rfl, rfl, rfl⟩ : CoreEq s _)
                    (coreEq_execute_resource _ proc action)
                split
                · exact hc2
                · exact coreEq_trans hc2 (coreEq_run_tail _ _)
              · have hc2 : CoreEq s ((s.log_event ("进程 " ++ toString proc.pid ++ "：" ++ action.description)).log_event ("进程 " ++ toString proc.pid ++ " 执行未知操作 " ++ action.kind)) :=
                  coreEq_trans (⟨rfl, rfl, rfl⟩ : CoreEq s _) ⟨rfl, rfl, rfl⟩
                split
                · exact hc2
                · exact coreEq_trans hc2 (coreEq_run_tail _ _)

theorem coreEq_runPhase (s : OSSimulator) : CoreEq s (s.runPhase) := by
  unfold OSSimulator.runPhase
  cases s.running with
  | none => exact ⟨rfl, rfl, rfl⟩
  | some pid =>
    simp only []
    cases OSSimulator.getProc s pid with
    | none => exact coreEq_refl s
    | some proc => exact coreEq_run_action s proc
theorem spawn_clock (x : OSSimulator) : (x.spawn_dynamic_job).clock = x.clock := rfl

theorem spawn_next_pid (x : OSSimulator) : (x.spawn_dynamic_job).next_pid = x.next_pid + 1 := rfl

/-- The clock/pid-counter/capacity agreement across one tick body (everything
in `step` except the final spawn). -/
theorem coreEq_tick (t : OSSimulator) (m : String) :
    CoreEq t (((((t.log_event m).admitArrivals).handle_blocked).dispatch_if_needed).runPhase) := by
  refine coreEq_trans (⟨rfl, rfl, rfl⟩ : CoreEq t (t.log_event m)) ?_
  refine coreEq_trans (coreEq_of_engineEq (engineEq_admitArrivals _)) ?_
  refine coreEq_trans (coreEq_of_engineEq (engineEq_handle_blocked _)) ?_
  refine coreEq_trans (coreEq_of_engineEq (engineEq_dispatch _)) ?_
  exact coreEq_runPhase _

/-- `step` advances the clock by exactly one. -/
theorem step_clock (s : OSSimulator) : (s.step).clock = s.clock + 1 := by
  unfold OSSimulator.step
  simp only []
  have h1 := coreEq_tick ({ s with clock := s.clock + 1 } : OSSimulator) "===== 时钟跳动 ====="
  split
  · rw [spawn_clock]
    exact h1.1
  · exact h1.1

/-- `step` spawns exactly one process on every fourth tick. -/
theorem step_next_pid (s : OSSimulator) :
    (s.step).next_pid = if (s.clock + 1) % 4 = 0 then s.next_pid + 1 else s.next_pid := by
  unfold OSSimulator.step
  simp only []
  have h1 := coreEq_tick ({ s with clock := s.clock + 1 } : OSSimulator) "===== 时钟跳动 ====="
  split
  · rename_i h
    rw [h1.1] at h
    rw [if_pos h, spawn_next_pid, h1.2.1]
  · rename_i h
    rw [h1.1] at h
    rw [if_neg h]
    exact h1.2.1

/-- The clock counts the ticks. -/
theorem stepN_clock : ∀ n, (stepN simStart n).clock = n := by
  intro n
  induction n with
  | zero => rfl
  | succ m ih =>
    show ((stepN simStart m).step).clock = m + 1
    rw [step_clock, ih]

/-- The pid counter after `n` ticks: six templates, one spawn per four ticks. -/
theorem stepN_next_pid : ∀ n, (stepN simStart n).next_pid = 7 + n / 4 := by
  intro n
  induction n with
  | zero => rfl
  | succ m ih =>
    show ((stepN simStart m).step).next_pid = 7 + (m + 1) / 4
    rw [step_next_pid, stepN_clock, ih]
    split <;> omega

theorem bufferInv_of_engineEq {s t : OSSimulator} (h : EngineEq s t) (hb : BufferInv s) :
    BufferInv t := by
  unfold BufferInv at hb ⊢
  rw [h.2.2.2.1, h.2.2.1]
  exact hb

theorem mutexFree_of_engineEq {s t : OSSimulator} (h : EngineEq s t) (hm : MutexFree s) :
    MutexFree t := by
  unfold MutexFree at hm ⊢
  rw [h.2.2.2.2.2.2.2.1]
  exact hm

theorem bufInv_release {x : OSSimulator} (p : Process) (hb : BufferInv x) :
    BufferInv (x.release_mutex p) := by
  unfold OSSimulator.release_mutex
  split
  · exact hb
  · exact hb

theorem bufInv_pc_go {s : OSSimulator} {proc : Process} {action : ProcessAction}
    (hb : BufferInv s) : BufferInv (s.pc_go proc action) := by
  have hb' := hb
  unfold BufferInv at hb'
  unfold OSSimulator.pc_go
  split
  · split
    · rename_i hfull
      apply bufInv_release
      exact hb
    · rename_i hfull
      apply bufInv_release
      show BufferInv ({ s with
        buffer_slots := s.buffer_slots.set s.buffer_in (some proc.pid)
        buffer_in := (s.buffer_in + 1) % s.buffer_capacity
        buffer_count := s.buffer_count + 1 } : OSSimulator)
      show 0 ≤ s.buffer_count + 1 ∧ s.buffer_count + 1 ≤ (s.buffer_capacity : Int)
      omega
  · split
    · split
      · apply bufInv_release
        exact hb
      · rename_i hempty
        apply bufInv_release
        show 0 ≤ s.buffer_count - 1 ∧ s.buffer_count - 1 ≤ (s.buffer_capacity : Int)
        omega
    · exact bufInv_release proc hb

theorem bufInv_exec_pc {s : OSSimulator} {proc : Process} {action : ProcessAction}
    (hb : BufferInv s) : BufferInv (s.execute_pc_action proc action) := by
  unfold OSSimulator.execute_pc_action OSSimulator.with_mutex
  cases s.mutex_owner with
  | none =>
    simp only []
    split
    · rename_i h
      exact Bool.noConfusion h
    · exact bufInv_pc_go hb
  | some owner =>
    simp only []
    split
    · split
      · rename_i h
        exact Bool.noConfusion h
      · exact bufInv_pc_go hb
    · split
      · exact hb
      · rename_i h
        exact absurd rfl h

theorem bufInv_exec_resource {s : OSSimulator} {proc : Process} {action : ProcessAction}
    (hb : BufferInv s) : BufferInv (s.execute_resource_action proc action) := by
  unfold OSSimulator.execute_resource_action
  simp only []
  split
  · split
    · exact hb
    · exact hb
  · exact hb

theorem bufInv_exec_memory {s : OSSimulator} {proc : Process} {action : ProcessAction}
    (hb : BufferInv s) : BufferInv (s.execute_memory proc action) := by
  unfold BufferInv at hb ⊢
  rw [(execute_memory_frame s proc action).2.2.2.2.2.1,
    (execute_memory_frame s proc action).2.2.2.2.2.2.1]
  exact hb

theorem bufInv_run_tail {s : OSSimulator} {proc : Process} (hb : BufferInv s) :
    BufferInv (s.run_action_tail proc) := by
  unfold OSSimulator.run_action_tail
  simp only []
  split
  · exact hb
  · split
    · exact hb
    · exact hb

theorem bufInv_run_action {s : OSSimulator} {proc : Process} (hb : BufferInv s) :
    BufferInv (s.run_action proc) := by
  unfold OSSimulator.run_action
  cases proc.next_action with
  | none => exact hb
  | some action =>
    simp only []
    split
    · exact hb
    · split
      · split
        · exact hb
        · exact bufInv_run_tail hb
      · split
        · have hb2 : BufferInv ((s.log_event ("进程 " ++ toString proc.pid ++ "：" ++
              action.description)).execute_memory proc action) := bufInv_exec_memory hb
          split
          · exact hb2
          · exact bufInv_run_tail hb2
        · split
          · have hb2 : BufferInv ((s.log_event ("进程 " ++ toString proc.pid ++ "：" ++
                action.description)).execute_pc_action proc action) := bufInv_exec_pc hb
            split
            · exact hb2
            · exact bufInv_run_tail hb2
          · split
            · have hb2 : BufferInv ((s.log_event ("进程 " ++ toString proc.pid ++ "：" ++
                  action.description)).execute_file_action proc action) := hb
              split
              · exact hb2
              · exact bufInv_run_tail hb2
            · split
              · have hb2 : BufferInv ((s.log_event ("进程 " ++ toString proc.pid ++ "：" ++
                    action.description)).execute_resource_action proc action) :=
                  bufInv_exec_resource hb
                split
                · exact hb2
                · exact bufInv_run_tail hb2
              · have hb2 : BufferInv ((s.log_event ("进程 " ++ toString proc.pid ++ "：" ++
                    action.description)).log_event ("进程 " ++ toString proc.pid ++
                    " 执行未知操作 " ++ action.kind)) := hb
                split
                · exact hb2
                · exact bufInv_run_tail hb2

theorem bufInv_runPhase {s : OSSimulator} (hb : BufferInv s) : BufferInv (s.runPhase) := by
  unfold OSSimulator.runPhase
  cases s.running with
  | none => exact hb
  | some pid =>
    simp only []
    cases OSSimulator.getProc s pid with
    | none => exact hb
    | some proc => exact bufInv_run_action hb

/-- The bounded-buffer bound is preserved by every tick. -/
theorem bufferInv_step {s : OSSimulator} (hb : BufferInv s) : BufferInv (s.step) := by
  unfold OSSimulator.step
  simp only []
  have hb1 : BufferInv ((({ s with clock := s.clock + 1 } : OSSimulator).log_event
      "===== 时钟跳动 =====").admitArrivals) :=
    bufferInv_of_engineEq (engineEq_admitArrivals _) hb
  have hb2 := bufferInv_of_engineEq (engineEq_handle_blocked _) hb1
  have hb3 := bufferInv_of_engineEq (engineEq_dispatch _) hb2
  have hb4 := bufInv_runPhase hb3
  split
  · exact hb4
  · exact hb4
theorem release_mutex_of_owner {x : OSSimulator} {proc : Process}
    (h : x.mutex_owner = some proc.pid) : (x.release_mutex proc).mutex_owner = none := by
  unfold OSSimulator.release_mutex
  rw [if_pos h]

/-- Once the body runs with the mutex held by the acting process, every exit
path releases it. -/
theorem mutexFree_pc_go_of_owner {s : OSSimulator} {proc : Process} {action : ProcessAction}
    (hown : s.mutex_owner = some proc.pid) : MutexFree (s.pc_go proc action) := by
  unfold OSSimulator.pc_go
  split
  · split
    · exact release_mutex_of_owner hown
    · exact release_mutex_of_owner hown
  · split
    · split
      · exact release_mutex_of_owner hown
      · exact release_mutex_of_owner hown
    · exact release_mutex_of_owner hown

theorem mutexFree_exec_pc {s : OSSimulator} {proc : Process} {action : ProcessAction}
    (hm : MutexFree s) : MutexFree (s.execute_pc_action proc action) := by
  unfold OSSimulator.execute_pc_action OSSimulator.with_mutex
  unfold MutexFree at hm
  rw [hm]
  simp only []
  split
  · rename_i h
    exact Bool.noConfusion h
  · exact mutexFree_pc_go_of_owner rfl

theorem mutexFree_exec_resource {s : OSSimulator} {proc : Process} {action : ProcessAction}
    (hm : MutexFree s) : MutexFree (s.execute_resource_action proc action) := by
  unfold OSSimulator.execute_resource_action
  simp only []
  split
  · split
    · exact hm
    · exact hm
  · exact hm

theorem mutexFree_exec_memory {s : OSSimulator} {proc : Process} {action : ProcessAction}
    (hm : MutexFree s) : MutexFree (s.execute_memory proc action) := by
  unfold MutexFree at hm ⊢
  rw [(execute_memory_frame s proc action).2.2.2.2.2.2.2.2.2.2.1]
  exact hm

theorem mutexFree_run_tail {s : OSSimulator} {proc : Process} (hm : MutexFree s) :
    MutexFree (s.run_action_tail proc) := by
  unfold OSSimulator.run_action_tail
  simp only []
  split
  · exact hm
  · split
    · exact hm
    · exact hm

theorem mutexFree_run_action {s : OSSimulator} {proc : Process} (hm : MutexFree s) :
    MutexFree (s.run_action proc) := by
  unfold OSSimulator.run_action
  cases proc.next_action with
  | none => exact hm
  | some action =>
    simp only []
    split
    · exact hm
    · split
      · split
        · exact hm
        · exact mutexFree_run_tail hm
      · split
        · have hm2 : MutexFree ((s.log_event ("进程 " ++ toString proc.pid ++ "：" ++
              action.description)).execute_memory proc action) := mutexFree_exec_memory hm
          split
          · exact hm2
          · exact mutexFree_run_tail hm2
        · split
          · have hm2 : MutexFree ((s.log_event ("进程 " ++ toString proc.pid ++ "：" ++
                action.description)).execute_pc_action proc action) := mutexFree_exec_pc hm
            split
            · exact hm2
            · exact mutexFree_run_tail hm2
          · split
            · have hm2 : MutexFree ((s.log_event ("进程 " ++ toString proc.pid ++ "：" ++
                  action.description)).execute_file_action proc action) := hm
              split
              · exact hm2
              · exact mutexFree_run_tail hm2
            · split
              · have hm2 : MutexFree ((s.log_event ("进程 " ++ toString proc.pid ++ "：" ++
                    action.description)).execute_resource_action proc action) :=
                  mutexFree_exec_resource hm
                split
                · exact hm2
                · exact mutexFree_run_tail hm2
              · have hm2 : MutexFree ((s.log_event ("进程 " ++ toString proc.pid ++ "：" ++
                    action.description)).log_event ("进程 " ++ toString proc.pid ++
                    " 执行未知操作 " ++ action.kind)) := hm
                split
                · exact hm2
                · exact mutexFree_run_tail hm2

theorem mutexFree_runPhase {s : OSSimulator} (hm : MutexFree s) : MutexFree (s.runPhase) := by
  unfold OSSimulator.runPhase
  cases s.running with
  | none => exact hm
  | some pid =>
    simp only []
    cases OSSimulator.getProc s pid with
    | none => exact hm
    | some proc => exact mutexFree_run_action hm

/-- Between ticks the mutex is always free. -/
theorem mutexFree_step {s : OSSimulator} (hm : MutexFree s) : MutexFree (s.step) := by
  unfold OSSimulator.step
  simp only []
  have hm1 : MutexFree ((({ s with clock := s.clock + 1 } : OSSimulator).log_event
      "===== 时钟跳动 =====").admitArrivals) :=
    mutexFree_of_engineEq (engineEq_admitArrivals _) hm
  have hm2 := mutexFree_of_engineEq (engineEq_handle_blocked _) hm1
  have hm3 := mutexFree_of_engineEq (engineEq_dispatch _) hm2
  have hm4 := mutexFree_runPhase hm3
  split
  · exact hm4
  · exact hm4

theorem bufferInv_stepN : ∀ n, BufferInv (stepN simStart n) := by
  intro n
  induction n with
  | zero => exact ⟨by decide, by decide⟩
  | succ m ih => exact bufferInv_step ih

theorem mutexFree_stepN : ∀ n, MutexFree (stepN simStart n) := by
  intro n
  induction n with
  | zero => rfl
  | succ m ih => exact mutexFree_step ih
theorem length_filter_split {α : Type} (f : α → Bool) (l : List α) :
    (l.filter f).length + (l.filter (fun x => !(f x))).length = l.length := by
  induction l with
  | nil => rfl
  | cons hd tl ih =>
    rw [List.filter_cons, List.filter_cons]
    by_cases hf : f hd = true
    · rw [if_pos hf, if_neg (by simp [hf])]
      simp only [List.length_cons]
      omega
    · rw [if_neg hf, if_pos (by simp [Bool.not_eq_true] at hf ⊢; exact hf)]
      simp only [List.length_cons]
      omega

/-- The scheduler containers hold each arrived process exactly once, so their
total size plus the number of still-`New` processes is the pool size. -/
theorem bucket_partition {s : OSSimulator} (hInv : SimInv s) :
    (bucketPids s).length + newCount s = s.process_pool.length := by
  have hnodup : (bucketPids s).Nodup := by
    rw [List.nodup_iff_count_le_one]
    intro a
    rw [hInv.count_eq a]
    exact poolFlag_le_one s a
  have hnd2 : ((s.process_pool.filter (fun e => !(e.2.state == "New"))).map Prod.fst).Nodup := by
    refine List.Nodup.sublist ?_ hInv.keys_nodup
    exact List.Sublist.map Prod.fst (List.filter_sublist _)
  have hmemiff : ∀ pid, pid ∈ bucketPids s ↔
      pid ∈ (s.process_pool.filter (fun e => !(e.2.state == "New"))).map Prod.fst := by
    intro pid
    constructor
    · intro hmem
      have hpos := List.count_pos_iff_mem.mpr hmem
      rw [hInv.count_eq pid] at hpos
      unfold poolFlag at hpos
      rcases hl : alookup pid s.process_pool with _ | p
      · rw [hl] at hpos
        simp at hpos
      · rw [hl] at hpos
        simp only [] at hpos
        by_cases hst : p.state = "New"
        · rw [if_pos hst] at hpos
          omega
        · refine List.mem_map_of_mem Prod.fst (List.mem_filter.mpr ⟨mem_of_alookup hl, ?_⟩)
          simp [hst]
    · intro hmem
      obtain ⟨e, he, hfst⟩ := List.mem_map.mp hmem
      have he2 := List.mem_filter.mp he
      have hl : alookup e.1 s.process_pool = some e.2 :=
        alookup_of_mem_nodup hInv.keys_nodup he2.1
      have hst : e.2.state ≠ "New" := by
        have h3 := he2.2
        simp at h3
        exact h3
      have hflag : poolFlag s e.1 = 1 := by
        unfold poolFlag
        rw [hl]
        simp only []
        rw [if_neg hst]
      have hcnt := hInv.count_eq e.1
      rw [hflag] at hcnt
      rw [← hfst]
      exact List.count_pos_iff_mem.mp (by omega)
  have hperm : (bucketPids s).Perm
      ((s.process_pool.filter (fun e => !(e.2.state == "New"))).map Prod.fst) :=
    (List.perm_ext_iff_of_nodup hnodup hnd2).mpr hmemiff
  have hlen1 := hperm.length_eq
  rw [hlen1, List.length_map]
  unfold newCount
  have hsplit := length_filter_split (fun e : Nat × Process => e.2.state == "New")
    s.process_pool
  omega
theorem getD_set_ne {α : Type} (a d : α) : ∀ (l : List α) (m n : Nat), n ≠ m →
    (l.set m a).getD n d = l.getD n d := by
  intro l
  induction l with
  | nil => intro m n _; rfl
  | cons hd tl ih =>
    intro m n h
    cases m with
    | zero =>
      cases n with
      | zero => exact absurd rfl h
      | succ k => rfl
    | succ j =>
      cases n with
      | zero => rfl
      | succ k => exact ih j k (fun e => h (congrArg Nat.succ e))

theorem getD_set_self {α : Type} (a d : α) : ∀ (l : List α) (n : Nat), n < l.length →
    (l.set n a).getD n d = a := by
  intro l
  induction l with
  | nil => intro n h; simp at h
  | cons hd tl ih =>
    intro n h
    cases n with
    | zero => rfl
    | succ k =>
      refine ih k ?_
      simp only [List.length_cons] at h
      omega

theorem getD_replicate {α : Type} (x d : α) : ∀ (n f : Nat), f < n →
    (List.replicate n x).getD f d = x := by
  intro n
  induction n with
  | zero => intro f h; omega
  | succ m ih =>
    intro f h
    cases f with
    | zero => rfl
    | succ k => exact ih k (by omega)

theorem mem_aerase_sub {α β : Type} [DecidableEq α] {k : α} : ∀ {l : List (α × β)}
    {e : α × β}, e ∈ aerase k l → e ∈ l := by
  intro l
  induction l with
  | nil => intro e h; simpa [aerase] using h
  | cons hd rest ih =>
    intro e h
    unfold aerase at h
    by_cases hk : hd.1 = k
    · rw [if_pos hk] at h
      exact List.mem_cons_of_mem _ h
    · rw [if_neg hk] at h
      rcases List.mem_cons.mp h with h1 | h1
      · exact h1 ▸ List.mem_cons_self _ _
      · exact List.mem_cons_of_mem _ (ih h1)
/-- The key under which `access_page` files a process's page request. -/
def accessKey (process : Process) (page : Int) : Nat × Int :=
  (process.pid, page % max (process.memory_pages : Int) 1)

/-- Run a script of page accesses by one process against the memory manager,
collecting the evicted `(pid, page)` keys in order (`none` propagates the
error paths of `access_page`). -/
def runAccesses (process : Process) : MemoryManager → List Int →
    Option (MemoryManager × List (Nat × Int))
  | m, [] => some (m, [])
  | m, p :: ps =>
    match m.access_page process p with
    | none => none
    | some (m', _, _, _, ev) =>
      match runAccesses process m' ps with
      | none => none
      | some (mf, evs) =>
        some (mf, (match ev with | some k => [k] | none => []) ++ evs)

/-- FIFO state of the replacement machinery: walking the replacement queue
from its head reads first the free frames, then the resident keys oldest
first; `seen` collects every key ever filed in the reverse index. -/
structure FifoInv (F : Nat) (seen resident : List (Nat × Int)) (m : MemoryManager) : Prop where
  ft_len : m.frame_table.length = F
  q_nodup : m.replacement_queue.Nodup
  q_lt : ∀ f ∈ m.replacement_queue, f < F
  q_len : m.replacement_queue.length = F
  res_len : resident.length ≤ F
  content : m.replacement_queue.map (fun f => m.frame_table.getD f none) =
    List.replicate (F - resident.length) none ++ resident.map some
  loc_seen : ∀ e ∈ m.page_locations, e.1 ∈ seen

theorem fifoInv_make (F : Nat) : FifoInv F [] [] (MemoryManager.make F) := by
  refine ⟨?_, ?_, ?_, ?_, ?_, ?_, ?_⟩
  · simp [MemoryManager.make]
  · exact List.nodup_range F
  · intro f hf
    exact List.mem_range.mp hf
  · exact List.length_range F
  · exact Nat.zero_le F
  · rw [List.map_nil, List.append_nil, List.length_nil, Nat.sub_zero]
    refine List.eq_replicate.mpr ⟨by simp [MemoryManager.make], ?_⟩
    intro b hb
    obtain ⟨f, hf, hfb⟩ := List.mem_map.mp hb
    rw [← hfb]
    exact getD_replicate none none F f (List.mem_range.mp hf)
  · intro e he
    simp [MemoryManager.make] at he
/-- Strict FIFO replacement: running a script of fresh (never-seen, pairwise
distinct) page accesses always succeeds, evicts exactly the oldest residents
in order, and leaves the most recent keys resident in order. -/
theorem runAccesses_spec {process : Process} {F : Nat} (hF : 0 < F) :
    ∀ (pages : List Int) (m : MemoryManager) (seen resident : List (Nat × Int)),
      FifoInv F seen resident m →
      (∀ p ∈ pages, accessKey process p ∉ seen) →
      ((pages.map (accessKey process)).Nodup) →
      ∃ mf, runAccesses process m pages =
          some (mf, (resident ++ pages.map (accessKey process)).take
            (resident.length + pages.length - F)) ∧
        FifoInv F (seen ++ pages.map (accessKey process))
          ((resident ++ pages.map (accessKey process)).drop
            (resident.length + pages.length - F)) mf := by
  intro pages
  induction pages with
  | nil =>
    intro m seen resident hInv hfresh hnd
    have h0 : resident.length + ([] : List Int).length - F = 0 := by
      have h1 := hInv.res_len
      simp only [List.length_nil]
      omega
    refine ⟨m, ?_, ?_⟩
    · rw [List.map_nil, List.append_nil, h0, List.take_zero]
      rfl
    · rw [List.map_nil, List.append_nil, List.append_nil, h0, List.drop_zero]
      exact hInv
  | cons p ps ih =>
    intro m seen resident hInv hfresh hnd
    have hkey_fresh : accessKey process p ∉ seen := hfresh p (List.mem_cons_self _ _)
    have hmiss : alookup (accessKey process p) m.page_locations = none := by
      rcases hl : alookup (accessKey process p) m.page_locations with _ | fr
      · rfl
      · exact absurd (hInv.loc_seen _ (mem_of_alookup hl)) hkey_fresh
    rcases hq : m.replacement_queue with _ | ⟨f, rest⟩
    · exfalso
      have h1 := hInv.q_len
      rw [hq] at h1
      simp at h1
      omega
    have hflt : f < F := hInv.q_lt f (by rw [hq]; exact List.mem_cons_self _ _)
    have hfltlen : f < m.frame_table.length := by
      rw [hInv.ft_len]
      exact hflt
    rcases hft : m.frame_table.get? f with _ | ev0
    · exfalso
      rw [List.get?_eq_none] at hft
      omega
    have hcontent := hInv.content
    rw [hq, List.map_cons] at hcontent
    have hgf : m.frame_table.getD f none = ev0 := getD_of_get none hft
    have hqnodup := hInv.q_nodup
    rw [hq, List.nodup_cons] at hqnodup
    have hqlen : rest.length + 1 = F := by
      have h1 := hInv.q_len
      rw [hq] at h1
      simpa using h1
    have hrest_eq : rest.map
        (fun g => (m.frame_table.set f (some (accessKey process p))).getD g none) =
        rest.map (fun g => m.frame_table.getD g none) := by
      refine List.map_congr_left ?_
      intro x hx
      have hxf : x ≠ f := fun e => hqnodup.1 (e ▸ hx)
      exact getD_set_ne _ _ _ _ _ hxf
    have hgf' : (m.frame_table.set f (some (accessKey process p))).getD f none =
        some (accessKey process p) := getD_set_self _ _ _ _ hfltlen
    have hqnodup' : (rest ++ [f]).Nodup := by
      refine List.nodup_append.mpr ⟨hqnodup.2, List.nodup_singleton f, ?_⟩
      intro x hx hx2
      rw [List.mem_singleton] at hx2
      subst hx2
      exact hqnodup.1 hx
    have hqlt' : ∀ g ∈ rest ++ [f], g < F := by
      intro g hg
      rcases List.mem_append.mp hg with h3 | h3
      · exact hInv.q_lt g (by rw [hq]; exact List.mem_cons_of_mem _ h3)
      · rw [List.mem_singleton] at h3
        subst h3
        exact hflt
    have hqlen' : (rest ++ [f]).length = F := by
      simp only [List.length_append, List.length_singleton]
      omega
    have hfresh' : ∀ q ∈ ps, accessKey process q ∉ seen ++ [accessKey process p] := by
      intro q hqs hmem
      rcases List.mem_append.mp hmem with h3 | h3
      · exact hfresh q (List.mem_cons_of_mem _ hqs) h3
      · rw [List.mem_singleton] at h3
        have hnd2 := hnd
        rw [List.map_cons, List.nodup_cons] at hnd2
        exact hnd2.1 (h3 ▸ List.mem_map_of_mem _ hqs)
    have hnd' : (ps.map (accessKey process)).Nodup := by
      have hnd2 := hnd
      rw [List.map_cons, List.nodup_cons] at hnd2
      exact hnd2.2
    by_cases hrl : resident.length < F
    · -- a free frame is still available: no eviction
      have hrep : F - resident.length = (F - resident.length - 1) + 1 := by omega
      rw [hrep, List.replicate_succ, List.cons_append] at hcontent
      injection hcontent with h1 h2
      rw [hgf] at h1
      subst h1
      have haccess : m.access_page process p = some
          ({ m with
              frame_table := m.frame_table.set f (some (accessKey process p))
              page_locations := ainsert (accessKey process p) f m.page_locations
              replacement_queue := rest ++ [f]
              last_access := some f },
            { process with
              page_table := ainsert ((accessKey process p).2) f process.page_table },
            true, f, none) := by
        unfold MemoryManager.access_page
        simp only []
        rw [show alookup (process.pid, p % max ((process.memory_pages : Int)) 1)
            m.page_locations = none from hmiss]
        simp only []
        rw [hq]
        simp only []
        simp only [hft]
        rfl
      have hInv' : FifoInv F (seen ++ [accessKey process p])
          (resident ++ [accessKey process p])
          ({ m with
            frame_table := m.frame_table.set f (some (accessKey process p))
            page_locations := ainsert (accessKey process p) f m.page_locations
            replacement_queue := rest ++ [f]
            last_access := some f }) := by
        refine ⟨?_, hqnodup', hqlt', hqlen', ?_, ?_, ?_⟩
        · show (m.frame_table.set f (some (accessKey process p))).length = F
          rw [List.length_set]
          exact hInv.ft_len
        · simp only [List.length_append, List.length_singleton]
          omega
        · show (rest ++ [f]).map
            (fun g => (m.frame_table.set f (some (accessKey process p))).getD g none) = _
          rw [List.map_append, hrest_eq, h2]
          simp only [List.map_cons, List.map_nil]
          rw [hgf']
          rw [List.map_append]
          simp only [List.map_cons, List.map_nil]
          rw [List.append_assoc]
          have hidx : F - resident.length - 1 = F - (resident ++ [accessKey process p]).length := by
            simp only [List.length_append, List.length_singleton]
            omega
          rw [hidx]
        · intro e he
          rcases mem_ainsert he with h3 | h3
          · rw [h3]
            exact List.mem_append_right _ (List.mem_singleton.mpr rfl)
          · exact List.mem_append_left _ (hInv.loc_seen e h3)
      obtain ⟨mf, hrun, hInvf⟩ := ih _ (seen ++ [accessKey process p])
        (resident ++ [accessKey process p]) hInv' hfresh' hnd'
      have hlist : resident ++ List.map (accessKey process) (p :: ps) =
          (resident ++ [accessKey process p]) ++ ps.map (accessKey process) := by
        simp
      have hnum : resident.length + (p :: ps).length - F =
          (resident ++ [accessKey process p]).length + ps.length - F := by
        have h9 : resident.length + (p :: ps).length =
            (resident ++ [accessKey process p]).length + ps.length := by
          simp only [List.length_append, List.length_singleton, List.length_cons,
            List.length_nil]
          omega
        rw [h9]
      refine ⟨mf, ?_, ?_⟩
      · simp only [runAccesses]
        rw [haccess]
        simp only []
        rw [hrun]
        simp only []
        rw [List.nil_append, hlist, hnum]
      · rw [hlist, hnum]
        have hseen : seen ++ List.map (accessKey process) (p :: ps) =
            (seen ++ [accessKey process p]) ++ ps.map (accessKey process) := by
          simp
        rw [hseen]
        exact hInvf
    · -- all frames resident: the head frame holds the oldest key, which is evicted
      have hrleq : resident.length = F := by
        have h1 := hInv.res_len
        omega
      rcases hres : resident with _ | ⟨r0, rtail⟩
      · exfalso
        rw [hres] at hrleq
        simp at hrleq
        omega
      rw [hres] at hrleq
      rw [hres] at hcontent
      rw [show F - (r0 :: rtail).length = 0 from by rw [hrleq]; omega] at hcontent
      rw [List.replicate_zero, List.nil_append, List.map_cons] at hcontent
      injection hcontent with h1 h2
      rw [hgf] at h1
      subst h1
      have haccess : m.access_page process p = some
          ({ m with
              frame_table := m.frame_table.set f (some (accessKey process p))
              page_locations := ainsert (accessKey process p) f (aerase r0 m.page_locations)
              replacement_queue := rest ++ [f]
              last_access := some f },
            { process with
              page_table := ainsert ((accessKey process p).2) f process.page_table },
            true, f, some r0) := by
        unfold MemoryManager.access_page
        simp only []
        rw [show alookup (process.pid, p % max ((process.memory_pages : Int)) 1)
            m.page_locations = none from hmiss]
        simp only []
        rw [hq]
        simp only []
        simp only [hft]
        rfl
      have hrtlen : rtail.length + 1 = F := by
        simpa using hrleq
      have hInv' : FifoInv F (seen ++ [accessKey process p])
          (rtail ++ [accessKey process p])
          ({ m with
            frame_table := m.frame_table.set f (some (accessKey process p))
            page_locations := ainsert (accessKey process p) f (aerase r0 m.page_locations)
            replacement_queue := rest ++ [f]
            last_access := some f }) := by
        refine ⟨?_, hqnodup', hqlt', hqlen', ?_, ?_, ?_⟩
        · show (m.frame_table.set f (some (accessKey process p))).length = F
          rw [List.length_set]
          exact hInv.ft_len
        · simp only [List.length_append, List.length_singleton]
          omega
        · show (rest ++ [f]).map
            (fun g => (m.frame_table.set f (some (accessKey process p))).getD g none) = _
          rw [List.map_append, hrest_eq, h2]
          simp only [List.map_cons, List.map_nil]
          rw [hgf']
          rw [List.map_append]
          simp only [List.map_cons, List.map_nil]
          rw [show F - (rtail ++ [accessKey process p]).length = 0 from by
            simp only [List.length_append, List.length_singleton]
            omega]
          rw [List.replicate_zero, List.nil_append]
        · intro e he
          rcases mem_ainsert he with h3 | h3
          · rw [h3]
            exact List.mem_append_right _ (List.mem_singleton.mpr rfl)
          · exact List.mem_append_left _ (hInv.loc_seen e (mem_aerase_sub h3))
      obtain ⟨mf, hrun, hInvf⟩ := ih _ (seen ++ [accessKey process p])
        (rtail ++ [accessKey process p]) hInv' hfresh' hnd'
      have hlist : rtail ++ accessKey process p :: ps.map (accessKey process) =
          (rtail ++ [accessKey process p]) ++ ps.map (accessKey process) := by
        simp
      have hnum : (rtail ++ [accessKey process p]).length + ps.length - F = ps.length := by
        simp only [List.length_cons] at hrtlen
        have h9 : (rtail ++ [accessKey process p]).length = F := by
          simp only [List.length_append, List.length_singleton]
          omega
        rw [h9]
        omega
      have hnum2 : (r0 :: rtail).length + (p :: ps).length - F = ps.length + 1 := by
        simp only [List.length_cons] at hrleq ⊢
        omega
      have hseen : seen ++ accessKey process p :: ps.map (accessKey process) =
          (seen ++ [accessKey process p]) ++ ps.map (accessKey process) := by
        simp
      refine ⟨mf, ?_, ?_⟩
      · simp only [runAccesses]
        rw [haccess]
        simp only []
        rw [hrun]
        simp only []
        rw [hnum, List.map_cons, hnum2]
        rw [List.singleton_append, List.cons_append, List.take_succ_cons]
        rw [hlist]
      · rw [List.map_cons, hnum2, List.cons_append, List.drop_succ_cons, hlist]
        rw [hseen]
        rw [hnum] at hInvf
        exact hInvf
/-- `access_page` is total whenever the replacement queue is a permutation of
the frame indices and the frame table has full length: some frame is always
returned, and it is in range. -/
theorem access_page_total {m : MemoryManager} (process : Process) (page : Int)
    (hF : 0 < m.frames)
    (hft : m.frame_table.length = m.frames)
    (hperm : m.replacement_queue.Perm (List.range m.frames))
    (hloc : ∀ k f, alookup k m.page_locations = some f →
      m.frame_table.get? f = some (some k)) :
    ∃ m' proc' fault frame ev,
      m.access_page process page = some (m', proc', fault, frame, ev) ∧
      frame < m.frames := by
  rcases hl : alookup (process.pid, page % max ((process.memory_pages : Int)) 1)
      m.page_locations with _ | fr
  · rcases hq : m.replacement_queue with _ | ⟨f, rest⟩
    · exfalso
      have h1 := hperm.length_eq
      rw [hq, List.length_range] at h1
      simp at h1
      omega
    · have hfmem : f ∈ List.range m.frames :=
        hperm.mem_iff.mp (by rw [hq]; exact List.mem_cons_self _ _)
      have hflt : f < m.frames := List.mem_range.mp hfmem
      have hfltlen : f < m.frame_table.length := by
        rw [hft]
        exact hflt
      rcases hget : m.frame_table.get? f with _ | ev0
      · exfalso
        rw [List.get?_eq_none] at hget
        omega
      · exact ⟨_, _, _, f, ev0, by
          unfold MemoryManager.access_page
          simp only []
          rw [hl]
          simp only []
          rw [hq]
          simp only []
          simp only [hget]
          rfl, hflt⟩
  · have hfr := hloc _ _ hl
    have hlt : fr < m.frame_table.length := lt_length_of_get hfr
    exact ⟨_, _, _, fr, none, by
      unfold MemoryManager.access_page
      simp only []
      rw [hl], by rw [← hft]; exact hlt⟩
/-- The three-way page-mapping agreement (frame table, reverse index, private
page tables). -/
def MemAgree (s : OSSimulator) : Prop :=
  (∀ f k, s.memory.frame_table.get? f = some (some k) ↔
    alookup k s.memory.page_locations = some f) ∧
  (∀ pid page f, alookup (pid, page) s.memory.page_locations = some f →
    ∃ p, alookup pid s.process_pool = some p ∧ alookup page p.page_table = some f) ∧
  (∀ pid p page f, alookup pid s.process_pool = some p →
    alookup page p.page_table = some f →
    alookup (pid, page) s.memory.page_locations = some f)

theorem memAgree_of_simInv {s : OSSimulator} (hInv : SimInv s) : MemAgree s :=
  ⟨fun f k => ⟨hInv.frame_loc f k, hInv.loc_frame k f⟩, hInv.loc_pt, hInv.pt_loc⟩

/-- C1: at every tick, every pool pid whose process has arrived (state other
than `New`) sits in exactly one scheduler container, a still-`New` pid sits in
none, and container sizes plus the `New` count equal the pool size, which is
the six templates plus one spawned job per four ticks.  (Corrected from the
spec: a known pid that has not arrived yet is in no container at all.) -/
theorem C1_bucket_conservation : ∀ n : Nat,
    (∀ pid proc, alookup pid (stepN simStart n).process_pool = some proc →
      (proc.state ≠ "New" → (bucketPids (stepN simStart n)).count pid = 1) ∧
      (proc.state = "New" → (bucketPids (stepN simStart n)).count pid = 0)) ∧
    (bucketPids (stepN simStart n)).length + newCount (stepN simStart n) =
      (stepN simStart n).process_pool.length ∧
    (stepN simStart n).process_pool.length = default_templates.length + n / 4 := by
  intro n
  have hInv := simInv_stepN simInv_simStart n
  refine ⟨?_, bucket_partition hInv, ?_⟩
  · intro pid proc hl
    have hcnt := hInv.count_eq pid
    have hflag : poolFlag (stepN simStart n) pid =
        if proc.state = "New" then 0 else 1 := by
      unfold poolFlag
      rw [hl]
    constructor
    · intro hne
      rw [hcnt, hflag, if_neg hne]
    · intro he
      rw [hcnt, hflag, if_pos he]
  · have hsize := hInv.pool_size
    have hnp := stepN_next_pid n
    have hdt : default_templates.length = 6 := rfl
    omega

/-- C1 as the spec words it is false: after the first tick, pid 4 (备份程序,
arrival 3) is a known pool pid but sits in none of the containers. -/
theorem C1_counterexample :
    (alookup 4 (stepN simStart 1).process_pool).isSome = true ∧
    (bucketPids (stepN simStart 1)).count 4 = 0 := by decide

/-- C2: the frame table, the reverse index and the private page tables agree
at every tick, and still agree after any further `_execute_memory` call on a
pooled process. -/
theorem C2_memory_consistency : ∀ (n pid : Nat) (proc : Process) (action : ProcessAction),
    MemAgree (stepN simStart n) ∧
    (alookup pid (stepN simStart n).process_pool = some proc → pid = proc.pid →
      MemAgree ((stepN simStart n).execute_memory proc action)) := by
  intro n pid proc action
  have hInv := simInv_stepN simInv_simStart n
  refine ⟨memAgree_of_simInv hInv, ?_⟩
  intro hl hpid
  rw [hpid] at hl
  exact memAgree_of_simInv (simInv_execute_memory hInv hl)

/-- C3: `reset` restores the clock, the pool, all containers, the CPU, memory,
file system, log, buffer and mutex to the initial configuration — but it
leaves `shared_resources` exactly as it was (corrected from the spec, which
says the named resource counts are restored too). -/
theorem C3_reset_state : ∀ s : OSSimulator,
    (s.reset).clock = 0 ∧
    (s.reset).process_pool =
      s.templates.map (fun proc => (proc.pid, OSSimulator.clone_process proc)) ∧
    (s.reset).ready_queues = s.ready_queues.map (fun _ => []) ∧
    (s.reset).blocked = [] ∧
    (s.reset).finished = [] ∧
    (s.reset).running = none ∧
    (s.reset).memory = s.memory.reset ∧
    (s.reset).file_system = { files := [] } ∧
    (s.reset).event_log = [] ∧
    (s.reset).buffer_slots = List.replicate s.buffer_capacity none ∧
    (s.reset).buffer_in = 0 ∧
    (s.reset).buffer_out = 0 ∧
    (s.reset).buffer_count = 0 ∧
    (s.reset).mutex_owner = none ∧
    (s.reset).next_pid = s.templates.length + 1 ∧
    (s.reset).shared_resources = s.shared_resources :=
  fun _ => ⟨rfl, rfl, rfl, rfl, rfl, rfl, rfl, rfl, rfl, rfl, rfl, rfl, rfl, rfl, rfl, rfl⟩

/-- Counterexample to the spec's "resource counts restored": on a state whose
磁带机 count has been consumed, `reset` keeps the consumed count instead of
restoring the initial `磁带机 1`. -/
theorem C3_counterexample :
    ((({ initSim with shared_resources := [("磁带机", 0), ("GPU", 1), ("打印机", 2)] }
        : OSSimulator).reset).shared_resources =
      [("磁带机", 0), ("GPU", 1), ("打印机", 2)]) ∧
    initSim.shared_resources = [("磁带机", 1), ("GPU", 1), ("打印机", 2)] :=
  ⟨rfl, rfl⟩

/-- C4: the `ProcessAction` dataclass of src/simulator/models.py declares no
`resource` field, yet both the fixed and the dynamic templates construct
`res_*` actions that pass a resource payload — the keyword call the source
makes is rejected by the dataclass. -/
theorem C4_missing_resource_field :
    dataclassAcceptsKwargs processActionFieldNames ["kind", "description", "resource"] = false ∧
    (∃ p ∈ default_templates, ∃ a ∈ p.actions, a.resource.isSome) ∧
    (∃ acts ∈ dynamic_templates_def, ∃ a ∈ acts, a.resource.isSome) := by decide

/-- C10: creating a file at an existing path changes nothing — the file table
and the old entry survive untouched — although the returned message claims
the old data was overwritten. -/
theorem C10_create_existing : ∀ (fs : FileSystem) (path : String) (owner : Nat) (size : Int)
    (entry : FileEntry), alookup path fs.files = some entry →
    (fs.create path owner size).1 = fs ∧
    (fs.create path owner size).2 = "文件 " ++ path ++ " 已存在，覆盖旧数据。" ∧
    alookup path (fs.create path owner size).1.files = some entry := by
  intro fs path owner size entry h
  unfold FileSystem.create
  rw [h]
  exact ⟨rfl, rfl, h⟩

theorem C10_witness :
    (({ files := [("/a", { owner := 1, size := 2, content := "xx" })] } : FileSystem).create
        "/a" 9 7).1 = ({ files := [("/a", { owner := 1, size := 2, content := "xx" })] }
        : FileSystem) ∧
    (({ files := [("/a", { owner := 1, size := 2, content := "xx" })] } : FileSystem).create
        "/a" 9 7).2 = "文件 " ++ "/a" ++ " 已存在，覆盖旧数据。" ∧
    alookup "/a" (({ files := [("/a", { owner := 1, size := 2, content := "xx" })] }
        : FileSystem).create "/a" 9 7).1.files =
      some { owner := 1, size := 2, content := "xx" } :=
  C10_create_existing _ "/a" 9 7 _ (by decide)
/-- C6: over a script of pairwise-distinct fresh accesses, the evicted keys
are exactly the oldest installed keys in installation order (strict FIFO);
moreover, for any single access, a hit leaves the replacement order untouched
and a miss always evicts the head of the replacement queue and re-appends that
frame at the tail, independent of recency of use. -/
theorem C6_fifo_replacement : ∀ (process : Process) (F : Nat) (pages : List Int)
    (m : MemoryManager) (page : Int),
    (0 < F → (pages.map (accessKey process)).Nodup →
      ∃ mf, runAccesses process (MemoryManager.make F) pages =
        some (mf, (pages.map (accessKey process)).take (pages.length - F))) ∧
    (∀ m2 pr2 fl2 fx ev, m.access_page process page = some (m2, pr2, fl2, fx, ev) →
      ((alookup (accessKey process page) m.page_locations).isSome = true →
        m2.replacement_queue = m.replacement_queue) ∧
      (alookup (accessKey process page) m.page_locations = none →
        ∃ rest, m.replacement_queue = fx :: rest ∧
          m2.replacement_queue = rest ++ [fx])) := by
  intro process F pages m page
  constructor
  · intro hF hnd
    obtain ⟨mf, hrun, _⟩ := runAccesses_spec hF pages (MemoryManager.make F) [] []
      (fifoInv_make F) (fun p _ => List.not_mem_nil _) hnd
    refine ⟨mf, ?_⟩
    rw [hrun, List.nil_append, List.length_nil, Nat.zero_add]
  · intro m2 pr2 fl2 fx ev h
    rcases access_page_inv h with ⟨fr2, hl, hout⟩ | ⟨fr2, rest, evicted, hl, hq, hf, hout⟩
    · rw [Prod.mk.injEq] at hout
      obtain ⟨hm2, hout⟩ := hout
      rw [Prod.mk.injEq] at hout
      obtain ⟨hpr2, hout⟩ := hout
      rw [Prod.mk.injEq] at hout
      obtain ⟨hfl2, hout⟩ := hout
      rw [Prod.mk.injEq] at hout
      obtain ⟨hfx, hev⟩ := hout
      constructor
      · intro _
        rw [hm2]
      · intro hnone
        have hnone' : alookup (process.pid, page % max ((process.memory_pages : Int)) 1)
            m.page_locations = none := hnone
        rw [hl] at hnone'
        cases hnone'
    · rw [Prod.mk.injEq] at hout
      obtain ⟨hm2, hout⟩ := hout
      rw [Prod.mk.injEq] at hout
      obtain ⟨hpr2, hout⟩ := hout
      rw [Prod.mk.injEq] at hout
      obtain ⟨hfl2, hout⟩ := hout
      rw [Prod.mk.injEq] at hout
      obtain ⟨hfx, hev⟩ := hout
      constructor
      · intro hsome
        have hsome' : (alookup (process.pid, page % max ((process.memory_pages : Int)) 1)
            m.page_locations).isSome = true := hsome
        rw [hl] at hsome'
        cases hsome'
      · intro _
        refine ⟨rest, ?_, ?_⟩
        · rw [hfx]
          exact hq
        · rw [hm2, hfx]
theorem get?_set_self {α : Type} (a : α) : ∀ (l : List α) (n : Nat), n < l.length →
    (l.set n a).get? n = some a := by
  intro l
  induction l with
  | nil =>
    intro n h
    exact absurd h (Nat.not_lt_zero n)
  | cons x t ih =>
    intro n h
    cases n with
    | zero => rfl
    | succ k => exact ih k (Nat.lt_of_succ_lt_succ h)

/-- C8: `access_page` is total.  For any well-formed memory state (full-length
frame table, replacement queue a permutation of the frames, reverse index
backed by the frame table), every access by any process to any integer page —
in or out of range — succeeds, returns a frame below `frames`, and acts on the
page number normalized modulo `max(memory_pages, 1)`: a hit finds the
normalized key resident, and a fault installs the normalized key into the
frame popped from the FIFO head. -/
theorem C8_access_total (m : MemoryManager) (process : Process) (page : Int)
    (hF : 0 < m.frames)
    (hft : m.frame_table.length = m.frames)
    (hperm : m.replacement_queue.Perm (List.range m.frames))
    (hloc : ∀ k f, alookup k m.page_locations = some f →
      m.frame_table.get? f = some (some k)) :
    ∃ m' proc' fault frame ev,
      m.access_page process page = some (m', proc', fault, frame, ev) ∧
      frame < m.frames ∧
      (fault = false →
        alookup (process.pid, page % max ((process.memory_pages : Int)) 1)
          m.page_locations = some frame ∧
        m'.replacement_queue = m.replacement_queue) ∧
      (fault = true →
        m'.frame_table.get? frame =
          some (some (process.pid, page % max ((process.memory_pages : Int)) 1)) ∧
        ∃ rest, m.replacement_queue = frame :: rest) := by
  obtain ⟨m', proc', fault, frame, ev, hacc, hflt⟩ :=
    access_page_total process page hF hft hperm hloc
  rcases access_page_inv hacc with ⟨fr2, hl, hout⟩ | ⟨fr2, rest, evicted, hl, hq, hfr, hout⟩
  · rw [Prod.mk.injEq] at hout
    obtain ⟨hm', hout⟩ := hout
    rw [Prod.mk.injEq] at hout
    obtain ⟨hpr', hout⟩ := hout
    rw [Prod.mk.injEq] at hout
    obtain ⟨hfault, hout⟩ := hout
    rw [Prod.mk.injEq] at hout
    obtain ⟨hfx, hev⟩ := hout
    refine ⟨m', proc', fault, frame, ev, hacc, hflt, ?_, ?_⟩
    · intro _
      constructor
      · rw [hfx]
        exact hl
      · rw [hm']
    · intro hft1
      rw [hfault] at hft1
      exact Bool.noConfusion hft1
  · rw [Prod.mk.injEq] at hout
    obtain ⟨hm', hout⟩ := hout
    rw [Prod.mk.injEq] at hout
    obtain ⟨hpr', hout⟩ := hout
    rw [Prod.mk.injEq] at hout
    obtain ⟨hfault, hout⟩ := hout
    rw [Prod.mk.injEq] at hout
    obtain ⟨hfx, hev⟩ := hout
    refine ⟨m', proc', fault, frame, ev, hacc, hflt, ?_, ?_⟩
    · intro hf0
      rw [hfault] at hf0
      exact Bool.noConfusion hf0
    · intro _
      constructor
      · rw [hm', hfx]
        apply get?_set_self
        rw [hft]
        rw [hfx] at hflt
        exact hflt
      · refine ⟨rest, ?_⟩
        rw [hfx]
        exact hq
def wproc : Process :=
  { pid := 1, name := "w", arrival_time := 0, actions := [], memory_pages := 3 }

theorem C8_witness :
    ∃ m' proc' fault frame ev,
      (MemoryManager.make 2).access_page wproc (-7) = some (m', proc', fault, frame, ev) ∧
      frame < (MemoryManager.make 2).frames ∧
      (fault = false →
        alookup (wproc.pid, (-7) % max ((wproc.memory_pages : Int)) 1)
          (MemoryManager.make 2).page_locations = some frame ∧
        m'.replacement_queue = (MemoryManager.make 2).replacement_queue) ∧
      (fault = true →
        m'.frame_table.get? frame =
          some (some (wproc.pid, (-7) % max ((wproc.memory_pages : Int)) 1)) ∧
        ∃ rest, (MemoryManager.make 2).replacement_queue = frame :: rest) :=
  C8_access_total (MemoryManager.make 2) wproc (-7)
    (by decide) (by decide) (List.Perm.refl _) (fun k f h => Option.noConfusion h)
/-- The bounded-buffer portion of the engine state: count, slot ownership
markers and the circular in/out pointers. -/
def bufferState (s : OSSimulator) : Int × List (Option Nat) × Nat × Nat :=
  (s.buffer_count, s.buffer_slots, s.buffer_in, s.buffer_out)

theorem block_release_bufferState (x : OSSimulator) (p q : Process) (r : String) :
    bufferState ((x.release_mutex p).block_reason q r) = bufferState x := by
  unfold OSSimulator.release_mutex
  split <;> rfl

/-- A `produce` attempt on a full buffer: acquire the free mutex, release it
and block with reason 等待空槽. -/
theorem pc_fail_produce {x : OSSimulator} {proc : Process} {action : ProcessAction}
    (hm : x.mutex_owner = none) (hk : action.kind = "produce")
    (hfull : x.buffer_count ≥ (x.buffer_capacity : Int)) :
    x.execute_pc_action proc action =
      ((({ x with mutex_owner := some proc.pid }).release_mutex proc).block_reason proc
        "等待空槽") := by
  unfold OSSimulator.execute_pc_action OSSimulator.with_mutex
  rw [hm]
  simp only []
  rw [if_neg (fun h => Bool.noConfusion h)]
  show ({ x with mutex_owner := some proc.pid }).pc_go proc action = _
  unfold OSSimulator.pc_go
  rw [if_pos hk]
  rw [if_pos (show ({ x with mutex_owner := some proc.pid } : OSSimulator).buffer_count ≥
    ((({ x with mutex_owner := some proc.pid } : OSSimulator).buffer_capacity : Int))
    from hfull)]

/-- A `consume` attempt on an empty buffer: acquire the free mutex, release it
and block with reason 等待产品. -/
theorem pc_fail_consume {x : OSSimulator} {proc : Process} {action : ProcessAction}
    (hm : x.mutex_owner = none) (hk : action.kind = "consume")
    (hempty : x.buffer_count ≤ 0) :
    x.execute_pc_action proc action =
      ((({ x with mutex_owner := some proc.pid }).release_mutex proc).block_reason proc
        "等待产品") := by
  unfold OSSimulator.execute_pc_action OSSimulator.with_mutex
  rw [hm]
  simp only []
  rw [if_neg (fun h => Bool.noConfusion h)]
  show ({ x with mutex_owner := some proc.pid }).pc_go proc action = _
  unfold OSSimulator.pc_go
  rw [if_neg (show ¬action.kind = "produce" by rw [hk]; decide)]
  rw [if_pos hk]
  rw [if_pos (show ({ x with mutex_owner := some proc.pid } : OSSimulator).buffer_count ≤ 0
    from hempty)]

/-- A produce/consume attempt while another pid holds the mutex: block with
reason 等待互斥锁, state otherwise untouched. -/
theorem pc_fail_mutex {x : OSSimulator} {proc : Process} {action : ProcessAction} {owner : Nat}
    (hm : x.mutex_owner = some owner) (hne : owner ≠ proc.pid) :
    x.execute_pc_action proc action = x.block_reason proc "等待互斥锁" := by
  unfold OSSimulator.execute_pc_action OSSimulator.with_mutex
  rw [hm]
  simp only []
  rw [if_neg hne]
  exact if_pos rfl

/-- C5: in every reachable state the buffer count stays within
`[0, capacity]`; a `produce` attempted when the buffer is full leaves the
buffer (count, slots, pointers) untouched and blocks the producer with reason
等待空槽, and a `consume` attempted when the buffer is empty leaves the buffer
untouched and blocks the consumer with reason 等待产品. -/
theorem C5_buffer_bounds : ∀ (n : Nat) (proc : Process) (action : ProcessAction),
    (0 ≤ (stepN simStart n).buffer_count ∧
      (stepN simStart n).buffer_count ≤ ((stepN simStart n).buffer_capacity : Int)) ∧
    (action.kind = "produce" →
      (stepN simStart n).buffer_count ≥ ((stepN simStart n).buffer_capacity : Int) →
      bufferState ((stepN simStart n).execute_pc_action proc action) =
        bufferState (stepN simStart n) ∧
      ((stepN simStart n).execute_pc_action proc action).getProc proc.pid =
        some (proc.mark_wait "等待空槽")) ∧
    (action.kind = "consume" →
      (stepN simStart n).buffer_count ≤ 0 →
      bufferState ((stepN simStart n).execute_pc_action proc action) =
        bufferState (stepN simStart n) ∧
      ((stepN simStart n).execute_pc_action proc action).getProc proc.pid =
        some (proc.mark_wait "等待产品")) := by
  intro n proc action
  have hb := bufferInv_stepN n
  have hm := mutexFree_stepN n
  refine ⟨⟨hb.1, hb.2⟩, ?_, ?_⟩
  · intro hk hfull
    rw [pc_fail_produce hm hk hfull]
    constructor
    · rw [block_release_bufferState]
      rfl
    · exact block_reason_getProc _ _ _
  · intro hk hempty
    rw [pc_fail_consume hm hk hempty]
    constructor
    · rw [block_release_bufferState]
      rfl
    · exact block_reason_getProc _ _ _
/-- The synchronization-engine state: buffer count, slots, in/out pointers,
mutex owner and resource counts. -/
def engineState (s : OSSimulator) :
    Int × List (Option Nat) × Nat × Nat × Option Nat × List (String × Int) :=
  (s.buffer_count, s.buffer_slots, s.buffer_in, s.buffer_out, s.mutex_owner,
    s.shared_resources)

theorem block_engineState (x : OSSimulator) (q : Process) (r : String) :
    engineState (x.block_reason q r) = engineState x := rfl

/-- Acquiring the free mutex, releasing it and blocking leaves the engine
state as it was. -/
theorem fail_block_engineState {x : OSSimulator} (p q : Process) (r : String)
    (hm : x.mutex_owner = none) :
    engineState ((({ x with mutex_owner := some p.pid }).release_mutex p).block_reason q r) =
      engineState x := by
  unfold OSSimulator.release_mutex
  rw [if_pos rfl]
  show (x.buffer_count, x.buffer_slots, x.buffer_in, x.buffer_out, (none : Option Nat),
    x.shared_resources) = engineState x
  rw [← hm]
  rfl

/-- A `res_acquire` on an exhausted counter only blocks the process. -/
theorem res_acquire_fail {x : OSSimulator} {proc : Process} {action : ProcessAction}
    (hk : action.kind = "res_acquire")
    (hres : (alookup (resourceName action) x.shared_resources).getD 0 ≤ 0) :
    x.execute_resource_action proc action =
      x.block_reason proc ("等待资源" ++ resourceName action) := by
  unfold OSSimulator.execute_resource_action
  simp only []
  rw [if_pos hk, if_pos hres]

/-- `_run_action` on a `produce` with the buffer full: log the action header,
then block with 等待空槽 — the cursor/quantum tail is skipped. -/
theorem run_action_produce_full {x : OSSimulator} {proc : Process} {action : ProcessAction}
    (hna : proc.next_action = some action) (hk : action.kind = "produce")
    (hm : x.mutex_owner = none)
    (hfull : x.buffer_count ≥ (x.buffer_capacity : Int)) :
    x.run_action proc =
      ((({ (x.log_event ("进程 " ++ toString proc.pid ++ "：" ++ action.description)) with
          mutex_owner := some proc.pid }).release_mutex proc).block_reason proc
        "等待空槽") := by
  unfold OSSimulator.run_action
  rw [hna]
  simp only []
  rw [if_neg (show ¬action.kind = "io" by rw [hk]; decide)]
  rw [if_neg (show ¬action.kind = "cpu" by rw [hk]; decide)]
  rw [if_neg (show ¬action.kind = "mem" by rw [hk]; decide)]
  rw [if_pos (show action.kind = "produce" ∨ action.kind = "consume" from Or.inl hk)]
  rw [pc_fail_produce
    (show ((x.log_event ("进程 " ++ toString proc.pid ++ "：" ++ action.description))
      : OSSimulator).mutex_owner = none from hm) hk
    (show ((x.log_event ("进程 " ++ toString proc.pid ++ "：" ++ action.description))
        : OSSimulator).buffer_count ≥
      (((x.log_event ("进程 " ++ toString proc.pid ++ "：" ++ action.description))
        : OSSimulator).buffer_capacity : Int) from hfull)]
  rw [block_reason_getProc, Option.getD_some]
  rw [if_pos (show (action.kind = "produce" ∨ action.kind = "consume" ∨
    strStartsWith action.kind "res_" = true) ∧
    (proc.mark_wait "等待空槽").state = "Blocked" from ⟨Or.inl hk, rfl⟩)]

/-- `_run_action` on a `consume` with the buffer empty: log the action header,
then block with 等待产品 — the cursor/quantum tail is skipped. -/
theorem run_action_consume_empty {x : OSSimulator} {proc : Process} {action : ProcessAction}
    (hna : proc.next_action = some action) (hk : action.kind = "consume")
    (hm : x.mutex_owner = none)
    (hempty : x.buffer_count ≤ 0) :
    x.run_action proc =
      ((({ (x.log_event ("进程 " ++ toString proc.pid ++ "：" ++ action.description)) with
          mutex_owner := some proc.pid }).release_mutex proc).block_reason proc
        "等待产品") := by
  unfold OSSimulator.run_action
  rw [hna]
  simp only []
  rw [if_neg (show ¬action.kind = "io" by rw [hk]; decide)]
  rw [if_neg (show ¬action.kind = "cpu" by rw [hk]; decide)]
  rw [if_neg (show ¬action.kind = "mem" by rw [hk]; decide)]
  rw [if_pos (show action.kind = "produce" ∨ action.kind = "consume" from Or.inr hk)]
  rw [pc_fail_consume
    (show ((x.log_event ("进程 " ++ toString proc.pid ++ "：" ++ action.description))
      : OSSimulator).mutex_owner = none from hm) hk
    (show ((x.log_event ("进程 " ++ toString proc.pid ++ "：" ++ action.description))
      : OSSimulator).buffer_count ≤ 0 from hempty)]
  rw [block_reason_getProc, Option.getD_some]
  rw [if_pos (show (action.kind = "produce" ∨ action.kind = "consume" ∨
    strStartsWith action.kind "res_" = true) ∧
    (proc.mark_wait "等待产品").state = "Blocked" from ⟨Or.inr (Or.inl hk), rfl⟩)]

/-- `_run_action` on a `res_acquire` whose counter is exhausted: log the
action header, then block with 等待资源 — the cursor/quantum tail is
skipped. -/
theorem run_action_res_unavailable {x : OSSimulator} {proc : Process} {action : ProcessAction}
    (hna : proc.next_action = some action) (hk : action.kind = "res_acquire")
    (hres : (alookup (resourceName action) x.shared_resources).getD 0 ≤ 0) :
    x.run_action proc =
      ((x.log_event ("进程 " ++ toString proc.pid ++ "：" ++ action.description)).block_reason
        proc ("等待资源" ++ resourceName action)) := by
  unfold OSSimulator.run_action
  rw [hna]
  simp only []
  rw [if_neg (show ¬action.kind = "io" by rw [hk]; decide)]
  rw [if_neg (show ¬action.kind = "cpu" by rw [hk]; decide)]
  rw [if_neg (show ¬action.kind = "mem" by rw [hk]; decide)]
  rw [if_neg (show ¬(action.kind = "produce" ∨ action.kind = "consume") by rw [hk]; decide)]
  rw [if_neg (show ¬(strStartsWith action.kind "file" = true) by rw [hk]; decide)]
  rw [if_pos (show strStartsWith action.kind "res_" = true by rw [hk]; decide)]
  rw [res_acquire_fail hk
    (show (alookup (resourceName action)
      ((x.log_event ("进程 " ++ toString proc.pid ++ "：" ++ action.description))
        : OSSimulator).shared_resources).getD 0 ≤ 0 from hres)]
  rw [block_reason_getProc, Option.getD_some]
  rw [if_pos (show (action.kind = "produce" ∨ action.kind = "consume" ∨
    strStartsWith action.kind "res_" = true) ∧
    (proc.mark_wait ("等待资源" ++ resourceName action)).state = "Blocked" from
    ⟨Or.inr (Or.inr (by rw [hk]; decide)), rfl⟩)]

/-- C7: a failed `produce` (buffer full), `consume` (buffer empty) or
`res_acquire` (counter exhausted) blocks the process with the matching reason
and leaves the whole engine state (buffer count/slots/pointers, mutex owner,
resource counts) untouched; `mark_wait` keeps the cursor, so the same action
is retried on wake; and a produce/consume attempted while another pid holds
the mutex likewise blocks with 等待互斥锁 and changes nothing. -/
theorem C7_failed_sync_atomic : ∀ (n : Nat) (proc : Process) (action : ProcessAction)
    (s2 : OSSimulator) (owner : Nat),
    (proc.next_action = some action →
      ((action.kind = "produce" →
        (stepN simStart n).buffer_count ≥ ((stepN simStart n).buffer_capacity : Int) →
        engineState ((stepN simStart n).run_action proc) = engineState (stepN simStart n) ∧
        ((stepN simStart n).run_action proc).getProc proc.pid =
          some (proc.mark_wait "等待空槽")) ∧
      (action.kind = "consume" →
        (stepN simStart n).buffer_count ≤ 0 →
        engineState ((stepN simStart n).run_action proc) = engineState (stepN simStart n) ∧
        ((stepN simStart n).run_action proc).getProc proc.pid =
          some (proc.mark_wait "等待产品")) ∧
      (action.kind = "res_acquire" →
        (alookup (resourceName action) (stepN simStart n).shared_resources).getD 0 ≤ 0 →
        engineState ((stepN simStart n).run_action proc) = engineState (stepN simStart n) ∧
        ((stepN simStart n).run_action proc).getProc proc.pid =
          some (proc.mark_wait ("等待资源" ++ resourceName action))))) ∧
    (∀ r : String, (proc.mark_wait r).pointer = proc.pointer ∧
      (proc.mark_wait r).next_action = proc.next_action) ∧
    (s2.mutex_owner = some owner → owner ≠ proc.pid →
      engineState (s2.execute_pc_action proc action) = engineState s2 ∧
      (s2.execute_pc_action proc action).getProc proc.pid =
        some (proc.mark_wait "等待互斥锁")) := by
  intro n proc action s2 owner
  refine ⟨?_, fun r => ⟨rfl, rfl⟩, ?_⟩
  · intro hna
    refine ⟨?_, ?_, ?_⟩
    · intro hk hfull
      rw [run_action_produce_full hna hk (mutexFree_stepN n) hfull]
      constructor
      · rw [fail_block_engineState proc proc "等待空槽"
          (show (((stepN simStart n).log_event
            ("进程 " ++ toString proc.pid ++ "：" ++ action.description))
            : OSSimulator).mutex_owner = none from mutexFree_stepN n)]
        rfl
      · exact block_reason_getProc _ _ _
    · intro hk hempty
      rw [run_action_consume_empty hna hk (mutexFree_stepN n) hempty]
      constructor
      · rw [fail_block_engineState proc proc "等待产品"
          (show (((stepN simStart n).log_event
            ("进程 " ++ toString proc.pid ++ "：" ++ action.description))
            : OSSimulator).mutex_owner = none from mutexFree_stepN n)]
        rfl
      · exact block_reason_getProc _ _ _
    · intro hk hres
      rw [run_action_res_unavailable hna hk hres]
      constructor
      · rw [block_engineState]
        rfl
      · exact block_reason_getProc _ _ _
  · intro hm hne
    rw [pc_fail_mutex hm hne]
    exact ⟨block_engineState _ _ _, block_reason_getProc _ _ _⟩
/-- `y` extends `x`'s blocked list on the right (nothing ever leaves the
blocked list during the dispatch/run phase of a tick). -/
def BlockedExt (x y : OSSimulator) : Prop := ∃ l, y.blocked = x.blocked ++ l

theorem blockedExt_rfl (x : OSSimulator) : BlockedExt x x :=
  ⟨[], (List.append_nil _).symm⟩

theorem blockedExt_of_eq {x y : OSSimulator} (h : y.blocked = x.blocked) : BlockedExt x y :=
  ⟨[], by rw [h, List.append_nil]⟩

theorem blockedExt_trans {x y z : OSSimulator} : BlockedExt x y → BlockedExt y z →
    BlockedExt x z := by
  intro h1 h2
  obtain ⟨l1, e1⟩ := h1
  obtain ⟨l2, e2⟩ := h2
  exact ⟨l1 ++ l2, by rw [e2, e1, List.append_assoc]⟩

theorem block_blockedExt (x : OSSimulator) (p : Process) (d : Int) :
    BlockedExt x (x.block p d) := ⟨[p.pid], rfl⟩

theorem block_reason_blockedExt (x : OSSimulator) (p : Process) (r : String) :
    BlockedExt x (x.block_reason p r) := ⟨[p.pid], rfl⟩

theorem release_mutex_blocked (x : OSSimulator) (p : Process) :
    (x.release_mutex p).blocked = x.blocked := by
  unfold OSSimulator.release_mutex
  split <;> rfl

theorem with_mutex_blockedExt (x : OSSimulator) (p : Process) :
    BlockedExt x (x.with_mutex p).1 := by
  unfold OSSimulator.with_mutex
  split
  · exact blockedExt_of_eq rfl
  · split
    · exact blockedExt_of_eq rfl
    · exact block_reason_blockedExt x p _

theorem pc_go_blockedExt (x : OSSimulator) (p : Process) (a : ProcessAction) :
    BlockedExt x (x.pc_go p a) := by
  unfold OSSimulator.pc_go
  split
  · split
    · exact blockedExt_trans (blockedExt_of_eq (release_mutex_blocked x p))
        (block_reason_blockedExt _ _ _)
    · exact blockedExt_of_eq (by rw [release_mutex_blocked]; rfl)
  · split
    · split
      · exact blockedExt_trans (blockedExt_of_eq (release_mutex_blocked x p))
          (block_reason_blockedExt _ _ _)
      · exact blockedExt_of_eq (by rw [release_mutex_blocked]; rfl)
    · exact blockedExt_of_eq (release_mutex_blocked x p)

theorem execute_pc_blockedExt (x : OSSimulator) (p : Process) (a : ProcessAction) :
    BlockedExt x (x.execute_pc_action p a) := by
  unfold OSSimulator.execute_pc_action
  simp only []
  split
  · exact with_mutex_blockedExt x p
  · exact blockedExt_trans (with_mutex_blockedExt x p) (pc_go_blockedExt _ p a)

theorem execute_memory_blocked (x : OSSimulator) (p : Process) (a : ProcessAction) :
    (x.execute_memory p a).blocked = x.blocked := by
  unfold OSSimulator.execute_memory
  split
  · rfl
  · simp only []
    split
    · split
      · split <;> rfl
      · rfl
    · rfl

theorem execute_resource_blockedExt (x : OSSimulator) (p : Process) (a : ProcessAction) :
    BlockedExt x (x.execute_resource_action p a) := by
  unfold OSSimulator.execute_resource_action
  simp only []
  split
  · split
    · exact block_reason_blockedExt x p _
    · exact blockedExt_of_eq rfl
  · exact blockedExt_of_eq rfl

theorem execute_file_blocked (x : OSSimulator) (p : Process) (a : ProcessAction) :
    (x.execute_file_action p a).blocked = x.blocked := rfl

theorem run_action_tail_blocked (x : OSSimulator) (p : Process) :
    (x.run_action_tail p).blocked = x.blocked := by
  unfold OSSimulator.run_action_tail
  simp only []
  split
  · rfl
  · split <;> rfl

theorem effect_blockedExt (x : OSSimulator) (proc : Process) (action : ProcessAction) :
    BlockedExt x (if action.kind = "cpu" then x
      else if action.kind = "mem" then x.execute_memory proc action
      else if action.kind = "produce" ∨ action.kind = "consume" then
        x.execute_pc_action proc action
      else if strStartsWith action.kind "file" then x.execute_file_action proc action
      else if strStartsWith action.kind "res_" then
        x.execute_resource_action proc action
      else x.log_event ("进程 " ++ toString proc.pid ++ " 执行未知操作 " ++ action.kind)) := by
  split
  · exact blockedExt_rfl x
  · split
    · exact blockedExt_of_eq (execute_memory_blocked x proc action)
    · split
      · exact execute_pc_blockedExt x proc action
      · split
        · exact blockedExt_of_eq rfl
        · split
          · exact execute_resource_blockedExt x proc action
          · exact blockedExt_of_eq rfl

theorem blocked_if_tail (x : OSSimulator) {c : Prop} [Decidable c] (y : OSSimulator)
    (q : Process) (h : BlockedExt x y) :
    BlockedExt x (if c then y else y.run_action_tail q) := by
  split
  · exact h
  · exact blockedExt_trans h (blockedExt_of_eq (run_action_tail_blocked _ _))

theorem run_action_blockedExt (x : OSSimulator) (p : Process) :
    BlockedExt x (x.run_action p) := by
  unfold OSSimulator.run_action
  split
  · exact blockedExt_of_eq rfl
  · rename_i action ha
    simp only []
    split
    · exact blockedExt_trans (blockedExt_of_eq rfl) (block_blockedExt _ _ _)
    · apply blocked_if_tail
      exact blockedExt_trans (blockedExt_of_eq rfl) (effect_blockedExt _ p action)

theorem runPhase_blockedExt (x : OSSimulator) : BlockedExt x (x.runPhase) := by
  unfold OSSimulator.runPhase
  split
  · split
    · exact run_action_blockedExt _ _
    · exact blockedExt_rfl x
  · exact blockedExt_of_eq rfl

theorem dispatch_blocked (x : OSSimulator) : (x.dispatch_if_needed).blocked = x.blocked := by
  unfold OSSimulator.dispatch_if_needed
  split
  · rfl
  · split
    · rfl
    · simp only []
      split <;> rfl

theorem spawn_blocked (x : OSSimulator) : (x.spawn_dynamic_job).blocked = x.blocked := rfl

/-- Requeueing a woken pid puts it back at queue level 0 and appends it to
ready queue 0. -/
theorem reqStep_level0 {x : OSSimulator} {pid : Nat} {p : Process} (reason : String)
    (h : x.getProc pid = some p) (hpid : p.pid = pid) :
    (reqStep x (pid, reason)).getProc pid = some { p with queue_level := 0 } ∧
    (reqStep x (pid, reason)).ready_queues =
      x.ready_queues.set 0 ((x.ready_queues.getD 0 []) ++ [pid]) := by
  subst hpid
  unfold reqStep
  simp only []
  rw [h]
  simp only []
  split <;> exact ⟨alookup_ainsert_self _ _ _, rfl⟩
/-- C9: wakes happen only at the next tick's wake pass.  A `res_release`
(any non-acquire resource action) changes no scheduler structure — pool,
ready queues, blocked, finished and the running slot are untouched, only the
shared counter and the log change; anyone still blocked after a tick's wake
pass is still in the blocked list at the end of that whole `step` (the
dispatch/run phase never removes from it, so a resource released during tick
t can make a waiter Ready no earlier than tick t+1's wake pass); and the
wake-pass requeue re-enters a woken pid at queue level 0, appended to ready
queue 0. -/
theorem C9_wake_next_tick : ∀ (s x : OSSimulator) (proc p : Process)
    (action : ProcessAction) (q pid : Nat) (reason : String),
    (¬action.kind = "res_acquire" →
      (x.execute_resource_action proc action).process_pool = x.process_pool ∧
      (x.execute_resource_action proc action).ready_queues = x.ready_queues ∧
      (x.execute_resource_action proc action).blocked = x.blocked ∧
      (x.execute_resource_action proc action).finished = x.finished ∧
      (x.execute_resource_action proc action).running = x.running) ∧
    (q ∈ (((({ s with clock := s.clock + 1 }).log_event
        "===== 时钟跳动 =====").admitArrivals).handle_blocked).blocked →
      q ∈ (s.step).blocked) ∧
    (x.getProc pid = some p → p.pid = pid →
      (reqStep x (pid, reason)).getProc pid = some { p with queue_level := 0 } ∧
      (reqStep x (pid, reason)).ready_queues =
        x.ready_queues.set 0 ((x.ready_queues.getD 0 []) ++ [pid])) := by
  intro s x proc p action q pid reason
  refine ⟨?_, ?_, fun h hpid => reqStep_level0 reason h hpid⟩
  · intro hk
    refine ⟨?_, ?_, ?_, ?_, ?_⟩ <;>
      (unfold OSSimulator.execute_resource_action; simp only []; rw [if_neg hk]; rfl)
  · intro hq
    unfold OSSimulator.step
    simp only []
    obtain ⟨l, hl⟩ := runPhase_blockedExt ((((({ s with clock := s.clock + 1 }).log_event
        "===== 时钟跳动 =====").admitArrivals).handle_blocked).dispatch_if_needed)
    split
    · rw [spawn_blocked, hl, dispatch_blocked]
      exact List.mem_append_left _ hq
    · rw [hl, dispatch_blocked]
      exact List.mem_append_left _ hq
